import Mathlib

/-!
# cass-operator: image resolution and headless-service reconciliation

A shallow embedding of `pkg/images/images.go` and
`pkg/reconciliation/reconcile_services.go`, followed by the theorems that
settle the claims made about them.

Go strings are modelled as lists of characters.  Every delimiter and every
pattern atom used by the code (`/`, `.`, `:`, the decimal digits) is ASCII, so
splitting and matching on characters agrees with Go's byte-wise behaviour on
UTF-8 text.
-/

/-- A Go `string`. -/
abbrev Str := List Char

/-! ## The parts of the Go standard library the code calls -/

namespace Strings

/-- `strings.Split(s, sep)` for a one-character separator: the pieces of `s`
between the occurrences of `sep`; the result is never empty. -/
def Split (sep : Char) : Str → List Str
  | [] => [[]]
  | c :: cs =>
    if c = sep then [] :: Split sep cs
    else
      match Split sep cs with
      | [] => [[c]]
      | piece :: pieces => (c :: piece) :: pieces

/-- `strings.Join(elems, sep)`. -/
def Join (sep : Str) : List Str → Str
  | [] => []
  | [x] => x
  | x :: y :: rest => x ++ sep ++ Join sep (y :: rest)

/-- `strings.Contains(s, substr)`: `substr` occurs somewhere inside `s`. -/
def Contains (s substr : Str) : Bool :=
  s.tails.any (fun t => substr.isPrefixOf t)

/-- `strings.TrimSuffix(s, suffix)`: `s` without the trailing `suffix`, or `s`
itself when it does not end in `suffix`. -/
def TrimSuffix (s suffix : Str) : Str :=
  if suffix.isSuffixOf s then s.take (s.length - suffix.length) else s

end Strings

namespace Regexp

open RegularExpression

/-- The characters matched by `\d` in Go's RE2 syntax: the ASCII digits. -/
def decimalDigits : List Char := ['0', '1', '2', '3', '4', '5', '6', '7', '8', '9']

/-- The character class `\d`, as the alternation of its members. -/
def digit : RegularExpression Char :=
  decimalDigits.foldr (fun c r => char c + r) 0

/-- A run of literal characters, such as `6\.8\.`. -/
def lit (s : Str) : RegularExpression Char :=
  s.foldr (fun c r => char c * r) 1

/-- The operator `+` written after an expression: one or more repetitions. -/
def oneOrMore (r : RegularExpression Char) : RegularExpression Char :=
  r * star r

/-- `(*Regexp).MatchString(s)`: whether `s` contains a match of the pattern.
The search is not anchored: every substring of `s` is a candidate. -/
def MatchString (re : RegularExpression Char) (s : Str) : Bool :=
  s.tails.any (fun t => t.inits.any (fun m => re.rmatch m))

end Regexp

/-! ## `pkg/images/images.go` -/

namespace images

open Strings Regexp

/-- Modelled from the spec: the type `configv1beta1.ImageComponent` is declared
outside `images.go`; a default image component is a repository and a suffix. -/
structure ImageComponent where
  Repository : Str := []
  Suffix : Str := []

/-- Modelled from the spec: the type `configv1beta1.Images` is declared outside
`images.go`; it holds the per-version override map of each server type (a Go
`map[string]string`, read here only through key lookup) and the auxiliary
image references. -/
structure Images where
  CassandraVersions : Str → Option Str := fun _ => none
  DSEVersions : Str → Option Str := fun _ => none
  SystemLogger : Str := []
  ConfigBuilder : Str := []

/-- Modelled from the spec: the type `configv1beta1.DefaultImages` is declared
outside `images.go`; it holds the default image component of each server
type. -/
structure DefaultImages where
  CassandraImageComponent : ImageComponent := {}
  DSEImageComponent : ImageComponent := {}

/-- Modelled from the spec: the type `configv1beta1.ImageConfig` is declared
outside `images.go`; it holds the registry override, the default image
components, the per-version overrides with the auxiliary images, and the
pull-secret name.  `Images` and `DefaultImages` are pointers in Go, compared
with nil by the code; `ImagePullSecret` is the `Name` of the local object
reference. -/
structure ImageConfig where
  Images : Option Images := none
  DefaultImages : Option DefaultImages := none
  ImageRegistry : Str := []
  ImagePullSecret : Str := []

/-- The pattern `(6\.8\.\d+)|(7\.\d+\.\d+)`. -/
def ValidDseVersionRegexp : RegularExpression Char :=
  (lit "6.8.".toList * oneOrMore digit)
    + (lit "7.".toList * oneOrMore digit * lit ".".toList * oneOrMore digit)

/-- The pattern `(3\.11\.\d+)|(4\.\d+\.\d+)|(5\.\d+\.\d+)`. -/
def ValidOssVersionRegexp : RegularExpression Char :=
  (lit "3.11.".toList * oneOrMore digit)
    + (lit "4.".toList * oneOrMore digit * lit ".".toList * oneOrMore digit)
    + (lit "5.".toList * oneOrMore digit * lit ".".toList * oneOrMore digit)

def DefaultCassandraRepository : Str := "k8ssandra/cass-management-api".toList

def DefaultDSERepository : Str := "datastax/dse-server".toList

def IsDseVersionSupported (version : Str) : Bool :=
  MatchString ValidDseVersionRegexp version

def IsOssVersionSupported (version : Str) : Bool :=
  MatchString ValidOssVersionRegexp version

def stripRegistry (image : Str) : Str :=
  let comps := Split '/' image
  if comps.length > 1
      && (Contains (comps.headD []) ".".toList || Contains (comps.headD []) ":".toList) then
    Join "/".toList (comps.drop 1)
  else
    image

def applyDefaultRegistryOverride (cfg : ImageConfig) (image : Str) : Str :=
  let customRegistry := TrimSuffix cfg.ImageRegistry "/".toList
  if customRegistry = [] then
    image
  else
    let imageNoRegistry := stripRegistry image
    customRegistry ++ "/".toList ++ imageNoRegistry

def ApplyRegistry (cfg : ImageConfig) (image : Str) : Str :=
  applyDefaultRegistryOverride cfg image

def getCassandraContainerImageOverride (cfg : ImageConfig) (serverType version : Str) :
    Bool × Str :=
  match cfg.Images with
  | some images =>
    match (if serverType = "dse".toList then images.DSEVersions version else none) with
    | some value => (true, value)
    | none =>
      match (if serverType = "cassandra".toList then images.CassandraVersions version
             else none) with
      | some value => (true, value)
      | none => (false, [])
  | none => (false, [])

def getImageComponents (cfg : ImageConfig) (serverType : Str) : Str × Str :=
  let defaultPfx0 : Str := []
  let defaultPfx1 := if serverType = "dse".toList then DefaultDSERepository else defaultPfx0
  let defaultPfx :=
    if serverType = "cassandra".toList then DefaultCassandraRepository else defaultPfx1
  match cfg.DefaultImages with
  | some defaults =>
    let component0 : ImageComponent := {}
    let component1 :=
      if serverType = "dse".toList then defaults.DSEImageComponent else component0
    let component :=
      if serverType = "cassandra".toList then defaults.CassandraImageComponent else component1
    if component.Repository ≠ [] then
      (component.Repository, component.Suffix)
    else
      (defaultPfx, [])
  | none => (defaultPfx, [])

/-- The Go function returns `(string, error)`; the error is modelled by its
message. -/
def GetCassandraImage (cfg : ImageConfig) (serverType version : Str) : Str × Option Str :=
  match getCassandraContainerImageOverride cfg serverType version with
  | (true, image) => (ApplyRegistry cfg image, none)
  | (false, _) =>
    if serverType = "dse".toList then
      if !IsDseVersionSupported version then
        ([], some ("server 'dse' and version '".toList ++ version
                    ++ "' do not work together".toList))
      else
        let (pfx, suffix) := getImageComponents cfg serverType
        (ApplyRegistry cfg (pfx ++ ":".toList ++ version ++ suffix), none)
    else
      if !IsOssVersionSupported version then
        ([], some ("server 'cassandra' and version '".toList ++ version
                    ++ "' do not work together".toList))
      else
        let (pfx, suffix) := getImageComponents cfg serverType
        (ApplyRegistry cfg (pfx ++ ":".toList ++ version ++ suffix), none)

/-- `GetConfigBuilderImage`.  The Go code reads `GetImageConfig().Images.ConfigBuilder`
with no nil check: when `Images` is nil the read panics, which is the result
`none`. -/
def GetConfigBuilderImage (cfg : ImageConfig) : Option Str :=
  match cfg.Images with
  | none => none
  | some images => some (ApplyRegistry cfg images.ConfigBuilder)

/-- `GetSystemLoggerImage`.  The Go code reads `GetImageConfig().Images.SystemLogger`
with no nil check: when `Images` is nil the read panics, which is the result
`none`. -/
def GetSystemLoggerImage (cfg : ImageConfig) : Option Str :=
  match cfg.Images with
  | none => none
  | some images => some (ApplyRegistry cfg images.SystemLogger)

/-- `corev1.LocalObjectReference`. -/
structure LocalObjectReference where
  Name : Str
  deriving DecidableEq

/-- `corev1.PodSpec`: the pull-secret list, and some of the fields the function
does not touch. -/
structure PodSpec where
  ImagePullSecrets : List LocalObjectReference := []
  Containers : List Str := []
  InitContainers : List Str := []
  ServiceAccountName : Str := []
  NodeSelector : List (Str × Str) := []
  HostNetwork : Bool := false
  deriving DecidableEq

/-- `AddDefaultRegistryImagePullSecrets`: the returned flag and the pod spec
after the call (the Go function changes it through the pointer). -/
def AddDefaultRegistryImagePullSecrets (cfg : ImageConfig) (podSpec : PodSpec) :
    Bool × PodSpec :=
  let secretName := cfg.ImagePullSecret
  if secretName ≠ [] then
    (true, { podSpec with
      ImagePullSecrets := podSpec.ImagePullSecrets ++ [{ Name := secretName }] })
  else
    (false, podSpec)

/-- `GetImageConfig`, reading the package variable `imageConfig`, a pointer that
is nil until a configuration is loaded. -/
def GetImageConfig (imageConfig : Option ImageConfig) : Option ImageConfig :=
  imageConfig

/-- `LoadImageConfig`: the two values returned (the parsed configuration or
nil, and the error or nil) and the package variable `imageConfig` after the
call.  `decode` stands for `runtime.DecodeInto` with the universal decoder of
the scheme, applied to the content and a fresh `ImageConfig`; the content is a
`[]byte`. -/
def LoadImageConfig (decode : List Nat → Except Str ImageConfig) (content : List Nat)
    (imageConfig : Option ImageConfig) :
    (Option ImageConfig × Option Str) × Option ImageConfig :=
  match decode content with
  | .error err =>
    ((none, some ("could not decode file into runtime.Object: ".toList ++ err)), imageConfig)
  | .ok parsedImageConfig =>
    ((some parsedImageConfig, none), some parsedImageConfig)

/-- A decoder for the examples: it rejects the empty content and reads any
other content as the configuration with registry `my.registry.io`. -/
def exampleDecode (content : List Nat) : Except Str ImageConfig :=
  if content = [] then .error "empty document".toList
  else .ok { ImageRegistry := "my.registry.io".toList }

/-! ### The version shapes the specification names -/

/-- A non-empty run of decimal digits. -/
def IsNumber (n : Str) : Prop := n ≠ [] ∧ ∀ c ∈ n, c ∈ decimalDigits

def DseShape (v : Str) : Prop :=
  (∃ n, IsNumber n ∧ v = "6.8.".toList ++ n)
    ∨ (∃ a b, IsNumber a ∧ IsNumber b ∧ v = "7.".toList ++ a ++ ".".toList ++ b)

def OssShape (v : Str) : Prop :=
  (∃ n, IsNumber n ∧ v = "3.11.".toList ++ n)
    ∨ (∃ a b, IsNumber a ∧ IsNumber b ∧ v = "4.".toList ++ a ++ ".".toList ++ b)
    ∨ (∃ a b, IsNumber a ∧ IsNumber b ∧ v = "5.".toList ++ a ++ ".".toList ++ b)

end images

/-! ## `pkg/reconciliation/reconcile_services.go` -/

namespace reconciliation

/-- A Go `error` value, by the reason the API machinery attaches to it. -/
inductive Err
  | NotFound
  | AlreadyExists
  | Conflict
  | Forbidden
  | Other (msg : Str)
  deriving DecidableEq

/-- `errors.IsNotFound(err)`. -/
def IsNotFound : Err → Bool
  | .NotFound => true
  | _ => false

/-- `types.NamespacedName`. -/
structure NamespacedName where
  Name : Str
  Namespace : Str
  deriving DecidableEq

/-- `metav1.OwnerReference`, reduced to the fields that identify the owner. -/
structure OwnerReference where
  Kind : Str
  Name : Str
  Controller : Bool
  deriving DecidableEq

/-- `corev1.Service`, with the metadata and spec fields flattened into one
record.  `ResourceVersion` is the optimistic-concurrency token and `ClusterIP`
the address the platform allocates (`Spec.ClusterIP`). -/
structure Service where
  Name : Str
  Namespace : Str
  ResourceVersion : Str := []
  Labels : List (Str × Str) := []
  Annotations : List (Str × Str) := []
  OwnerReferences : List OwnerReference := []
  ClusterIP : Str := []
  ServiceType : Str := []
  Ports : List (Str × Nat) := []
  Selector : List (Str × Str) := []
  PublishNotReadyAddresses : Bool := false
  deriving DecidableEq

/-- The outcome of `client.Get`: the object read, or the error returned. -/
inductive Lookup
  | found (svc : Service)
  | failed (err : Err)
  deriving DecidableEq

/-- Modelled from the spec: the type `result.ReconcileResult` is declared in
`pkg/internal/result`; it is the tri-state outcome of a step, `Continue`,
`Done` or `Error(cause)`. -/
inductive ReconcileResult
  | Continue
  | Done
  | Error (cause : Err)
  deriving DecidableEq

/-- The functions that the two methods call and that are defined in other
files of the repository: the five service builders, `dc.IsNodePortEnabled()`,
`setControllerReference(dc, svc, rc.Scheme)` (the stamped service, or the
error) and `utils.ResourcesHaveSameHash`.  They are parameters of the model. -/
structure Helpers (DC : Type) where
  newServiceForCassandraDatacenter : DC → Service
  newSeedServiceForCassandraDatacenter : DC → Service
  newAllPodsServiceForCassandraDatacenter : DC → Service
  newAdditionalSeedServiceForCassandraDatacenter : DC → Service
  newNodePortServiceForCassandraDatacenter : DC → Service
  IsNodePortEnabled : DC → Bool
  setControllerReference : DC → Service → Except Err Service
  ResourcesHaveSameHash : Service → Service → Bool

/-- The resource store behind `rc.Client`, as a deterministic machine over a
state `σ`: each call returns its answer and the next state.
`setOperatorProgressStatus`, defined in another file of the repository, writes
the datacenter's progress status through the same client; the status is not
read by the two methods and is part of the state `σ`. -/
structure Client (σ DC : Type) where
  Get : σ → NamespacedName → Lookup × σ
  Create : σ → Service → Option Err × σ
  Update : σ → Service → Option Err × σ
  setOperatorProgressStatus : σ → DC → Option Err × σ

/-- The fields of `ReconciliationContext` that the two methods use. -/
structure ReconciliationContext (σ DC : Type) where
  Client : σ
  Datacenter : DC
  Services : List Service := []

/-- One entry of the record kept of a pass: every call made on the store, with
its answer, and every event handed to `rc.Recorder`.  `idx` is the loop index
at which the call is made. -/
inductive Call (DC : Type)
  | get (idx : Nat) (nsName : NamespacedName) (res : Lookup)
  | update (idx : Nat) (obj : Service) (err : Option Err)
  | progress (err : Option Err)
  | create (idx : Nat) (obj : Service) (err : Option Err)
  | event (dc : DC) (eventtype reason message : Str)
  deriving DecidableEq

/-- What a method leaves behind: its result, the context after it, and the
calls it made, in order. -/
structure Pass (σ DC : Type) where
  result : ReconcileResult
  rc : ReconciliationContext σ DC
  trace : List (Call DC)

variable {σ DC : Type}

/-- How one run of a loop body ends: with `return result.Error(err)`, or by
reaching the end of the body.  Either way it hands on the client state and the
calls it made. -/
inductive BodyOutcome (σ DC α : Type)
  | returned (err : Err) (c : σ) (calls : List (Call DC))
  | next (carry : α) (c : σ) (calls : List (Call DC))

/-- The body of the loop `for idx := range rc.Services` of
`CreateHeadlessServices`, for the service at index `idx`. -/
def createBody (k : Client σ DC) (dc : DC) (idx : Nat) (service : Service) (c : σ) :
    BodyOutcome σ DC Unit :=
  match k.setOperatorProgressStatus c dc with
  | (some err, c1) => .returned err c1 [.progress (some err)]
  | (none, c1) =>
    match k.Create c1 service with
    | (some err, c2) => .returned err c2 [.progress none, .create idx service (some err)]
    | (none, c2) =>
      .next () c2
        [.progress none, .create idx service none,
         .event dc "Normal".toList "CreatedResource".toList
           ("Created service ".toList ++ service.Name)]

/-- The loop `for idx := range rc.Services` of `CreateHeadlessServices`, from
index `idx` on; after the loop the method returns `result.Continue()`. -/
def createLoop (k : Client σ DC) (dc : DC) :
    Nat → List Service → σ → ReconcileResult × σ × List (Call DC)
  | _, [], c => (.Continue, c, [])
  | idx, service :: rest, c =>
    match createBody k dc idx service c with
    | .returned err c1 calls => (.Error err, c1, calls)
    | .next _ c1 calls =>
      let out := createLoop k dc (idx + 1) rest c1
      (out.1, out.2.1, calls ++ out.2.2)

def CreateHeadlessServices (k : Client σ DC) (rc : ReconciliationContext σ DC) : Pass σ DC :=
  let out := createLoop k rc.Datacenter 0 rc.Services rc.Client
  { result := out.1, rc := { rc with Client := out.2.1 }, trace := out.2.2 }

/-- The services `CheckHeadlessServices` builds before its loop. -/
def desiredServices (h : Helpers DC) (dc : DC) : List Service :=
  let cqlService := h.newServiceForCassandraDatacenter dc
  let seedService := h.newSeedServiceForCassandraDatacenter dc
  let allPodsService := h.newAllPodsServiceForCassandraDatacenter dc
  let additionalSeedService := h.newAdditionalSeedServiceForCassandraDatacenter dc
  let services := [cqlService, seedService, allPodsService, additionalSeedService]
  if h.IsNodePortEnabled dc then
    services ++ [h.newNodePortServiceForCassandraDatacenter dc]
  else
    services

/-- The name under which a service is looked up. -/
def nsNameOf (svc : Service) : NamespacedName :=
  { Name := svc.Name, Namespace := svc.Namespace }

/-- The object handed to `client.Update`: the desired service with the
observed `ClusterIP` copied in, deep-copied over the observed object, and the
observed resource version set again. -/
def mergedForUpdate (currentService desiredSvc : Service) : Service :=
  let resourceVersion := currentService.ResourceVersion
  let desiredSvc1 := { desiredSvc with ClusterIP := currentService.ClusterIP }
  let currentService1 := desiredSvc1
  { currentService1 with ResourceVersion := resourceVersion }

/-- The body of the loop `for idx := range services` of
`CheckHeadlessServices`, for the service at index `idx`; it carries the slice
`createNeeded`. -/
def checkBody (h : Helpers DC) (k : Client σ DC) (dc : DC) (idx : Nat) (svc : Service)
    (createNeeded : List Service) (c : σ) : BodyOutcome σ DC (List Service) :=
  match h.setControllerReference dc svc with
  | .error err => .returned err c []
  | .ok desiredSvc =>
    let nsName := nsNameOf desiredSvc
    match k.Get c nsName with
    | (.failed err, c1) =>
      if IsNotFound err then
        .next (createNeeded ++ [desiredSvc]) c1 [.get idx nsName (.failed err)]
      else
        .returned err c1 [.get idx nsName (.failed err)]
    | (.found currentService, c1) =>
      if !h.ResourcesHaveSameHash currentService desiredSvc then
        let updated := mergedForUpdate currentService desiredSvc
        match k.Update c1 updated with
        | (some err, c2) =>
          .returned err c2
            [.get idx nsName (.found currentService), .update idx updated (some err)]
        | (none, c2) =>
          .next createNeeded c2
            [.get idx nsName (.found currentService), .update idx updated none]
      else
        .next createNeeded c1 [.get idx nsName (.found currentService)]

/-- What the loop `for idx := range services` of `CheckHeadlessServices`
leaves behind: the error it returned on, if any, the slice `createNeeded`, the
client state and the calls made. -/
structure CheckOutcome (σ DC : Type) where
  err : Option Err
  createNeeded : List Service
  Client : σ
  trace : List (Call DC)

/-- The loop `for idx := range services` of `CheckHeadlessServices`, from index
`idx` on. -/
def checkLoop (h : Helpers DC) (k : Client σ DC) (dc : DC) :
    Nat → List Service → List Service → σ → CheckOutcome σ DC
  | _, [], createNeeded, c =>
    { err := none, createNeeded := createNeeded, Client := c, trace := [] }
  | idx, svc :: rest, createNeeded, c =>
    match checkBody h k dc idx svc createNeeded c with
    | .returned err c1 calls =>
      { err := some err, createNeeded := createNeeded, Client := c1, trace := calls }
    | .next createNeeded1 c1 calls =>
      let out := checkLoop h k dc (idx + 1) rest createNeeded1 c1
      { out with trace := calls ++ out.trace }

def CheckHeadlessServices (h : Helpers DC) (k : Client σ DC)
    (rc : ReconciliationContext σ DC) : Pass σ DC :=
  let dc := rc.Datacenter
  let services := desiredServices h dc
  let out := checkLoop h k dc 0 services [] rc.Client
  match out.err with
  | some err =>
    { result := .Error err, rc := { rc with Client := out.Client }, trace := out.trace }
  | none =>
    if out.createNeeded.length > 0 then
      let created := CreateHeadlessServices k
        { rc with Client := out.Client, Services := out.createNeeded }
      { created with trace := out.trace ++ created.trace }
    else
      { result := .Continue, rc := { rc with Client := out.Client }, trace := out.trace }

/-! ### Reading a trace -/

def Call.isGet : Call DC → Bool
  | .get _ _ _ => true
  | _ => false

def Call.isUpdate : Call DC → Bool
  | .update _ _ _ => true
  | _ => false

def Call.isCreate : Call DC → Bool
  | .create _ _ _ => true
  | _ => false

/-- The call is a store call that failed: a lookup with an error other than
not-found, or a write that returned an error. -/
def Call.isFailure : Call DC → Bool
  | .get _ _ (.failed err) => !IsNotFound err
  | .update _ _ (some _) => true
  | .progress (some _) => true
  | .create _ _ (some _) => true
  | _ => false

/-- The lookup made at index `i` answered not-found. -/
def lookupNotFound (trace : List (Call DC)) (i : Nat) : Bool :=
  trace.any fun call =>
    match call with
    | .get j _ (.failed err) => j == i && IsNotFound err
    | _ => false

/-- The objects handed to `client.Create`, in the order of the calls. -/
def createdObjects (trace : List (Call DC)) : List Service :=
  trace.filterMap fun call =>
    match call with
    | .create _ obj _ => some obj
    | _ => none

/-- The part of a trace from its first create on. -/
def fromFirstCreate (trace : List (Call DC)) : List (Call DC) :=
  trace.dropWhile fun call => !call.isCreate

/-- The desired services whose lookup answered not-found, stamped with the
owner reference, in the order of the desired sequence. -/
def missingServices (h : Helpers DC) (dc : DC) (trace : List (Call DC)) :
    Nat → List Service → List Service
  | _, [] => []
  | idx, svc :: rest =>
    match h.setControllerReference dc svc with
    | .ok desiredSvc =>
      if lookupNotFound trace idx then desiredSvc :: missingServices h dc trace (idx + 1) rest
      else missingServices h dc trace (idx + 1) rest
    | .error _ => missingServices h dc trace (idx + 1) rest

/-- The desired services the check loop gets to, stamped with the owner
reference: the loop returns at the first service whose owner reference cannot
be set. -/
def stampedUntilError (h : Helpers DC) (dc : DC) : List Service → List Service
  | [] => []
  | svc :: rest =>
    match h.setControllerReference dc svc with
    | .ok desiredSvc => desiredSvc :: stampedUntilError h dc rest
    | .error _ => []

/-- The first error of `setControllerReference` over the desired services, if
there is one. -/
def stampError (h : Helpers DC) (dc : DC) : List Service → Option Err
  | [] => none
  | svc :: rest =>
    match h.setControllerReference dc svc with
    | .ok _ => stampError h dc rest
    | .error err => some err

/-- Two desired services are stored under different names: once stamped, they
differ in name or namespace. -/
def DistinctNames (h : Helpers DC) (dc : DC) (a b : Service) : Prop :=
  ∀ da db, h.setControllerReference dc a = .ok da → h.setControllerReference dc b = .ok db →
    nsNameOf da ≠ nsNameOf db

/-- The hash of a desired service ignores the two fields the platform assigns:
the stamped service with any `ClusterIP` and resource version put in has the
same hash as the stamped service. -/
def HashIgnoresAssigned (h : Helpers DC) (dc : DC) (svc : Service) : Prop :=
  ∀ dd, h.setControllerReference dc svc = .ok dd → ∀ clusterIP resourceVersion,
    h.ResourcesHaveSameHash
      { dd with ClusterIP := clusterIP, ResourceVersion := resourceVersion } dd = true

/-- The error of a store call that failed: a lookup with an error other than
not-found, or a write that returned an error. -/
def Call.failure : Call DC → Option Err
  | .get _ _ (.failed err) => if IsNotFound err then none else some err
  | .update _ _ err => err
  | .progress err => err
  | .create _ _ err => err
  | _ => none

/-- The index of the desired service a lookup or an update is made for. -/
def Call.checkIndex : Call DC → Option Nat
  | .get idx _ _ => some idx
  | .update idx _ _ => some idx
  | _ => none

/-- The names looked up, in the order of the lookups. -/
def lookedUp (trace : List (Call DC)) : List NamespacedName :=
  trace.filterMap fun call =>
    match call with
    | .get _ nsName _ => some nsName
    | _ => none

/-- The events handed to the recorder, in order: the object each is attached
to, its type, its reason and its message. -/
def recordedEvents (trace : List (Call DC)) : List (DC × Str × Str × Str) :=
  trace.filterMap fun call =>
    match call with
    | .event dc eventtype reason message => some (dc, eventtype, reason, message)
    | _ => none

/-- The objects whose create succeeded, in the order of the calls. -/
def successfulCreates (trace : List (Call DC)) : List Service :=
  trace.filterMap fun call =>
    match call with
    | .create _ obj none => some obj
    | _ => none

/-! ### A store and helpers to run the methods on -/

/-- An in-memory store: what is kept under each name. -/
abbrev Store := NamespacedName → Option Service

/-- The store after `obj` is written under its name. -/
def Store.put (s : Store) (obj : Service) : Store :=
  fun n => if n = nsNameOf obj then some obj else s n

/-- The store of the idempotence property: it returns exactly what was last
created or updated under a name, and no call on it fails. -/
def memClient : Client Store DC where
  Get := fun s n =>
    match s n with
    | some obj => (.found obj, s)
    | none => (.failed .NotFound, s)
  Create := fun s obj => (none, s.put obj)
  Update := fun s obj => (none, s.put obj)
  setOperatorProgressStatus := fun s _ => (none, s)

/-- The in-memory store behind a permission check: a lookup of a name in
`denied` fails with `Forbidden`. -/
def deniedClient (denied : List NamespacedName) : Client Store DC where
  Get := fun s n =>
    if n ∈ denied then (.failed .Forbidden, s)
    else
      match s n with
      | some obj => (.found obj, s)
      | none => (.failed .NotFound, s)
  Create := fun s obj => (none, s.put obj)
  Update := fun s obj => (none, s.put obj)
  setOperatorProgressStatus := fun s _ => (none, s)

/-- A datacenter for the examples. -/
structure ExampleDC where
  Name : Str
  Namespace : Str
  NodePort : Bool := false
  deriving DecidableEq

/-- A service of the example datacenter, carrying its hash as an annotation. -/
def exampleService (dc : ExampleDC) (role hash : Str) : Service :=
  { Name := dc.Name ++ role, Namespace := dc.Namespace,
    Annotations := [("hash".toList, hash)] }

/-- Helpers for the examples: five services with distinct names, a hash kept
in an annotation and compared as such, and an owner reference that cannot be
set on the services named in `unownable`. -/
def exampleHelpers (unownable : List Str) : Helpers ExampleDC where
  newServiceForCassandraDatacenter := fun dc => exampleService dc "-service".toList "h1".toList
  newSeedServiceForCassandraDatacenter := fun dc =>
    exampleService dc "-seed-service".toList "h2".toList
  newAllPodsServiceForCassandraDatacenter := fun dc =>
    exampleService dc "-all-pods-service".toList "h3".toList
  newAdditionalSeedServiceForCassandraDatacenter := fun dc =>
    exampleService dc "-additional-seed-service".toList "h4".toList
  newNodePortServiceForCassandraDatacenter := fun dc =>
    exampleService dc "-node-port-service".toList "h5".toList
  IsNodePortEnabled := fun dc => dc.NodePort
  setControllerReference := fun dc svc =>
    if svc.Name ∈ unownable then .error (.Other "cannot set owner".toList)
    else .ok { svc with OwnerReferences :=
      [{ Kind := "CassandraDatacenter".toList, Name := dc.Name, Controller := true }] }
  ResourcesHaveSameHash := fun a b =>
    match a.Annotations.lookup "hash".toList, b.Annotations.lookup "hash".toList with
    | some x, some y => x == y
    | _, _ => false

/-- The example datacenter `dc1` in namespace `ns`. -/
def exampleDC : ExampleDC := { Name := "dc1".toList, Namespace := "ns".toList }

/-- A service of `dc1` after `setControllerReference`. -/
def exampleStamped (role hash : Str) : Service :=
  { exampleService exampleDC role hash with
    OwnerReferences :=
      [{ Kind := "CassandraDatacenter".toList, Name := "dc1".toList, Controller := true }] }

/-- Helpers for the examples in which the client-facing service is built with
an address of its own, `10.9.9.9`. -/
def addressedHelpers : Helpers ExampleDC :=
  { exampleHelpers [] with
    newServiceForCassandraDatacenter := fun dc =>
      { exampleService dc "-service".toList "h1".toList with
        ClusterIP := "10.9.9.9".toList } }

/-- Helpers for the examples in which the hash is taken over the whole object,
the `ClusterIP` and the resource version included: two services have the same
hash exactly when they are equal. -/
def wholeObjectHelpers : Helpers ExampleDC :=
  { exampleHelpers [] with
    ResourcesHaveSameHash := fun a b => decide (a = b) }

/-- Helpers for the examples in which the seed service is built under the name
of the client-facing service. -/
def sameNameHelpers : Helpers ExampleDC :=
  { exampleHelpers [] with
    newSeedServiceForCassandraDatacenter := fun dc =>
      exampleService dc "-service".toList "h2".toList }

/-- The empty store. -/
def emptyStore : Store := fun _ => none

/-- A client-facing service of `dc1` as the platform holds it: an older hash,
the allocated address `10.0.0.5` and the resource version `7`. -/
def staleService : Service :=
  { Name := "dc1-service".toList, Namespace := "ns".toList, ResourceVersion := "7".toList,
    Annotations := [("hash".toList, "h0".toList)], ClusterIP := "10.0.0.5".toList }

/-- The store that holds `staleService` and nothing else. -/
def staleStore : Store := emptyStore.put staleService

/-- The name of the seed service of `dc1`. -/
def seedServiceName : NamespacedName :=
  { Name := "dc1-seed-service".toList, Namespace := "ns".toList }

/-- The name of the service of `dc1` whose owner reference cannot be set in
the example of a failing `setControllerReference`. -/
def unownableName : Str := "dc1-seed-service".toList

/-- The store a pass over the empty store leaves behind: the four desired
services of `dc1`, as created. -/
def convergedStore : Store :=
  (CheckHeadlessServices (exampleHelpers []) memClient
    { Client := emptyStore, Datacenter := exampleDC }).rc.Client

end reconciliation

/-! # Theorems -/

/-! ## Strings and patterns -/

namespace Regexp
open RegularExpression

theorem mem_lit (s x : Str) : x ∈ (lit s).matches' ↔ x = s := by
  induction s generalizing x with
  | nil => simp [lit, RegularExpression.matches', Language.mem_one]
  | cons c cs ih =>
    have hl : lit (c :: cs) = char c * lit cs := rfl
    rw [hl, matches'_mul, Language.mem_mul]
    constructor
    · rintro ⟨a, ha, b, hb, rfl⟩
      rw [matches'_char] at ha
      have ha' : a = [c] := ha
      rw [(ih b).1 hb, ha']; rfl
    · rintro rfl
      exact ⟨[c], by rw [matches'_char]; rfl, cs, (ih cs).2 rfl, rfl⟩

theorem mem_alternation (cs : List Char) (x : Str) :
    x ∈ (cs.foldr (fun c r => char c + r) 0).matches' ↔ ∃ c ∈ cs, x = [c] := by
  induction cs with
  | nil => simp [RegularExpression.matches']
  | cons c cs ih =>
    simp only [List.foldr_cons, matches'_add, Language.mem_add, ih, List.mem_cons,
      exists_eq_or_imp, matches'_char]
    rfl

theorem mem_digit (x : Str) : x ∈ digit.matches' ↔ ∃ c ∈ decimalDigits, x = [c] :=
  mem_alternation decimalDigits x

theorem mem_oneOrMore_digit (x : Str) :
    x ∈ (oneOrMore digit).matches' ↔ images.IsNumber x := by
  unfold oneOrMore images.IsNumber
  rw [matches'_mul, matches'_star, Language.mem_mul]
  constructor
  · rintro ⟨a, ha, b, hb, rfl⟩
    obtain ⟨c, hc, rfl⟩ := (mem_digit a).1 ha
    refine ⟨by simp, ?_⟩
    obtain ⟨L, rfl, hL⟩ := Language.mem_kstar.1 hb
    intro d hd
    simp only [List.singleton_append, List.mem_cons, List.mem_flatten] at hd
    rcases hd with rfl | ⟨y, hy, hdy⟩
    · exact hc
    · obtain ⟨e, he, rfl⟩ := (mem_digit y).1 (hL y hy)
      simp only [List.mem_singleton] at hdy
      exact hdy ▸ he
  · rintro ⟨hne, hall⟩
    cases x with
    | nil => exact absurd rfl hne
    | cons c t =>
      refine ⟨[c], (mem_digit _).2 ⟨c, hall c (List.mem_cons_self _ _), rfl⟩, t, ?_, rfl⟩
      refine Language.mem_kstar.2 ⟨t.map (fun d => [d]), ?_, ?_⟩
      · clear hne hall
        induction t with
        | nil => rfl
        | cons d t ih => simpa [List.flatten] using ih
      · intro y hy
        obtain ⟨d, hd, rfl⟩ := List.mem_map.1 hy
        exact (mem_digit _).2 ⟨d, hall d (List.mem_cons_of_mem _ hd), rfl⟩

theorem MatchString_iff (re : RegularExpression Char) (s : Str) :
    MatchString re s = true ↔ ∃ pre mid post, s = pre ++ mid ++ post ∧ mid ∈ re.matches' := by
  unfold MatchString
  simp only [List.any_eq_true, List.mem_tails, List.mem_inits, rmatch_iff_matches']
  constructor
  · rintro ⟨t, ⟨pre, rfl⟩, m, ⟨post, rfl⟩, hm⟩
    exact ⟨pre, m, post, by simp, hm⟩
  · rintro ⟨pre, mid, post, rfl, hm⟩
    exact ⟨mid ++ post, ⟨pre, by simp⟩, mid, ⟨post, rfl⟩, hm⟩

end Regexp

namespace images
open Strings Regexp RegularExpression

theorem mem_ValidDseVersionRegexp (x : Str) :
    x ∈ ValidDseVersionRegexp.matches' ↔ DseShape x := by
  unfold ValidDseVersionRegexp DseShape
  simp only [matches'_add, matches'_mul, Language.mem_add, Language.mem_mul, mem_lit,
    mem_oneOrMore_digit]
  constructor
  · rintro (⟨a, rfl, n, hn, rfl⟩ | ⟨u, ⟨w, ⟨q, rfl, a, ha, rfl⟩, d, rfl, rfl⟩, b, hb, rfl⟩)
    · exact Or.inl ⟨n, hn, rfl⟩
    · exact Or.inr ⟨a, b, ha, hb, rfl⟩
  · rintro (⟨n, hn, rfl⟩ | ⟨a, b, ha, hb, rfl⟩)
    · exact Or.inl ⟨_, rfl, n, hn, rfl⟩
    · exact Or.inr ⟨_, ⟨_, ⟨_, rfl, a, ha, rfl⟩, _, rfl, rfl⟩, b, hb, rfl⟩

theorem mem_ValidOssVersionRegexp (x : Str) :
    x ∈ ValidOssVersionRegexp.matches' ↔ OssShape x := by
  unfold ValidOssVersionRegexp OssShape
  simp only [matches'_add, matches'_mul, Language.mem_add, Language.mem_mul, mem_lit,
    mem_oneOrMore_digit]
  constructor
  · rintro ((⟨a, rfl, n, hn, rfl⟩ | ⟨u, ⟨w, ⟨q, rfl, a, ha, rfl⟩, d, rfl, rfl⟩, b, hb, rfl⟩)
      | ⟨u, ⟨w, ⟨q, rfl, a, ha, rfl⟩, d, rfl, rfl⟩, b, hb, rfl⟩)
    · exact Or.inl ⟨n, hn, rfl⟩
    · exact Or.inr (Or.inl ⟨a, b, ha, hb, rfl⟩)
    · exact Or.inr (Or.inr ⟨a, b, ha, hb, rfl⟩)
  · rintro (⟨n, hn, rfl⟩ | ⟨a, b, ha, hb, rfl⟩ | ⟨a, b, ha, hb, rfl⟩)
    · exact Or.inl (Or.inl ⟨_, rfl, n, hn, rfl⟩)
    · exact Or.inl (Or.inr ⟨_, ⟨_, ⟨_, rfl, a, ha, rfl⟩, _, rfl, rfl⟩, b, hb, rfl⟩)
    · exact Or.inr ⟨_, ⟨_, ⟨_, rfl, a, ha, rfl⟩, _, rfl, rfl⟩, b, hb, rfl⟩

end images

namespace Strings

theorem Split_ne_nil (sep : Char) (s : Str) : Split sep s ≠ [] := by
  induction s with
  | nil => simp [Split]
  | cons c cs ih =>
    unfold Split
    split
    · simp
    · split <;> simp

theorem Split_of_not_mem (sep : Char) (s : Str) (h : sep ∉ s) : Split sep s = [s] := by
  induction s with
  | nil => rfl
  | cons c cs ih =>
    have hc : c ≠ sep := fun e => h (e ▸ List.mem_cons_self _ _)
    have hcs : sep ∉ cs := fun m => h (List.mem_cons_of_mem _ m)
    simp [Split, hc, ih hcs]

theorem Split_append_sep (sep : Char) (first rest : Str) (h : sep ∉ first) :
    Split sep (first ++ sep :: rest) = first :: Split sep rest := by
  induction first with
  | nil => simp [Split]
  | cons c cs ih =>
    have hc : c ≠ sep := fun e => h (e ▸ List.mem_cons_self _ _)
    have hcs : sep ∉ cs := fun m => h (List.mem_cons_of_mem _ m)
    simp [Split, hc, ih hcs]

theorem Join_Split (sep : Char) (s : Str) : Join [sep] (Split sep s) = s := by
  induction s with
  | nil => rfl
  | cons c cs ih =>
    unfold Split
    split
    · next h =>
      subst h
      cases hs : Split c cs with
      | nil => exact absurd hs (Split_ne_nil _ _)
      | cons p ps => rw [hs] at ih; simp [Join, ih]
    · cases hs : Split sep cs with
      | nil => exact absurd hs (Split_ne_nil _ _)
      | cons p ps =>
        rw [hs] at ih
        cases ps with
        | nil => simp [Join] at ih ⊢; exact ih
        | cons q qs => simp [Join] at ih ⊢; exact ih

theorem exists_first_segment (sep : Char) (s : Str) (h : sep ∈ s) :
    ∃ first rest, s = first ++ sep :: rest ∧ sep ∉ first := by
  induction s with
  | nil => simp at h
  | cons c cs ih =>
    by_cases hc : c = sep
    · exact ⟨[], cs, by simp [hc], by simp⟩
    · have hcs : sep ∈ cs := by
        rcases List.mem_cons.1 h with e | m
        · exact absurd e.symm hc
        · exact m
      obtain ⟨f, r, rfl, hf⟩ := ih hcs
      refine ⟨c :: f, r, rfl, ?_⟩
      simp only [List.mem_cons, not_or]
      exact ⟨fun e => hc e.symm, hf⟩

theorem Contains_singleton (s : Str) (c : Char) : Contains s [c] = true ↔ c ∈ s := by
  unfold Contains
  simp only [List.any_eq_true, List.mem_tails]
  constructor
  · rintro ⟨t, ⟨pre, rfl⟩, ht⟩
    cases t with
    | nil => simp [List.isPrefixOf] at ht
    | cons d t =>
      simp only [List.isPrefixOf, Bool.and_eq_true, beq_iff_eq] at ht
      simp [ht.1]
  · intro h
    obtain ⟨pre, post, rfl⟩ := List.append_of_mem h
    exact ⟨c :: post, ⟨pre, rfl⟩, by simp [List.isPrefixOf]⟩

theorem TrimSuffix_append (r suffix : Str) : TrimSuffix (r ++ suffix) suffix = r := by
  unfold TrimSuffix
  have h : suffix.isSuffixOf (r ++ suffix) = true := by
    rw [List.isSuffixOf_iff_suffix]; exact List.suffix_append _ _
  simp [h]

theorem TrimSuffix_of_not_suffix (s suffix : Str) (h : ∀ r, s ≠ r ++ suffix) :
    TrimSuffix s suffix = s := by
  unfold TrimSuffix
  have hn : suffix.isSuffixOf s = false := by
    cases hb : suffix.isSuffixOf s with
    | false => rfl
    | true =>
      rw [List.isSuffixOf_iff_suffix] at hb
      obtain ⟨r, hr⟩ := hb
      exact absurd hr.symm (h r)
  simp [hn]

end Strings

namespace images
open Strings Regexp RegularExpression

theorem stripRegistry_of_host (first rest : Str) (hsep : '/' ∉ first)
    (hhost : '.' ∈ first ∨ ':' ∈ first) :
    stripRegistry (first ++ '/' :: rest) = rest := by
  have hne : 1 < (Split '/' rest).length + 1 := by
    have := Split_ne_nil '/' rest
    have : 0 < (Split '/' rest).length := List.length_pos.2 this
    omega
  have hc : (Contains first ".".toList || Contains first ":".toList) = true := by
    rcases hhost with h | h
    · have := (Contains_singleton first '.').2 h
      simp [String.toList, this]
    · have := (Contains_singleton first ':').2 h
      simp [String.toList, this]
  unfold stripRegistry
  simp only [Split_append_sep _ _ _ hsep, List.length_cons, List.headD_cons, hc, Bool.and_true,
    decide_eq_true_eq, hne, if_true, List.drop_succ_cons, List.drop_zero]
  exact Join_Split '/' rest

theorem stripRegistry_of_no_host (image : Str)
    (h : ∀ first rest, image = first ++ '/' :: rest → '/' ∉ first → '.' ∉ first ∧ ':' ∉ first) :
    stripRegistry image = image := by
  unfold stripRegistry
  by_cases hs : '/' ∈ image
  · obtain ⟨first, rest, rfl, hf⟩ := exists_first_segment '/' image hs
    obtain ⟨h1, h2⟩ := h first rest rfl hf
    have c1 : Contains first ".".toList = false := by
      rw [← Bool.not_eq_true]; exact fun c => h1 ((Contains_singleton first '.').1 c)
    have c2 : Contains first ":".toList = false := by
      rw [← Bool.not_eq_true]; exact fun c => h2 ((Contains_singleton first ':').1 c)
    simp [Split_append_sep _ _ _ hf, c1, c2, String.toList] at c1 c2 ⊢
  · simp [Split_of_not_mem _ _ hs]

theorem override_none_dse (cfg : ImageConfig) (version : Str)
    (hdse : ∀ imgs, cfg.Images = some imgs → imgs.DSEVersions version = none) :
    getCassandraContainerImageOverride cfg "dse".toList version = (false, []) := by
  have hne : ("dse".toList = "cassandra".toList) = False := by
    simp [String.toList]
  unfold getCassandraContainerImageOverride
  cases hi : cfg.Images with
  | none => rfl
  | some imgs => simp only [hdse imgs hi, hne, if_true, if_false]

theorem override_none_cassandra (cfg : ImageConfig) (version : Str)
    (hoss : ∀ imgs, cfg.Images = some imgs → imgs.CassandraVersions version = none) :
    getCassandraContainerImageOverride cfg "cassandra".toList version = (false, []) := by
  have hne : ("cassandra".toList = "dse".toList) = False := by
    simp [String.toList]
  unfold getCassandraContainerImageOverride
  cases hi : cfg.Images with
  | none => rfl
  | some imgs => simp only [hoss imgs hi, hne, if_true, if_false]

theorem IsDseVersionSupported_iff (version : Str) :
    IsDseVersionSupported version = true ↔
      ∃ pre mid post, version = pre ++ mid ++ post ∧ DseShape mid := by
  unfold IsDseVersionSupported
  rw [MatchString_iff]
  simp only [mem_ValidDseVersionRegexp]

theorem IsOssVersionSupported_iff (version : Str) :
    IsOssVersionSupported version = true ↔
      ∃ pre mid post, version = pre ++ mid ++ post ∧ OssShape mid := by
  unfold IsOssVersionSupported
  rw [MatchString_iff]
  simp only [mem_ValidOssVersionRegexp]

/-- C1, as stated, fails: with no override configured, `GetCassandraImage`
accepts the dse version `x6.8.5y` and the cassandra version `x4.0.1y`,
although neither string as a whole has an accepted shape. -/
theorem C1_counterexample :
    (GetCassandraImage {} "dse".toList "x6.8.5y".toList).2 = none
      ∧ ¬ DseShape "x6.8.5y".toList
      ∧ (GetCassandraImage {} "cassandra".toList "x4.0.1y".toList).2 = none
      ∧ ¬ OssShape "x4.0.1y".toList := by
  refine ⟨by decide, ?_, by decide, ?_⟩
  · rintro (⟨n, _, h⟩ | ⟨a, b, _, _, h⟩)
    · have h' : some 'x' = some '6' := congrArg List.head? h
      exact absurd h' (by decide)
    · have h' : some 'x' = some '7' := congrArg List.head? h
      exact absurd h' (by decide)
  · rintro (⟨n, _, h⟩ | ⟨a, b, _, _, h⟩ | ⟨a, b, _, _, h⟩)
    · have h' : some 'x' = some '3' := congrArg List.head? h
      exact absurd h' (by decide)
    · have h' : some 'x' = some '4' := congrArg List.head? h
      exact absurd h' (by decide)
    · have h' : some 'x' = some '5' := congrArg List.head? h
      exact absurd h' (by decide)

/-- C1, amended: with no override configured for the server type and the
version, `GetCassandraImage` succeeds for `dse` exactly when the version string
contains a substring of the shape 6.8.N or 7.N.N, and for `cassandra` exactly
when it contains a substring of the shape 3.11.N, 4.N.N or 5.N.N; a version
string with no such substring is rejected with an error and an empty image. -/
theorem C1_accepts_iff_contains_shape (cfg : ImageConfig) (version : Str) :
    ((∀ imgs, cfg.Images = some imgs → imgs.DSEVersions version = none) →
        ((GetCassandraImage cfg "dse".toList version).2 = none ↔
            ∃ pre mid post, version = pre ++ mid ++ post ∧ DseShape mid)
          ∧ ((¬ ∃ pre mid post, version = pre ++ mid ++ post ∧ DseShape mid) →
            GetCassandraImage cfg "dse".toList version =
              ([], some ("server 'dse' and version '".toList ++ version
                          ++ "' do not work together".toList))))
      ∧ ((∀ imgs, cfg.Images = some imgs → imgs.CassandraVersions version = none) →
        ((GetCassandraImage cfg "cassandra".toList version).2 = none ↔
            ∃ pre mid post, version = pre ++ mid ++ post ∧ OssShape mid)
          ∧ ((¬ ∃ pre mid post, version = pre ++ mid ++ post ∧ OssShape mid) →
            GetCassandraImage cfg "cassandra".toList version =
              ([], some ("server 'cassandra' and version '".toList ++ version
                          ++ "' do not work together".toList)))) := by
  have hne : ("cassandra".toList = "dse".toList) = False := by
    simp [String.toList]
  rw [← IsDseVersionSupported_iff, ← IsOssVersionSupported_iff]
  refine ⟨fun hdse => ?_, fun hoss => ?_⟩
  · unfold GetCassandraImage
    rw [override_none_dse cfg version hdse]
    simp only [if_true]
    refine ⟨?_, ?_⟩
    · cases h : IsDseVersionSupported version <;> simp
    · intro h
      simp [h]
  · unfold GetCassandraImage
    rw [override_none_cassandra cfg version hoss]
    simp only [hne, if_false]
    refine ⟨?_, ?_⟩
    · cases h : IsOssVersionSupported version <;> simp
    · intro h
      simp [h]

/-- Witness for C1 (amended): a configuration with an images section and no
override, and the dse version `6.8.5-ubi`. -/
theorem C1_accepts_iff_contains_shape_witness :
    ((GetCassandraImage { Images := some {} } "dse".toList "6.8.5-ubi".toList).2 = none ↔
        ∃ pre mid post, "6.8.5-ubi".toList = pre ++ mid ++ post ∧ DseShape mid)
      ∧ ((¬ ∃ pre mid post, "6.8.5-ubi".toList = pre ++ mid ++ post ∧ DseShape mid) →
        GetCassandraImage { Images := some {} } "dse".toList "6.8.5-ubi".toList =
          ([], some ("server 'dse' and version '".toList ++ "6.8.5-ubi".toList
                      ++ "' do not work together".toList))) :=
  (C1_accepts_iff_contains_shape { Images := some {} } "6.8.5-ubi".toList).1
    (by intro imgs h; cases h; rfl)

/-- C2: a per-version override configured for the server type (`dse` or
`cassandra`) is returned through `ApplyRegistry` with no error, for every
version string, accepted by the pattern or not; and replacing the other server
type's override map leaves the result unchanged. -/
theorem C2_override_used_verbatim (cfg : ImageConfig) (imgs : Images) (v i : Str)
    (hcfg : cfg.Images = some imgs) :
    (imgs.DSEVersions v = some i →
        GetCassandraImage cfg "dse".toList v = (ApplyRegistry cfg i, none))
      ∧ (imgs.CassandraVersions v = some i →
        GetCassandraImage cfg "cassandra".toList v = (ApplyRegistry cfg i, none))
      ∧ (∀ other : Str → Option Str,
        GetCassandraImage { cfg with Images := some { imgs with CassandraVersions := other } }
            "dse".toList v = GetCassandraImage cfg "dse".toList v)
      ∧ (∀ other : Str → Option Str,
        GetCassandraImage { cfg with Images := some { imgs with DSEVersions := other } }
            "cassandra".toList v = GetCassandraImage cfg "cassandra".toList v) := by
  have hne : ("cassandra".toList = "dse".toList) = False := by
    simp [String.toList]
  have hne2 : ("dse".toList = "cassandra".toList) = False := by
    simp [String.toList]
  refine ⟨?_, ?_, ?_, ?_⟩
  · intro h
    simp [GetCassandraImage, getCassandraContainerImageOverride, hcfg, h]
  · intro h
    simp [GetCassandraImage, getCassandraContainerImageOverride, hcfg, h, hne]
  · intro other
    simp only [GetCassandraImage, getCassandraContainerImageOverride, hcfg, hne2, if_true,
      if_false, ApplyRegistry, applyDefaultRegistryOverride, getImageComponents]
  · intro other
    simp only [GetCassandraImage, getCassandraContainerImageOverride, hcfg, hne, if_true,
      if_false, ApplyRegistry, applyDefaultRegistryOverride, getImageComponents]

/-- Witness for C2: the override `6.9.0 ↦ my/dse:custom`, for a version the dse
pattern rejects. -/
theorem C2_override_used_verbatim_witness :
    GetCassandraImage
        { Images := some { DSEVersions := fun v =>
            if v = "6.9.0".toList then some "my/dse:custom".toList else none } }
        "dse".toList "6.9.0".toList = ("my/dse:custom".toList, none) :=
  (C2_override_used_verbatim
    { Images := some { DSEVersions := fun v =>
        if v = "6.9.0".toList then some "my/dse:custom".toList else none } }
    { DSEVersions := fun v =>
        if v = "6.9.0".toList then some "my/dse:custom".toList else none }
    "6.9.0".toList "my/dse:custom".toList rfl).1 (by decide)

/-- C3, as stated, fails: the registry `/` is configured (non-empty), its value
without the trailing slash is empty, and `ApplyRegistry` returns the image
`foo` unchanged instead of `/foo`. -/
theorem C3_counterexample :
    ({ ImageRegistry := "/".toList } : ImageConfig).ImageRegistry ≠ []
      ∧ TrimSuffix "/".toList "/".toList = []
      ∧ stripRegistry "foo".toList = "foo".toList
      ∧ ApplyRegistry { ImageRegistry := "/".toList } "foo".toList = "foo".toList
      ∧ ApplyRegistry { ImageRegistry := "/".toList } "foo".toList
          ≠ [] ++ "/".toList ++ "foo".toList := by
  decide

/-- C3, amended: let `R'` be the configured registry without its trailing
slash.  If `R'` is empty (no registry, or the registry `/`), `ApplyRegistry` is
the identity.  Otherwise `ApplyRegistry image = R' ++ "/" ++ rest`, where `rest`
is what follows the first slash of `image` when the segment before that slash
contains `.` or `:`, and `image` itself when there is no such segment.  With
registry `my.registry.io/` the two images of the claim map as stated. -/
theorem C3_ApplyRegistry_rewrite (cfg : ImageConfig) (R' image : Str)
    (hR : cfg.ImageRegistry = R' ++ ['/']
      ∨ (cfg.ImageRegistry = R' ∧ ∀ r, R' ≠ r ++ ['/'])) :
    (R' = [] → ApplyRegistry cfg image = image)
      ∧ (R' ≠ [] →
        (∀ first rest, image = first ++ '/' :: rest → '/' ∉ first →
            ('.' ∈ first ∨ ':' ∈ first) →
            ApplyRegistry cfg image = R' ++ "/".toList ++ rest)
        ∧ ((∀ first rest, image = first ++ '/' :: rest → '/' ∉ first →
              '.' ∉ first ∧ ':' ∉ first) →
            ApplyRegistry cfg image = R' ++ "/".toList ++ image))
      ∧ ApplyRegistry { ImageRegistry := "my.registry.io/".toList }
          "k8ssandra/cass-management-api:4.1.0".toList
          = "my.registry.io/k8ssandra/cass-management-api:4.1.0".toList
      ∧ ApplyRegistry { ImageRegistry := "my.registry.io/".toList } "quay.io/foo:bar".toList
          = "my.registry.io/foo:bar".toList := by
  have htrim : TrimSuffix cfg.ImageRegistry ['/'] = R' := by
    rcases hR with h | ⟨h, hn⟩
    · rw [h]; exact TrimSuffix_append R' ['/']
    · rw [h]; exact TrimSuffix_of_not_suffix R' ['/'] hn
  refine ⟨?_, ?_, by decide, by decide⟩
  · intro h
    simp [ApplyRegistry, applyDefaultRegistryOverride, htrim, h]
  · intro h
    refine ⟨?_, ?_⟩
    · intro first rest himg hsep hhost
      subst himg
      simp [ApplyRegistry, applyDefaultRegistryOverride, htrim, h,
        stripRegistry_of_host first rest hsep hhost]
    · intro hno
      simp [ApplyRegistry, applyDefaultRegistryOverride, htrim, h,
        stripRegistry_of_no_host image hno]

/-- Witness for C3 (amended): registry `my.registry.io/`. -/
theorem C3_ApplyRegistry_rewrite_witness :
    ApplyRegistry { ImageRegistry := "my.registry.io/".toList } "quay.io/foo:bar".toList
      = "my.registry.io".toList ++ "/".toList ++ "foo:bar".toList :=
  ((C3_ApplyRegistry_rewrite { ImageRegistry := "my.registry.io/".toList }
      "my.registry.io".toList "quay.io/foo:bar".toList (Or.inl (by decide))).2.1
    (by decide)).1 "quay.io".toList "foo:bar".toList (by decide) (by decide)
      (Or.inl (by decide))

/-- C4, as stated, fails: a configured cassandra component that sets the suffix
`-ubi8` but no repository contributes nothing; the image is built from the
hardcoded repository with an empty suffix. -/
theorem C4_counterexample :
    IsOssVersionSupported "4.1.0".toList = true
      ∧ GetCassandraImage
          { DefaultImages := some { CassandraImageComponent := { Suffix := "-ubi8".toList } } }
          "cassandra".toList "4.1.0".toList
        = ("k8ssandra/cass-management-api:4.1.0".toList, none)
      ∧ GetCassandraImage
          { DefaultImages := some { CassandraImageComponent := { Suffix := "-ubi8".toList } } }
          "cassandra".toList "4.1.0".toList
        ≠ (ApplyRegistry
            { DefaultImages := some { CassandraImageComponent := { Suffix := "-ubi8".toList } } }
            ("k8ssandra/cass-management-api".toList ++ ":".toList ++ "4.1.0".toList
              ++ "-ubi8".toList), none) := by
  decide

/-- C4, amended: for an accepted version with no override, the image is
`ApplyRegistry (P ++ ":" ++ v ++ S)`.  When a default component for the server
type is configured with a non-empty repository, `P` is that repository and `S`
is that component's suffix; in every other case `P` is the hardcoded repository
(`datastax/dse-server` for dse, `k8ssandra/cass-management-api` for cassandra)
and `S` is empty. -/
theorem C4_composed_image (cfg : ImageConfig) (v : Str) :
    ((∀ imgs, cfg.Images = some imgs → imgs.DSEVersions v = none) →
      IsDseVersionSupported v = true →
        (∀ d, cfg.DefaultImages = some d → d.DSEImageComponent.Repository ≠ [] →
          GetCassandraImage cfg "dse".toList v =
            (ApplyRegistry cfg (d.DSEImageComponent.Repository ++ ":".toList ++ v
              ++ d.DSEImageComponent.Suffix), none))
        ∧ ((∀ d, cfg.DefaultImages = some d → d.DSEImageComponent.Repository = []) →
          GetCassandraImage cfg "dse".toList v =
            (ApplyRegistry cfg ("datastax/dse-server".toList ++ ":".toList ++ v ++ []), none)))
      ∧ ((∀ imgs, cfg.Images = some imgs → imgs.CassandraVersions v = none) →
        IsOssVersionSupported v = true →
        (∀ d, cfg.DefaultImages = some d → d.CassandraImageComponent.Repository ≠ [] →
          GetCassandraImage cfg "cassandra".toList v =
            (ApplyRegistry cfg (d.CassandraImageComponent.Repository ++ ":".toList ++ v
              ++ d.CassandraImageComponent.Suffix), none))
        ∧ ((∀ d, cfg.DefaultImages = some d → d.CassandraImageComponent.Repository = []) →
          GetCassandraImage cfg "cassandra".toList v =
            (ApplyRegistry cfg ("k8ssandra/cass-management-api".toList ++ ":".toList ++ v
              ++ []), none))) := by
  have hne : ("cassandra".toList = "dse".toList) = False := by
    simp [String.toList]
  have hne2 : ("dse".toList = "cassandra".toList) = False := by
    simp [String.toList]
  refine ⟨fun hdse hv => ⟨?_, ?_⟩, fun hoss hv => ⟨?_, ?_⟩⟩
  · intro d hdef hrepo
    unfold GetCassandraImage
    rw [override_none_dse cfg v hdse]
    simp only [if_true, hv, Bool.not_true, Bool.false_eq_true, if_false, getImageComponents,
      hdef, hne2, hrepo, ne_eq, not_false_eq_true]
  · intro hrepo
    unfold GetCassandraImage
    rw [override_none_dse cfg v hdse]
    cases hdef : cfg.DefaultImages with
    | none =>
      simp only [if_true, hv, Bool.not_true, Bool.false_eq_true, if_false, getImageComponents,
        hdef, hne2, DefaultDSERepository]
    | some d =>
      simp only [if_true, hv, Bool.not_true, Bool.false_eq_true, if_false, getImageComponents,
        hdef, hne2, hrepo d hdef, ne_eq, not_true_eq_false, DefaultDSERepository]
  · intro d hdef hrepo
    unfold GetCassandraImage
    rw [override_none_cassandra cfg v hoss]
    simp only [hne, if_true, hv, Bool.not_true, Bool.false_eq_true, if_false,
      getImageComponents, hdef, hrepo, ne_eq, not_false_eq_true]
  · intro hrepo
    unfold GetCassandraImage
    rw [override_none_cassandra cfg v hoss]
    cases hdef : cfg.DefaultImages with
    | none =>
      simp only [hne, if_true, hv, Bool.not_true, Bool.false_eq_true, if_false,
        getImageComponents, hdef, DefaultCassandraRepository]
    | some d =>
      simp only [hne, if_true, hv, Bool.not_true, Bool.false_eq_true, if_false,
        getImageComponents, hdef, hrepo d hdef, ne_eq, not_true_eq_false,
        DefaultCassandraRepository]

/-- Witness for C4 (amended): a dse component with repository `my/dse` and
suffix `-ubi`. -/
theorem C4_composed_image_witness :
    GetCassandraImage
        { DefaultImages := some { DSEImageComponent :=
            { Repository := "my/dse".toList, Suffix := "-ubi".toList } } }
        "dse".toList "6.8.5".toList
      = (ApplyRegistry
          { DefaultImages := some { DSEImageComponent :=
              { Repository := "my/dse".toList, Suffix := "-ubi".toList } } }
          ("my/dse".toList ++ ":".toList ++ "6.8.5".toList ++ "-ubi".toList), none) :=
  ((C4_composed_image
      { DefaultImages := some { DSEImageComponent :=
          { Repository := "my/dse".toList, Suffix := "-ubi".toList } } }
      "6.8.5".toList).1 (by intro imgs h; cases h) (by decide)).1
    { DSEImageComponent := { Repository := "my/dse".toList, Suffix := "-ubi".toList } }
    rfl (by decide)

end images

/-! ## The check loop -/

namespace reconciliation

variable {σ DC : Type}

theorem checkBody_cases (h : Helpers DC) (k : Client σ DC) (dc : DC) (idx : Nat)
    (svc : Service) (cn : List Service) (c : σ) :
    (∃ e, h.setControllerReference dc svc = .error e
        ∧ checkBody h k dc idx svc cn c = .returned e c [])
      ∨ (∃ d e c1, h.setControllerReference dc svc = .ok d
        ∧ k.Get c (nsNameOf d) = (.failed e, c1) ∧ IsNotFound e = true
        ∧ checkBody h k dc idx svc cn c
            = .next (cn ++ [d]) c1 [.get idx (nsNameOf d) (.failed e)])
      ∨ (∃ d e c1, h.setControllerReference dc svc = .ok d
        ∧ k.Get c (nsNameOf d) = (.failed e, c1) ∧ IsNotFound e = false
        ∧ checkBody h k dc idx svc cn c
            = .returned e c1 [.get idx (nsNameOf d) (.failed e)])
      ∨ (∃ d cur c1, h.setControllerReference dc svc = .ok d
        ∧ k.Get c (nsNameOf d) = (.found cur, c1)
        ∧ h.ResourcesHaveSameHash cur d = true
        ∧ checkBody h k dc idx svc cn c
            = .next cn c1 [.get idx (nsNameOf d) (.found cur)])
      ∨ (∃ d cur c1 e c2, h.setControllerReference dc svc = .ok d
        ∧ k.Get c (nsNameOf d) = (.found cur, c1)
        ∧ h.ResourcesHaveSameHash cur d = false
        ∧ k.Update c1 (mergedForUpdate cur d) = (some e, c2)
        ∧ checkBody h k dc idx svc cn c
            = .returned e c2 [.get idx (nsNameOf d) (.found cur),
                              .update idx (mergedForUpdate cur d) (some e)])
      ∨ (∃ d cur c1 c2, h.setControllerReference dc svc = .ok d
        ∧ k.Get c (nsNameOf d) = (.found cur, c1)
        ∧ h.ResourcesHaveSameHash cur d = false
        ∧ k.Update c1 (mergedForUpdate cur d) = (none, c2)
        ∧ checkBody h k dc idx svc cn c
            = .next cn c2 [.get idx (nsNameOf d) (.found cur),
                           .update idx (mergedForUpdate cur d) none]) := by
  unfold checkBody
  cases hs : h.setControllerReference dc svc with
  | error e => exact Or.inl ⟨e, rfl, rfl⟩
  | ok d =>
    right
    rcases hg : k.Get c (nsNameOf d) with ⟨res, c1⟩
    cases res with
    | failed e =>
      cases hn : IsNotFound e with
      | true => exact Or.inl ⟨d, e, c1, rfl, hg, hn, by simp [hg, hn]⟩
      | false => exact Or.inr (Or.inl ⟨d, e, c1, rfl, hg, hn, by simp [hg, hn]⟩)
    | found cur =>
      right; right
      cases hh : h.ResourcesHaveSameHash cur d with
      | true => exact Or.inl ⟨d, cur, c1, rfl, hg, hh, by simp [hg, hh]⟩
      | false =>
        right
        rcases hu : k.Update c1 (mergedForUpdate cur d) with ⟨ue, c2⟩
        cases ue with
        | some e => exact Or.inl ⟨d, cur, c1, e, c2, rfl, hg, hh, hu, by simp [hg, hh, hu]⟩
        | none => exact Or.inr ⟨d, cur, c1, c2, rfl, hg, hh, hu, by simp [hg, hh, hu]⟩

theorem checkLoop_returned (h : Helpers DC) (k : Client σ DC) (dc : DC) (idx : Nat)
    (svc : Service) (rest cn : List Service) (c : σ) (e : Err) (c1 : σ)
    (calls : List (Call DC)) (hb : checkBody h k dc idx svc cn c = .returned e c1 calls) :
    checkLoop h k dc idx (svc :: rest) cn c
      = { err := some e, createNeeded := cn, Client := c1, trace := calls } := by
  simp only [checkLoop, hb]

theorem checkLoop_next (h : Helpers DC) (k : Client σ DC) (dc : DC) (idx : Nat)
    (svc : Service) (rest cn : List Service) (c : σ) (cn1 : List Service) (c1 : σ)
    (calls : List (Call DC)) (hb : checkBody h k dc idx svc cn c = .next cn1 c1 calls) :
    checkLoop h k dc idx (svc :: rest) cn c
      = { checkLoop h k dc (idx + 1) rest cn1 c1 with
          trace := calls ++ (checkLoop h k dc (idx + 1) rest cn1 c1).trace } := by
  simp only [checkLoop, hb]

/-- Every call of the check loop is a lookup or an update, made at an index of
the slice the loop runs over. -/
theorem checkLoop_trace_kinds (h : Helpers DC) (k : Client σ DC) (dc : DC) :
    ∀ (ds : List Service) (idx : Nat) (cn : List Service) (c : σ),
      ∀ call ∈ (checkLoop h k dc idx ds cn c).trace,
        (∃ j n r, call = .get j n r ∧ idx ≤ j ∧ j < idx + ds.length)
          ∨ (∃ j o e, call = .update j o e ∧ idx ≤ j ∧ j < idx + ds.length) := by
  intro ds
  induction ds with
  | nil => intro idx cn c call hc; simp [checkLoop] at hc
  | cons svc rest ih =>
    intro idx cn c call hc
    have hlen : (svc :: rest).length = rest.length + 1 := rfl
    have step : ∀ cn1 c1, call ∈ (checkLoop h k dc (idx + 1) rest cn1 c1).trace →
        (∃ j n r, call = .get j n r ∧ idx ≤ j ∧ j < idx + (svc :: rest).length)
          ∨ (∃ j o e, call = .update j o e ∧ idx ≤ j ∧ j < idx + (svc :: rest).length) := by
      intro cn1 c1 hm
      rcases ih (idx + 1) cn1 c1 call hm with ⟨j, n, r, rfl, h1, h2⟩ | ⟨j, o, e, rfl, h1, h2⟩
      · exact Or.inl ⟨j, n, r, rfl, by omega, by rw [hlen]; omega⟩
      · exact Or.inr ⟨j, o, e, rfl, by omega, by rw [hlen]; omega⟩
    have hget : ∀ n r, (∃ j n' r', (Call.get idx n r : Call DC) = .get j n' r' ∧ idx ≤ j
        ∧ j < idx + (svc :: rest).length)
          ∨ (∃ j o e, (Call.get idx n r : Call DC) = .update j o e ∧ idx ≤ j
        ∧ j < idx + (svc :: rest).length) :=
      fun n r => Or.inl ⟨idx, n, r, rfl, le_refl _, by rw [hlen]; omega⟩
    have hupd : ∀ o e, (∃ j n' r', (Call.update idx o e : Call DC) = .get j n' r' ∧ idx ≤ j
        ∧ j < idx + (svc :: rest).length)
          ∨ (∃ j o' e', (Call.update idx o e : Call DC) = .update j o' e' ∧ idx ≤ j
        ∧ j < idx + (svc :: rest).length) :=
      fun o e => Or.inr ⟨idx, o, e, rfl, le_refl _, by rw [hlen]; omega⟩
    rcases checkBody_cases h k dc idx svc cn c with
      ⟨e, _, hb⟩ | ⟨d, e, c1, _, _, _, hb⟩ | ⟨d, e, c1, _, _, _, hb⟩ | ⟨d, cur, c1, _, _, _, hb⟩
        | ⟨d, cur, c1, e, c2, _, _, _, _, hb⟩ | ⟨d, cur, c1, c2, _, _, _, _, hb⟩
    · rw [checkLoop_returned _ _ _ _ _ _ _ _ _ _ _ hb] at hc
      simp at hc
    · rw [checkLoop_next _ _ _ _ _ _ _ _ _ _ _ hb] at hc
      simp only [List.singleton_append, List.mem_cons] at hc
      rcases hc with rfl | hm
      · exact hget _ _
      · exact step _ _ hm
    · rw [checkLoop_returned _ _ _ _ _ _ _ _ _ _ _ hb] at hc
      simp only [List.mem_singleton] at hc
      subst hc; exact hget _ _
    · rw [checkLoop_next _ _ _ _ _ _ _ _ _ _ _ hb] at hc
      simp only [List.singleton_append, List.mem_cons] at hc
      rcases hc with rfl | hm
      · exact hget _ _
      · exact step _ _ hm
    · rw [checkLoop_returned _ _ _ _ _ _ _ _ _ _ _ hb] at hc
      simp only [List.mem_cons, List.mem_singleton, List.not_mem_nil, or_false] at hc
      rcases hc with rfl | rfl
      · exact hget _ _
      · exact hupd _ _
    · rw [checkLoop_next _ _ _ _ _ _ _ _ _ _ _ hb] at hc
      simp only [List.cons_append, List.nil_append, List.mem_cons] at hc
      rcases hc with rfl | rfl | hm
      · exact hget _ _
      · exact hupd _ _
      · exact step _ _ hm

theorem checkLoop_trace_no_create (h : Helpers DC) (k : Client σ DC) (dc : DC)
    (ds : List Service) (idx : Nat) (cn : List Service) (c : σ) :
    ∀ call ∈ (checkLoop h k dc idx ds cn c).trace, (!call.isCreate) = true := by
  intro call hc
  rcases checkLoop_trace_kinds h k dc ds idx cn c call hc with
    ⟨j, n, r, rfl, _, _⟩ | ⟨j, o, e, rfl, _, _⟩ <;> rfl

/-- The check loop looks each service up at most once. -/
theorem checkLoop_lookup_count (h : Helpers DC) (k : Client σ DC) (dc : DC) :
    ∀ (ds : List Service) (idx : Nat) (cn : List Service) (c : σ),
      ((checkLoop h k dc idx ds cn c).trace.filter Call.isGet).length ≤ ds.length := by
  intro ds
  induction ds with
  | nil => intro idx cn c; simp [checkLoop]
  | cons svc rest ih =>
    intro idx cn c
    rcases checkBody_cases h k dc idx svc cn c with
      ⟨e, _, hb⟩ | ⟨d, e, c1, _, _, _, hb⟩ | ⟨d, e, c1, _, _, _, hb⟩ | ⟨d, cur, c1, _, _, _, hb⟩
        | ⟨d, cur, c1, e, c2, _, _, _, _, hb⟩ | ⟨d, cur, c1, c2, _, _, _, _, hb⟩
    · rw [checkLoop_returned _ _ _ _ _ _ _ _ _ _ _ hb]; simp
    · rw [checkLoop_next _ _ _ _ _ _ _ _ _ _ _ hb]
      have := ih (idx + 1) (cn ++ [d]) c1
      simp [List.filter, Call.isGet]; omega
    · rw [checkLoop_returned _ _ _ _ _ _ _ _ _ _ _ hb]; simp [List.filter, Call.isGet]
    · rw [checkLoop_next _ _ _ _ _ _ _ _ _ _ _ hb]
      have := ih (idx + 1) cn c1
      simp [List.filter, Call.isGet]; omega
    · rw [checkLoop_returned _ _ _ _ _ _ _ _ _ _ _ hb]; simp [List.filter, Call.isGet]
    · rw [checkLoop_next _ _ _ _ _ _ _ _ _ _ _ hb]
      have := ih (idx + 1) cn c2
      simp [List.filter, Call.isGet]; omega

theorem createBody_cases (k : Client σ DC) (dc : DC) (idx : Nat) (service : Service) (c : σ) :
    (∃ e c1, k.setOperatorProgressStatus c dc = (some e, c1)
        ∧ createBody k dc idx service c = .returned e c1 [.progress (some e)])
      ∨ (∃ c1 e c2, k.setOperatorProgressStatus c dc = (none, c1)
        ∧ k.Create c1 service = (some e, c2)
        ∧ createBody k dc idx service c
            = .returned e c2 [.progress none, .create idx service (some e)])
      ∨ (∃ c1 c2, k.setOperatorProgressStatus c dc = (none, c1)
        ∧ k.Create c1 service = (none, c2)
        ∧ createBody k dc idx service c
            = .next () c2
                [.progress none, .create idx service none,
                 .event dc "Normal".toList "CreatedResource".toList
                   ("Created service ".toList ++ service.Name)]) := by
  unfold createBody
  rcases hp : k.setOperatorProgressStatus c dc with ⟨pe, c1⟩
  cases pe with
  | some e => exact Or.inl ⟨e, c1, rfl, rfl⟩
  | none =>
    right
    rcases hc : k.Create c1 service with ⟨ce, c2⟩
    cases ce with
    | some e => exact Or.inl ⟨c1, e, c2, rfl, hc, by simp [hc]⟩
    | none => exact Or.inr ⟨c1, c2, rfl, hc, by simp [hc]⟩

theorem createLoop_returned (k : Client σ DC) (dc : DC) (idx : Nat) (service : Service)
    (rest : List Service) (c : σ) (e : Err) (c1 : σ) (calls : List (Call DC))
    (hb : createBody k dc idx service c = .returned e c1 calls) :
    createLoop k dc idx (service :: rest) c = (.Error e, c1, calls) := by
  simp only [createLoop, hb]

theorem createLoop_next (k : Client σ DC) (dc : DC) (idx : Nat) (service : Service)
    (rest : List Service) (c : σ) (u : Unit) (c1 : σ) (calls : List (Call DC))
    (hb : createBody k dc idx service c = .next u c1 calls) :
    createLoop k dc idx (service :: rest) c
      = ((createLoop k dc (idx + 1) rest c1).1, (createLoop k dc (idx + 1) rest c1).2.1,
          calls ++ (createLoop k dc (idx + 1) rest c1).2.2) := by
  simp only [createLoop, hb]

/-- The create loop issues no lookup and no update. -/
theorem createLoop_trace_kinds (k : Client σ DC) (dc : DC) :
    ∀ (ss : List Service) (idx : Nat) (c : σ),
      ∀ call ∈ (createLoop k dc idx ss c).2.2,
        (!call.isGet && !call.isUpdate) = true := by
  intro ss
  induction ss with
  | nil => intro idx c call hc; simp [createLoop] at hc
  | cons s rest ih =>
    intro idx c call hc
    rcases createBody_cases k dc idx s c with
      ⟨e, c1, _, hb⟩ | ⟨c1, e, c2, _, _, hb⟩ | ⟨c1, c2, _, _, hb⟩
    · rw [createLoop_returned _ _ _ _ _ _ _ _ _ hb] at hc
      simp only [List.mem_singleton] at hc
      subst hc; rfl
    · rw [createLoop_returned _ _ _ _ _ _ _ _ _ hb] at hc
      simp only [List.mem_cons, List.not_mem_nil, or_false] at hc
      rcases hc with rfl | rfl <;> rfl
    · rw [createLoop_next _ _ _ _ _ _ _ _ _ hb] at hc
      simp only [List.cons_append, List.nil_append, List.mem_cons] at hc
      rcases hc with rfl | rfl | rfl | hm
      · rfl
      · rfl
      · rfl
      · exact ih (idx + 1) c2 call hm

theorem dropWhile_append_of_all {α : Type} (p : α → Bool) (l1 l2 : List α)
    (hall : ∀ x ∈ l1, p x = true) : (l1 ++ l2).dropWhile p = l2.dropWhile p := by
  induction l1 with
  | nil => rfl
  | cons a l ih =>
    have ha : p a = true := hall a (List.mem_cons_self _ _)
    simp only [List.cons_append, List.dropWhile_cons, ha, if_true]
    exact ih (fun x hx => hall x (List.mem_cons_of_mem _ hx))

/-- The three ways `CheckHeadlessServices` ends: the check loop returned an
error; the check loop found nothing to create; the check loop handed a
non-empty `createNeeded` to `CreateHeadlessServices`. -/
theorem CheckHeadlessServices_cases (h : Helpers DC) (k : Client σ DC)
    (rc : ReconciliationContext σ DC) :
    ∃ out, out = checkLoop h k rc.Datacenter 0 (desiredServices h rc.Datacenter) [] rc.Client
      ∧ ((∃ e, out.err = some e
            ∧ (CheckHeadlessServices h k rc).result = .Error e
            ∧ (CheckHeadlessServices h k rc).trace = out.trace
            ∧ (CheckHeadlessServices h k rc).rc = { rc with Client := out.Client })
        ∨ (out.err = none ∧ out.createNeeded = []
            ∧ (CheckHeadlessServices h k rc).result = .Continue
            ∧ (CheckHeadlessServices h k rc).trace = out.trace
            ∧ (CheckHeadlessServices h k rc).rc = { rc with Client := out.Client })
        ∨ (out.err = none ∧ out.createNeeded ≠ []
            ∧ (CheckHeadlessServices h k rc).result
                = (createLoop k rc.Datacenter 0 out.createNeeded out.Client).1
            ∧ (CheckHeadlessServices h k rc).trace
                = out.trace ++ (createLoop k rc.Datacenter 0 out.createNeeded out.Client).2.2
            ∧ (CheckHeadlessServices h k rc).rc
                = { rc with
                    Client := (createLoop k rc.Datacenter 0 out.createNeeded out.Client).2.1,
                    Services := out.createNeeded })) := by
  refine ⟨_, rfl, ?_⟩
  unfold CheckHeadlessServices
  simp only
  cases herr : (checkLoop h k rc.Datacenter 0 (desiredServices h rc.Datacenter) []
      rc.Client).err with
  | some e => exact Or.inl ⟨e, rfl, rfl, rfl, rfl⟩
  | none =>
    right
    cases hcn : (checkLoop h k rc.Datacenter 0 (desiredServices h rc.Datacenter) []
        rc.Client).createNeeded with
    | nil => exact Or.inl ⟨rfl, rfl, by simp, by simp, by simp⟩
    | cons s ss =>
      refine Or.inr ⟨rfl, by simp, ?_, ?_, ?_⟩ <;> simp [CreateHeadlessServices]

/-- The create loop returns `Continue` unless one of its calls failed. -/
theorem createLoop_result (k : Client σ DC) (dc : DC) :
    ∀ (ss : List Service) (idx : Nat) (c : σ),
      (createLoop k dc idx ss c).1 = .Continue
        ∨ ∃ e, (createLoop k dc idx ss c).1 = .Error e
            ∧ ∃ call ∈ (createLoop k dc idx ss c).2.2, call.isFailure = true := by
  intro ss
  induction ss with
  | nil => intro idx c; exact Or.inl rfl
  | cons s rest ih =>
    intro idx c
    rcases createBody_cases k dc idx s c with
      ⟨e, c1, _, hb⟩ | ⟨c1, e, c2, _, _, hb⟩ | ⟨c1, c2, _, _, hb⟩
    · rw [createLoop_returned _ _ _ _ _ _ _ _ _ hb]
      exact Or.inr ⟨e, rfl, _, List.mem_singleton.2 rfl, rfl⟩
    · rw [createLoop_returned _ _ _ _ _ _ _ _ _ hb]
      exact Or.inr ⟨e, rfl, .create idx s (some e), by simp, rfl⟩
    · rw [createLoop_next _ _ _ _ _ _ _ _ _ hb]
      rcases ih (idx + 1) c2 with hcont | ⟨e, he, call, hm, hf⟩
      · exact Or.inl hcont
      · exact Or.inr ⟨e, he, call, List.mem_append_right _ hm, hf⟩

/-! ## The claims about `CheckHeadlessServices` -/

/-- From the first create of a pass on, no lookup and no update is issued. -/
theorem no_check_call_after_create (h : Helpers DC) (k : Client σ DC)
    (rc : ReconciliationContext σ DC) :
    ∀ call ∈ fromFirstCreate (CheckHeadlessServices h k rc).trace,
      (!call.isGet && !call.isUpdate) = true := by
  obtain ⟨out, hout, hcases⟩ := CheckHeadlessServices_cases h k rc
  have hnc : ∀ call ∈ out.trace, (!call.isCreate) = true := by
    rw [hout]; exact checkLoop_trace_no_create h k rc.Datacenter _ 0 [] rc.Client
  have hdrop : fromFirstCreate out.trace = [] := by
    unfold fromFirstCreate
    rw [List.dropWhile_eq_nil_iff]
    exact hnc
  rcases hcases with ⟨e, _, _, htr, _⟩ | ⟨_, _, _, htr, _⟩ | ⟨_, _, _, htr, _⟩
  · rw [htr, hdrop]; simp
  · rw [htr, hdrop]; simp
  · rw [htr]
    intro call hm
    unfold fromFirstCreate at hm
    rw [dropWhile_append_of_all _ _ _ hnc] at hm
    exact createLoop_trace_kinds k rc.Datacenter out.createNeeded 0 out.Client call
      ((List.dropWhile_suffix _).subset hm)

/-- C5, as stated, fails: on an empty store all four desired services are
not found and all four creates succeed, yet no lookup follows the first
create; the pass makes four lookups in all, one per desired service, and
returns `Continue`. -/
theorem C5_counterexample :
    lookupNotFound
        (CheckHeadlessServices (exampleHelpers []) memClient
          { Client := emptyStore, Datacenter := exampleDC }).trace 0 = true
      ∧ ((CheckHeadlessServices (exampleHelpers []) memClient
          { Client := emptyStore, Datacenter := exampleDC }).trace.any Call.isFailure) = false
      ∧ (createdObjects (CheckHeadlessServices (exampleHelpers []) memClient
          { Client := emptyStore, Datacenter := exampleDC }).trace).length = 4
      ∧ ((fromFirstCreate (CheckHeadlessServices (exampleHelpers []) memClient
          { Client := emptyStore, Datacenter := exampleDC }).trace).any Call.isGet) = false
      ∧ ((CheckHeadlessServices (exampleHelpers []) memClient
          { Client := emptyStore, Datacenter := exampleDC }).trace.filter Call.isGet).length = 4
      ∧ (CheckHeadlessServices (exampleHelpers []) memClient
          { Client := emptyStore, Datacenter := exampleDC }).result = .Continue := by
  decide

/-- C5, amended: the check phase runs once, before the creation batch.  In
every pass no lookup and no update is issued from the first create on, and the
pass makes at most one lookup per desired service; when a create was issued
and no store call of the pass failed, the pass returns `Continue`. -/
theorem C5_no_recheck_after_create (h : Helpers DC) (k : Client σ DC)
    (rc : ReconciliationContext σ DC) :
    (∀ call ∈ fromFirstCreate (CheckHeadlessServices h k rc).trace,
        (!call.isGet && !call.isUpdate) = true)
      ∧ ((CheckHeadlessServices h k rc).trace.filter Call.isGet).length
          ≤ (desiredServices h rc.Datacenter).length
      ∧ ((∃ call ∈ (CheckHeadlessServices h k rc).trace, call.isCreate = true) →
          (∀ call ∈ (CheckHeadlessServices h k rc).trace, call.isFailure = false) →
          (CheckHeadlessServices h k rc).result = .Continue) := by
  obtain ⟨out, hout, hcases⟩ := CheckHeadlessServices_cases h k rc
  have hnc : ∀ call ∈ out.trace, (!call.isCreate) = true := by
    rw [hout]; exact checkLoop_trace_no_create h k rc.Datacenter _ 0 [] rc.Client
  have hcount : (out.trace.filter Call.isGet).length ≤ (desiredServices h rc.Datacenter).length := by
    rw [hout]; exact checkLoop_lookup_count h k rc.Datacenter _ 0 [] rc.Client
  have hdrop : fromFirstCreate out.trace = [] := by
    unfold fromFirstCreate
    rw [List.dropWhile_eq_nil_iff]
    exact hnc
  rcases hcases with ⟨e, _, hres, htr, _⟩ | ⟨_, _, hres, htr, _⟩ | ⟨_, _, hres, htr, _⟩
  · rw [htr, hres]
    refine ⟨by rw [hdrop]; simp, hcount, ?_⟩
    rintro ⟨call, hm, hc⟩
    have := hnc call hm
    simp [hc] at this
  · rw [htr, hres]
    exact ⟨by rw [hdrop]; simp, hcount, fun _ _ => rfl⟩
  · rw [htr, hres]
    have hkinds := createLoop_trace_kinds k rc.Datacenter out.createNeeded 0 out.Client
    refine ⟨?_, ?_, ?_⟩
    · intro call hm
      unfold fromFirstCreate at hm
      rw [dropWhile_append_of_all _ _ _ hnc] at hm
      exact hkinds call ((List.dropWhile_suffix _).subset hm)
    · rw [List.filter_append, List.length_append]
      have hz : ((createLoop k rc.Datacenter 0 out.createNeeded out.Client).2.2.filter
          Call.isGet) = [] := by
        rw [List.filter_eq_nil_iff]
        intro call hm
        have := hkinds call hm
        simp only [Bool.and_eq_true, Bool.not_eq_true'] at this
        simp [this.1]
      rw [hz]; simpa using hcount
    · intro _ hnf
      rcases createLoop_result k rc.Datacenter out.createNeeded 0 out.Client with
        hcont | ⟨e, _, call, hm, hf⟩
      · exact hcont
      · have := hnf call (List.mem_append_right _ hm)
        rw [hf] at this
        exact absurd this (by decide)

/-- Witness for C5 (amended): the pass over the empty store. -/
theorem C5_no_recheck_after_create_witness :
    (CheckHeadlessServices (exampleHelpers []) memClient
        { Client := emptyStore, Datacenter := exampleDC }).result = .Continue :=
  (C5_no_recheck_after_create (exampleHelpers []) memClient
      { Client := emptyStore, Datacenter := exampleDC }).2.2
    (by decide) (by decide)

/-- A lookup that fails with an error other than not-found is the last call of
the check loop, and the loop returns that error. -/
theorem checkLoop_failed_lookup (h : Helpers DC) (k : Client σ DC) (dc : DC) :
    ∀ (ds : List Service) (idx : Nat) (cn : List Service) (c : σ) (j : Nat)
      (n : NamespacedName) (e : Err),
      .get j n (.failed e) ∈ (checkLoop h k dc idx ds cn c).trace → IsNotFound e = false →
      (checkLoop h k dc idx ds cn c).err = some e
        ∧ (checkLoop h k dc idx ds cn c).trace.getLast? = some (.get j n (.failed e)) := by
  intro ds
  induction ds with
  | nil => intro idx cn c j n e hm; simp [checkLoop] at hm
  | cons svc rest ih =>
    intro idx cn c j n e hm hne
    have step : ∀ cn1 c1 (calls : List (Call DC)),
        .get j n (.failed e) ∈ (checkLoop h k dc (idx + 1) rest cn1 c1).trace →
        (checkLoop h k dc (idx + 1) rest cn1 c1).err = some e
          ∧ (calls ++ (checkLoop h k dc (idx + 1) rest cn1 c1).trace).getLast?
              = some (.get j n (.failed e)) := by
      intro cn1 c1 calls hm1
      obtain ⟨h1, h2⟩ := ih (idx + 1) cn1 c1 j n e hm1 hne
      refine ⟨h1, ?_⟩
      rw [List.getLast?_append, h2]; rfl
    rcases checkBody_cases h k dc idx svc cn c with
      ⟨e1, _, hb⟩ | ⟨d, e1, c1, _, _, hnf, hb⟩ | ⟨d, e1, c1, _, _, hnf, hb⟩
        | ⟨d, cur, c1, _, _, _, hb⟩ | ⟨d, cur, c1, e1, c2, _, _, _, _, hb⟩
        | ⟨d, cur, c1, c2, _, _, _, _, hb⟩
    · rw [checkLoop_returned _ _ _ _ _ _ _ _ _ _ _ hb] at hm
      simp at hm
    · rw [checkLoop_next _ _ _ _ _ _ _ _ _ _ _ hb] at hm ⊢
      simp only [List.singleton_append, List.mem_cons] at hm
      rcases hm with heq | hm1
      · injection heq with _ _ hr
        injection hr with he
        subst he
        rw [hnf] at hne
        exact absurd hne (by decide)
      · exact step _ _ _ hm1
    · rw [checkLoop_returned _ _ _ _ _ _ _ _ _ _ _ hb] at hm ⊢
      simp only [List.mem_singleton] at hm
      injection hm with h1 h2 h3
      injection h3 with he
      subst h1 h2 he
      exact ⟨rfl, rfl⟩
    · rw [checkLoop_next _ _ _ _ _ _ _ _ _ _ _ hb] at hm ⊢
      simp only [List.singleton_append, List.mem_cons] at hm
      rcases hm with heq | hm1
      · injection heq with _ _ hr
        exact Lookup.noConfusion hr
      · exact step _ _ _ hm1
    · rw [checkLoop_returned _ _ _ _ _ _ _ _ _ _ _ hb] at hm
      simp only [List.mem_cons, List.not_mem_nil, or_false] at hm
      rcases hm with heq | heq
      · injection heq with _ _ hr
        exact Lookup.noConfusion hr
      · exact Call.noConfusion heq
    · rw [checkLoop_next _ _ _ _ _ _ _ _ _ _ _ hb] at hm ⊢
      simp only [List.cons_append, List.nil_append, List.mem_cons] at hm
      rcases hm with heq | heq | hm1
      · injection heq with _ _ hr
        exact Lookup.noConfusion hr
      · exact Call.noConfusion heq
      · exact step _ _ _ hm1

/-- C6, as stated, fails: the client-facing service is found with a differing
hash and updated, then the lookup of the seed service is forbidden; the pass
returns `Error`, and it has issued a write. -/
theorem C6_counterexample :
    (CheckHeadlessServices (exampleHelpers []) (deniedClient [seedServiceName])
        { Client := staleStore, Datacenter := exampleDC }).trace
      = [ .get 0 { Name := "dc1-service".toList, Namespace := "ns".toList }
            (.found staleService),
          .update 0
            { Name := "dc1-service".toList, Namespace := "ns".toList,
              ResourceVersion := "7".toList,
              Annotations := [("hash".toList, "h1".toList)],
              OwnerReferences :=
                [{ Kind := "CassandraDatacenter".toList, Name := "dc1".toList,
                   Controller := true }],
              ClusterIP := "10.0.0.5".toList }
            none,
          .get 1 seedServiceName (.failed .Forbidden) ]
      ∧ IsNotFound .Forbidden = false
      ∧ (CheckHeadlessServices (exampleHelpers []) (deniedClient [seedServiceName])
          { Client := staleStore, Datacenter := exampleDC }).result = .Error .Forbidden
      ∧ ((CheckHeadlessServices (exampleHelpers []) (deniedClient [seedServiceName])
          { Client := staleStore, Datacenter := exampleDC }).trace.any Call.isUpdate) = true := by
  decide

/-- C6, amended: if a lookup fails with an error other than not-found, the
pass returns `Error` with that error, the failing lookup is the last call of
the pass, and the pass issues no create; updates of services checked before
the failing lookup are not excluded. -/
theorem C6_failed_lookup_aborts (h : Helpers DC) (k : Client σ DC)
    (rc : ReconciliationContext σ DC) (j : Nat) (n : NamespacedName) (e : Err)
    (hmem : .get j n (.failed e) ∈ (CheckHeadlessServices h k rc).trace)
    (hne : IsNotFound e = false) :
    (CheckHeadlessServices h k rc).result = .Error e
      ∧ (CheckHeadlessServices h k rc).trace.getLast? = some (.get j n (.failed e))
      ∧ ∀ call ∈ (CheckHeadlessServices h k rc).trace, call.isCreate = false := by
  obtain ⟨out, hout, hcases⟩ := CheckHeadlessServices_cases h k rc
  have hnc : ∀ call ∈ out.trace, (!call.isCreate) = true := by
    rw [hout]; exact checkLoop_trace_no_create h k rc.Datacenter _ 0 [] rc.Client
  have hin : .get j n (.failed e) ∈ out.trace →
      out.err = some e ∧ out.trace.getLast? = some (.get j n (.failed e)) := by
    rw [hout]
    exact fun hm => checkLoop_failed_lookup h k rc.Datacenter _ 0 [] rc.Client j n e hm hne
  rcases hcases with ⟨e1, herr, hres, htr, _⟩ | ⟨herr, _, hres, htr, _⟩
    | ⟨herr, _, hres, htr, _⟩
  · rw [htr] at hmem ⊢
    obtain ⟨h1, h2⟩ := hin hmem
    rw [herr] at h1
    injection h1 with h1
    subst h1
    exact ⟨hres, h2, fun call hm => by simpa using hnc call hm⟩
  · rw [htr] at hmem
    obtain ⟨h1, _⟩ := hin hmem
    rw [herr] at h1
    exact Option.noConfusion h1
  · rw [htr] at hmem
    rcases List.mem_append.1 hmem with hm | hm
    · obtain ⟨h1, _⟩ := hin hm
      rw [herr] at h1
      exact Option.noConfusion h1
    · have := createLoop_trace_kinds k rc.Datacenter out.createNeeded 0 out.Client _ hm
      simp [Call.isGet] at this

/-- Witness for C6 (amended): the forbidden lookup of the seed service. -/
theorem C6_failed_lookup_aborts_witness :
    (CheckHeadlessServices (exampleHelpers []) (deniedClient [seedServiceName])
        { Client := staleStore, Datacenter := exampleDC }).result = .Error .Forbidden :=
  (C6_failed_lookup_aborts (exampleHelpers []) (deniedClient [seedServiceName])
      { Client := staleStore, Datacenter := exampleDC } 1 seedServiceName .Forbidden
      (by decide) (by decide)).1

/-- Calls made by the rest of the check loop carry a larger index. -/
theorem checkLoop_get_index (h : Helpers DC) (k : Client σ DC) (dc : DC)
    (ds : List Service) (idx : Nat) (cn : List Service) (c : σ) (j : Nat)
    (n : NamespacedName) (r : Lookup)
    (hm : .get j n r ∈ (checkLoop h k dc idx ds cn c).trace) : idx ≤ j := by
  rcases checkLoop_trace_kinds h k dc ds idx cn c _ hm with
    ⟨j1, n1, r1, heq, hle, _⟩ | ⟨j1, o1, e1, heq, _, _⟩
  · injection heq with h1; omega
  · exact Call.noConfusion heq

theorem checkLoop_update_index (h : Helpers DC) (k : Client σ DC) (dc : DC)
    (ds : List Service) (idx : Nat) (cn : List Service) (c : σ) (j : Nat)
    (o : Service) (e : Option Err)
    (hm : .update j o e ∈ (checkLoop h k dc idx ds cn c).trace) : idx ≤ j := by
  rcases checkLoop_trace_kinds h k dc ds idx cn c _ hm with
    ⟨j1, n1, r1, heq, hle, _⟩ | ⟨j1, o1, e1, heq, hle, _⟩
  · exact Call.noConfusion heq
  · injection heq with h1; omega

/-- Every update of the check loop answers a lookup that found the service
with a differing hash, and carries the merged object. -/
theorem checkLoop_update_origin (h : Helpers DC) (k : Client σ DC) (dc : DC) :
    ∀ (ds : List Service) (idx : Nat) (cn : List Service) (c : σ) (j : Nat)
      (obj : Service) (err : Option Err),
      .update j obj err ∈ (checkLoop h k dc idx ds cn c).trace →
      ∃ i d dd obs, j = idx + i ∧ ds[i]? = some d ∧ h.setControllerReference dc d = .ok dd
        ∧ .get j (nsNameOf dd) (.found obs) ∈ (checkLoop h k dc idx ds cn c).trace
        ∧ h.ResourcesHaveSameHash obs dd = false ∧ obj = mergedForUpdate obs dd := by
  intro ds
  induction ds with
  | nil => intro idx cn c j obj err hm; simp [checkLoop] at hm
  | cons svc rest ih =>
    intro idx cn c j obj err hm
    have step : ∀ cn1 c1 (calls : List (Call DC)),
        .update j obj err ∈ (checkLoop h k dc (idx + 1) rest cn1 c1).trace →
        ∃ i d dd obs, j = idx + i ∧ (svc :: rest)[i]? = some d
          ∧ h.setControllerReference dc d = .ok dd
          ∧ .get j (nsNameOf dd) (.found obs)
              ∈ calls ++ (checkLoop h k dc (idx + 1) rest cn1 c1).trace
          ∧ h.ResourcesHaveSameHash obs dd = false ∧ obj = mergedForUpdate obs dd := by
      intro cn1 c1 calls hm1
      obtain ⟨i, d, dd, obs, hj, hd, hs, hg, hh, ho⟩ := ih (idx + 1) cn1 c1 j obj err hm1
      exact ⟨i + 1, d, dd, obs, by omega, by simpa using hd, hs,
        List.mem_append_right _ hg, hh, ho⟩
    rcases checkBody_cases h k dc idx svc cn c with
      ⟨e1, _, hb⟩ | ⟨d, e1, c1, _, _, _, hb⟩ | ⟨d, e1, c1, _, _, _, hb⟩
        | ⟨d, cur, c1, _, _, _, hb⟩ | ⟨d, cur, c1, e1, c2, hs, _, hh, _, hb⟩
        | ⟨d, cur, c1, c2, hs, _, hh, _, hb⟩
    · rw [checkLoop_returned _ _ _ _ _ _ _ _ _ _ _ hb] at hm
      simp at hm
    · rw [checkLoop_next _ _ _ _ _ _ _ _ _ _ _ hb] at hm ⊢
      simp only [List.singleton_append, List.mem_cons] at hm
      rcases hm with heq | hm1
      · exact Call.noConfusion heq
      · exact step _ _ _ hm1
    · rw [checkLoop_returned _ _ _ _ _ _ _ _ _ _ _ hb] at hm
      simp only [List.mem_singleton] at hm
      exact Call.noConfusion hm
    · rw [checkLoop_next _ _ _ _ _ _ _ _ _ _ _ hb] at hm ⊢
      simp only [List.singleton_append, List.mem_cons] at hm
      rcases hm with heq | hm1
      · exact Call.noConfusion heq
      · exact step _ _ _ hm1
    · rw [checkLoop_returned _ _ _ _ _ _ _ _ _ _ _ hb] at hm ⊢
      simp only [List.mem_cons, List.not_mem_nil, or_false] at hm
      rcases hm with heq | heq
      · exact Call.noConfusion heq
      · injection heq with h1 h2 h3
        subst h1 h2
        exact ⟨0, svc, d, cur, rfl, by simp, hs, List.mem_cons_self _ _, hh, rfl⟩
    · rw [checkLoop_next _ _ _ _ _ _ _ _ _ _ _ hb] at hm ⊢
      simp only [List.cons_append, List.nil_append, List.mem_cons] at hm
      rcases hm with heq | heq | hm1
      · exact Call.noConfusion heq
      · injection heq with h1 h2 h3
        subst h1 h2
        exact ⟨0, svc, d, cur, rfl, by simp, hs, List.mem_cons_self _ _, hh, rfl⟩
      · exact step _ _ _ hm1

/-- A lookup of the check loop that finds the service with a differing hash is
followed by an update of that service. -/
theorem checkLoop_update_issued (h : Helpers DC) (k : Client σ DC) (dc : DC) :
    ∀ (ds : List Service) (idx : Nat) (cn : List Service) (c : σ) (i : Nat)
      (n : NamespacedName) (obs d dd : Service),
      .get (idx + i) n (.found obs) ∈ (checkLoop h k dc idx ds cn c).trace →
      ds[i]? = some d → h.setControllerReference dc d = .ok dd →
      h.ResourcesHaveSameHash obs dd = false →
      ∃ err, .update (idx + i) (mergedForUpdate obs dd) err
        ∈ (checkLoop h k dc idx ds cn c).trace := by
  intro ds
  induction ds with
  | nil => intro idx cn c i n obs d dd hm; simp [checkLoop] at hm
  | cons svc rest ih =>
    intro idx cn c i n obs d dd hm hd hs hh
    have later : ∀ cn1 c1, .get (idx + i) n (.found obs)
          ∈ (checkLoop h k dc (idx + 1) rest cn1 c1).trace →
        ∀ (calls : List (Call DC)), ∃ err, .update (idx + i) (mergedForUpdate obs dd) err
          ∈ calls ++ (checkLoop h k dc (idx + 1) rest cn1 c1).trace := by
      intro cn1 c1 hm1 calls
      have hle := checkLoop_get_index h k dc rest (idx + 1) cn1 c1 _ _ _ hm1
      obtain ⟨i1, rfl⟩ : ∃ i1, i = i1 + 1 := ⟨i - 1, by omega⟩
      have hd1 : rest[i1]? = some d := by simpa using hd
      have hm2 : .get (idx + 1 + i1) n (.found obs)
          ∈ (checkLoop h k dc (idx + 1) rest cn1 c1).trace := by
        have : idx + 1 + i1 = idx + (i1 + 1) := by omega
        rw [this]; exact hm1
      obtain ⟨err, he⟩ := ih (idx + 1) cn1 c1 i1 n obs d dd hm2 hd1 hs hh
      refine ⟨err, List.mem_append_right _ ?_⟩
      have : idx + (i1 + 1) = idx + 1 + i1 := by omega
      rw [this]; exact he
    have here : ∀ (n1 : NamespacedName) (cur : Service),
        (Call.get (idx + i) n (.found obs) : Call DC) = .get idx n1 (.found cur) →
        i = 0 ∧ obs = cur ∧ d = svc := by
      intro n1 cur heq
      injection heq with h1 h2 h3
      injection h3 with h3
      have hi : i = 0 := by omega
      subst hi
      simp only [List.getElem?_cons_zero, Option.some.injEq] at hd
      exact ⟨rfl, h3, hd.symm⟩
    rcases checkBody_cases h k dc idx svc cn c with
      ⟨e1, _, hb⟩ | ⟨d1, e1, c1, _, _, _, hb⟩ | ⟨d1, e1, c1, _, _, _, hb⟩
        | ⟨d1, cur, c1, hs1, _, hh1, hb⟩ | ⟨d1, cur, c1, e1, c2, hs1, _, hh1, _, hb⟩
        | ⟨d1, cur, c1, c2, hs1, _, hh1, _, hb⟩
    · rw [checkLoop_returned _ _ _ _ _ _ _ _ _ _ _ hb] at hm
      simp at hm
    · rw [checkLoop_next _ _ _ _ _ _ _ _ _ _ _ hb] at hm ⊢
      simp only [List.singleton_append, List.mem_cons] at hm
      rcases hm with heq | hm1
      · injection heq with _ _ h3
        exact Lookup.noConfusion h3
      · exact later _ _ hm1 _
    · rw [checkLoop_returned _ _ _ _ _ _ _ _ _ _ _ hb] at hm
      simp only [List.mem_singleton] at hm
      injection hm with _ _ h3
      exact Lookup.noConfusion h3
    · rw [checkLoop_next _ _ _ _ _ _ _ _ _ _ _ hb] at hm ⊢
      simp only [List.singleton_append, List.mem_cons] at hm
      rcases hm with heq | hm1
      · obtain ⟨_, ho, hdd⟩ := here _ _ heq
        subst ho hdd
        rw [hs1] at hs
        injection hs with hs
        subst hs
        rw [hh1] at hh
        exact absurd hh (by decide)
      · exact later _ _ hm1 _
    · rw [checkLoop_returned _ _ _ _ _ _ _ _ _ _ _ hb] at hm ⊢
      simp only [List.mem_cons, List.not_mem_nil, or_false] at hm
      rcases hm with heq | heq
      · obtain ⟨hi, ho, hdd⟩ := here _ _ heq
        subst hi ho hdd
        rw [hs1] at hs
        injection hs with hs
        subst hs
        exact ⟨some e1, by simp⟩
      · exact Call.noConfusion heq
    · rw [checkLoop_next _ _ _ _ _ _ _ _ _ _ _ hb] at hm ⊢
      simp only [List.cons_append, List.nil_append, List.mem_cons] at hm
      rcases hm with heq | heq | hm1
      · obtain ⟨hi, ho, hdd⟩ := here _ _ heq
        subst hi ho hdd
        rw [hs1] at hs
        injection hs with hs
        subst hs
        exact ⟨none, by simp⟩
      · exact Call.noConfusion heq
      · exact later _ _ hm1 _

/-- When every service of the slice is found with an equal hash, the check
loop ends without error, adds nothing to `createNeeded` and makes lookups
only. -/
theorem checkLoop_all_same_hash (h : Helpers DC) (k : Client σ DC) (dc : DC) :
    ∀ (ds : List Service) (idx : Nat) (cn : List Service) (c : σ),
      (∀ i d, ds[i]? = some d → ∃ dd obs, h.setControllerReference dc d = .ok dd
        ∧ .get (idx + i) (nsNameOf dd) (.found obs) ∈ (checkLoop h k dc idx ds cn c).trace
        ∧ h.ResourcesHaveSameHash obs dd = true) →
      (checkLoop h k dc idx ds cn c).err = none
        ∧ (checkLoop h k dc idx ds cn c).createNeeded = cn
        ∧ ∀ call ∈ (checkLoop h k dc idx ds cn c).trace, call.isGet = true := by
  intro ds
  induction ds with
  | nil => intro idx cn c _; simp [checkLoop]
  | cons svc rest ih =>
    intro idx cn c hall
    obtain ⟨dd, obs, hs, hm, hh⟩ := hall 0 svc (by simp)
    have notlater : ∀ cn1 c1, .get (idx + 0) (nsNameOf dd) (.found obs)
        ∉ (checkLoop h k dc (idx + 1) rest cn1 c1).trace := by
      intro cn1 c1 hm1
      have := checkLoop_get_index h k dc rest (idx + 1) cn1 c1 _ _ _ hm1
      omega
    have shift : ∀ cn1 c1 (calls : List (Call DC)),
        (∀ call ∈ calls, ∃ n r, call = .get idx n r) ∨
          (∀ call ∈ calls, (∃ n r, call = .get idx n r) ∨ ∃ o e, call = .update idx o e) →
        (∀ i d, (svc :: rest)[i]? = some d → ∃ dd obs, h.setControllerReference dc d = .ok dd
          ∧ .get (idx + i) (nsNameOf dd) (.found obs)
              ∈ calls ++ (checkLoop h k dc (idx + 1) rest cn1 c1).trace
          ∧ h.ResourcesHaveSameHash obs dd = true) →
        ∀ i d, rest[i]? = some d → ∃ dd obs, h.setControllerReference dc d = .ok dd
          ∧ .get (idx + 1 + i) (nsNameOf dd) (.found obs)
              ∈ (checkLoop h k dc (idx + 1) rest cn1 c1).trace
          ∧ h.ResourcesHaveSameHash obs dd = true := by
      intro cn1 c1 calls hcalls hall1 i d hd
      obtain ⟨dd1, obs1, hs1, hm1, hh1⟩ := hall1 (i + 1) d (by simpa using hd)
      refine ⟨dd1, obs1, hs1, ?_, hh1⟩
      have hidx : idx + 1 + i = idx + (i + 1) := by omega
      rw [hidx]
      rcases List.mem_append.1 hm1 with hc | hr
      · exfalso
        have hkind : (∃ n r, (Call.get (idx + (i + 1)) (nsNameOf dd1) (.found obs1) : Call DC)
            = .get idx n r) ∨ ∃ o e, (Call.get (idx + (i + 1)) (nsNameOf dd1) (.found obs1)
              : Call DC) = .update idx o e := by
          rcases hcalls with hg | hgu
          · exact Or.inl (hg _ hc)
          · exact hgu _ hc
        rcases hkind with ⟨n, r, heq⟩ | ⟨o, e, heq⟩
        · injection heq with h1; omega
        · exact Call.noConfusion heq
      · exact hr
    rcases checkBody_cases h k dc idx svc cn c with
      ⟨e1, hs1, hb⟩ | ⟨d1, e1, c1, hs1, _, _, hb⟩ | ⟨d1, e1, c1, hs1, _, _, hb⟩
        | ⟨d1, cur, c1, hs1, _, hh1, hb⟩ | ⟨d1, cur, c1, e1, c2, hs1, _, hh1, _, hb⟩
        | ⟨d1, cur, c1, c2, hs1, _, hh1, _, hb⟩
    · rw [hs1] at hs
      exact Except.noConfusion hs
    · rw [checkLoop_next _ _ _ _ _ _ _ _ _ _ _ hb] at hm
      simp only [List.singleton_append, List.mem_cons] at hm
      rcases hm with heq | hm1
      · injection heq with _ _ h3
        exact Lookup.noConfusion h3
      · exact absurd hm1 (notlater _ _)
    · rw [checkLoop_returned _ _ _ _ _ _ _ _ _ _ _ hb] at hm
      simp only [List.mem_singleton] at hm
      injection hm with _ _ h3
      exact Lookup.noConfusion h3
    · rw [checkLoop_next _ _ _ _ _ _ _ _ _ _ _ hb] at hall ⊢
      have hrest := shift cn c1 [.get idx (nsNameOf d1) (.found cur)]
        (Or.inl (by intro call hc; exact ⟨_, _, List.mem_singleton.1 hc⟩)) hall
      obtain ⟨h1, h2, h3⟩ := ih (idx + 1) cn c1 hrest
      refine ⟨h1, h2, ?_⟩
      intro call hc
      simp only [List.singleton_append, List.mem_cons] at hc
      rcases hc with rfl | hc
      · rfl
      · exact h3 call hc
    · rw [checkLoop_returned _ _ _ _ _ _ _ _ _ _ _ hb] at hm
      rw [hs1] at hs
      injection hs with hs
      subst hs
      simp only [List.mem_cons, List.not_mem_nil, or_false] at hm
      rcases hm with heq | heq
      · injection heq with _ _ h3
        injection h3 with h3
        subst h3
        rw [hh1] at hh
        exact absurd hh (by decide)
      · exact Call.noConfusion heq
    · rw [checkLoop_next _ _ _ _ _ _ _ _ _ _ _ hb] at hm
      rw [hs1] at hs
      injection hs with hs
      subst hs
      simp only [List.cons_append, List.nil_append, List.mem_cons] at hm
      rcases hm with heq | heq | hm1
      · injection heq with _ _ h3
        injection h3 with h3
        subst h3
        rw [hh1] at hh
        exact absurd hh (by decide)
      · exact Call.noConfusion heq
      · exact absurd hm1 (notlater _ _)

/-- A lookup or an update of a pass is a call of its check loop. -/
theorem CheckHeadlessServices_check_call (h : Helpers DC) (k : Client σ DC)
    (rc : ReconciliationContext σ DC) (call : Call DC)
    (hk : (call.isGet || call.isUpdate) = true) :
    call ∈ (CheckHeadlessServices h k rc).trace ↔
      call ∈ (checkLoop h k rc.Datacenter 0 (desiredServices h rc.Datacenter) []
        rc.Client).trace := by
  obtain ⟨out, hout, hcases⟩ := CheckHeadlessServices_cases h k rc
  rw [← hout]
  rcases hcases with ⟨e1, _, _, htr, _⟩ | ⟨_, _, _, htr, _⟩ | ⟨_, _, _, htr, _⟩
  · rw [htr]
  · rw [htr]
  · rw [htr, List.mem_append]
    constructor
    · rintro (hm | hm)
      · exact hm
      · have := createLoop_trace_kinds k rc.Datacenter out.createNeeded 0 out.Client _ hm
        simp only [Bool.and_eq_true, Bool.not_eq_true'] at this
        rw [this.1, this.2] at hk
        exact absurd hk (by decide)
    · exact Or.inl

theorem CheckHeadlessServices_get_mem (h : Helpers DC) (k : Client σ DC)
    (rc : ReconciliationContext σ DC) (j : Nat) (n : NamespacedName) (r : Lookup) :
    .get j n r ∈ (CheckHeadlessServices h k rc).trace ↔
      .get j n r ∈ (checkLoop h k rc.Datacenter 0 (desiredServices h rc.Datacenter) []
        rc.Client).trace :=
  CheckHeadlessServices_check_call h k rc (.get j n r) rfl

theorem CheckHeadlessServices_update_mem (h : Helpers DC) (k : Client σ DC)
    (rc : ReconciliationContext σ DC) (j : Nat) (o : Service) (e : Option Err) :
    .update j o e ∈ (CheckHeadlessServices h k rc).trace ↔
      .update j o e ∈ (checkLoop h k rc.Datacenter 0 (desiredServices h rc.Datacenter) []
        rc.Client).trace :=
  CheckHeadlessServices_check_call h k rc (.update j o e) rfl

/-- C7: in every pass an update is issued for the desired service at index `i`
exactly when its lookup found the service and `ResourcesHaveSameHash` of the
observed and the desired service is false; and when every desired service is
found with an equal hash, the pass issues no create and no update and returns
`Continue`. -/
theorem C7_update_iff_hash_differs (h : Helpers DC) (k : Client σ DC)
    (rc : ReconciliationContext σ DC) :
    (∀ i, (∃ obj err, .update i obj err ∈ (CheckHeadlessServices h k rc).trace) ↔
        ∃ d dd obs, (desiredServices h rc.Datacenter)[i]? = some d
          ∧ h.setControllerReference rc.Datacenter d = .ok dd
          ∧ .get i (nsNameOf dd) (.found obs) ∈ (CheckHeadlessServices h k rc).trace
          ∧ h.ResourcesHaveSameHash obs dd = false)
      ∧ ((∀ i d, (desiredServices h rc.Datacenter)[i]? = some d →
            ∃ dd obs, h.setControllerReference rc.Datacenter d = .ok dd
              ∧ .get i (nsNameOf dd) (.found obs) ∈ (CheckHeadlessServices h k rc).trace
              ∧ h.ResourcesHaveSameHash obs dd = true) →
          (∀ call ∈ (CheckHeadlessServices h k rc).trace,
              call.isCreate = false ∧ call.isUpdate = false)
            ∧ (CheckHeadlessServices h k rc).result = .Continue) := by
  refine ⟨?_, ?_⟩
  · intro i
    constructor
    · rintro ⟨obj, err, hm⟩
      rw [CheckHeadlessServices_update_mem] at hm
      obtain ⟨i1, d, dd, obs, hi, hd, hs, hg, hh, _⟩ :=
        checkLoop_update_origin h k rc.Datacenter _ 0 [] rc.Client i obj err hm
      have hi' : i1 = i := by omega
      subst hi'
      exact ⟨d, dd, obs, hd, hs, (CheckHeadlessServices_get_mem h k rc _ _ _).2 hg, hh⟩
    · rintro ⟨d, dd, obs, hd, hs, hg, hh⟩
      rw [CheckHeadlessServices_get_mem] at hg
      have hg' : .get (0 + i) (nsNameOf dd) (.found obs)
          ∈ (checkLoop h k rc.Datacenter 0 (desiredServices h rc.Datacenter) []
              rc.Client).trace := by
        rw [Nat.zero_add]; exact hg
      obtain ⟨err, he⟩ :=
        checkLoop_update_issued h k rc.Datacenter _ 0 [] rc.Client i _ obs d dd hg' hd hs hh
      rw [Nat.zero_add] at he
      exact ⟨_, err, (CheckHeadlessServices_update_mem h k rc _ _ _).2 he⟩
  · intro hall
    have hall' : ∀ i d, (desiredServices h rc.Datacenter)[i]? = some d →
        ∃ dd obs, h.setControllerReference rc.Datacenter d = .ok dd
          ∧ .get (0 + i) (nsNameOf dd) (.found obs)
              ∈ (checkLoop h k rc.Datacenter 0 (desiredServices h rc.Datacenter) []
                  rc.Client).trace
          ∧ h.ResourcesHaveSameHash obs dd = true := by
      intro i d hd
      obtain ⟨dd, obs, hs, hg, hh⟩ := hall i d hd
      rw [CheckHeadlessServices_get_mem] at hg
      exact ⟨dd, obs, hs, by rw [Nat.zero_add]; exact hg, hh⟩
    obtain ⟨herr, hcn, hgets⟩ :=
      checkLoop_all_same_hash h k rc.Datacenter _ 0 [] rc.Client hall'
    obtain ⟨out, hout, hcases⟩ := CheckHeadlessServices_cases h k rc
    rw [← hout] at herr hcn hgets
    rcases hcases with ⟨e1, herr1, _, _, _⟩ | ⟨_, _, hres, htr, _⟩ | ⟨_, hne, _, _, _⟩
    · rw [herr] at herr1
      exact Option.noConfusion herr1
    · rw [htr, hres]
      refine ⟨?_, rfl⟩
      intro call hc
      have hg := hgets call hc
      cases call <;> simp_all [Call.isGet, Call.isCreate, Call.isUpdate]
    · exact absurd hcn hne

/-- Witness for C7: over the store that holds the four desired services as
created, every lookup finds an equal hash and the pass writes nothing. -/
theorem C7_update_iff_hash_differs_witness :
    (∀ call ∈ (CheckHeadlessServices (exampleHelpers []) memClient
          { Client := convergedStore, Datacenter := exampleDC }).trace,
        call.isCreate = false ∧ call.isUpdate = false)
      ∧ (CheckHeadlessServices (exampleHelpers []) memClient
          { Client := convergedStore, Datacenter := exampleDC }).result = .Continue :=
  (C7_update_iff_hash_differs (exampleHelpers []) memClient
      { Client := convergedStore, Datacenter := exampleDC }).2
    (by
      intro i d hd
      rcases i with _ | _ | _ | _ | i
      · simp only [desiredServices, exampleHelpers, exampleDC, Bool.false_eq_true, if_false,
          List.getElem?_cons_zero, Option.some.injEq] at hd
        subst hd
        exact ⟨exampleStamped "-service".toList "h1".toList, exampleStamped "-service".toList "h1".toList, rfl,
          by decide, by decide⟩
      · simp only [desiredServices, exampleHelpers, exampleDC, Bool.false_eq_true, if_false,
          List.getElem?_cons_succ, List.getElem?_cons_zero, Option.some.injEq] at hd
        subst hd
        exact ⟨exampleStamped "-seed-service".toList "h2".toList, exampleStamped "-seed-service".toList "h2".toList, rfl,
          by decide, by decide⟩
      · simp only [desiredServices, exampleHelpers, exampleDC, Bool.false_eq_true, if_false,
          List.getElem?_cons_succ, List.getElem?_cons_zero, Option.some.injEq] at hd
        subst hd
        exact ⟨exampleStamped "-all-pods-service".toList "h3".toList, exampleStamped "-all-pods-service".toList "h3".toList, rfl,
          by decide, by decide⟩
      · simp only [desiredServices, exampleHelpers, exampleDC, Bool.false_eq_true, if_false,
          List.getElem?_cons_succ, List.getElem?_cons_zero, Option.some.injEq] at hd
        subst hd
        exact ⟨exampleStamped "-additional-seed-service".toList "h4".toList, exampleStamped "-additional-seed-service".toList "h4".toList, rfl,
          by decide, by decide⟩
      · simp [desiredServices, exampleHelpers, exampleDC] at hd)

/-- C8: the object of every update is the desired service, stamped with its
owner reference, with the observed `ClusterIP` and the observed resource
version put in and every other field as desired; for the observed address
`10.0.0.5` and a desired service with no address, the update request carries
`10.0.0.5`. -/
theorem C8_update_carries_observed_fields (h : Helpers DC) (k : Client σ DC)
    (rc : ReconciliationContext σ DC) (i : Nat) (obj : Service) (err : Option Err)
    (hmem : .update i obj err ∈ (CheckHeadlessServices h k rc).trace) :
    (∃ d dd obs, (desiredServices h rc.Datacenter)[i]? = some d
        ∧ h.setControllerReference rc.Datacenter d = .ok dd
        ∧ .get i (nsNameOf dd) (.found obs) ∈ (CheckHeadlessServices h k rc).trace
        ∧ h.ResourcesHaveSameHash obs dd = false
        ∧ obj.ClusterIP = obs.ClusterIP
        ∧ obj.ResourceVersion = obs.ResourceVersion
        ∧ obj = { dd with ClusterIP := obs.ClusterIP, ResourceVersion := obs.ResourceVersion })
      ∧ ((exampleHelpers []).newServiceForCassandraDatacenter exampleDC).ClusterIP = []
      ∧ staleService.ClusterIP = "10.0.0.5".toList
      ∧ ((CheckHeadlessServices (exampleHelpers []) memClient
            { Client := staleStore, Datacenter := exampleDC }).trace.filterMap
          fun call =>
            match call with
            | .update _ o _ => some o.ClusterIP
            | _ => none) = ["10.0.0.5".toList] := by
  refine ⟨?_, by decide, by decide, by decide⟩
  rw [CheckHeadlessServices_update_mem] at hmem
  obtain ⟨i1, d, dd, obs, hi, hd, hs, hg, hh, ho⟩ :=
    checkLoop_update_origin h k rc.Datacenter _ 0 [] rc.Client i obj err hmem
  have hi' : i1 = i := by omega
  subst hi'
  refine ⟨d, dd, obs, hd, hs, (CheckHeadlessServices_get_mem h k rc _ _ _).2 hg, hh, ?_, ?_, ?_⟩
  · rw [ho]; rfl
  · rw [ho]; rfl
  · rw [ho]; rfl

/-- Witness for C8: the update of the stale client-facing service of `dc1`. -/
theorem C8_update_carries_observed_fields_witness :
    ∃ d dd obs, (desiredServices (exampleHelpers []) exampleDC)[0]? = some d
      ∧ (exampleHelpers []).setControllerReference exampleDC d = .ok dd
      ∧ .get 0 (nsNameOf dd) (.found obs)
          ∈ (CheckHeadlessServices (exampleHelpers []) memClient
              { Client := staleStore, Datacenter := exampleDC }).trace
      ∧ (exampleHelpers []).ResourcesHaveSameHash obs dd = false
      ∧ (mergedForUpdate staleService
            { Name := "dc1-service".toList, Namespace := "ns".toList,
              Annotations := [("hash".toList, "h1".toList)],
              OwnerReferences :=
                [{ Kind := "CassandraDatacenter".toList, Name := "dc1".toList,
                   Controller := true }] }).ClusterIP = obs.ClusterIP
      ∧ (mergedForUpdate staleService
            { Name := "dc1-service".toList, Namespace := "ns".toList,
              Annotations := [("hash".toList, "h1".toList)],
              OwnerReferences :=
                [{ Kind := "CassandraDatacenter".toList, Name := "dc1".toList,
                   Controller := true }] }).ResourceVersion = obs.ResourceVersion
      ∧ mergedForUpdate staleService
            { Name := "dc1-service".toList, Namespace := "ns".toList,
              Annotations := [("hash".toList, "h1".toList)],
              OwnerReferences :=
                [{ Kind := "CassandraDatacenter".toList, Name := "dc1".toList,
                   Controller := true }] }
          = { dd with ClusterIP := obs.ClusterIP, ResourceVersion := obs.ResourceVersion } :=
  (C8_update_carries_observed_fields (exampleHelpers []) memClient
      { Client := staleStore, Datacenter := exampleDC } 0
      (mergedForUpdate staleService
        { Name := "dc1-service".toList, Namespace := "ns".toList,
          Annotations := [("hash".toList, "h1".toList)],
          OwnerReferences :=
            [{ Kind := "CassandraDatacenter".toList, Name := "dc1".toList,
               Controller := true }] })
      none (by decide)).1

theorem lookupNotFound_iff (trace : List (Call DC)) (i : Nat) :
    lookupNotFound trace i = true ↔
      ∃ n e, .get i n (.failed e) ∈ trace ∧ IsNotFound e = true := by
  unfold lookupNotFound
  rw [List.any_eq_true]
  constructor
  · rintro ⟨call, hm, hc⟩
    cases call with
    | get j n r =>
      cases r with
      | found s => simp at hc
      | failed e =>
        simp only [Bool.and_eq_true, beq_iff_eq] at hc
        obtain ⟨rfl, he⟩ := hc
        exact ⟨n, e, hm, he⟩
    | update j o e => simp at hc
    | progress e => simp at hc
    | create j o e => simp at hc
    | event d a b m => simp at hc
  · rintro ⟨n, e, hm, he⟩
    exact ⟨_, hm, by simp [he]⟩

theorem missingServices_congr (h : Helpers DC) (dc : DC) (t1 t2 : List (Call DC)) :
    ∀ (ds : List Service) (idx : Nat),
      (∀ j, idx ≤ j → lookupNotFound t1 j = lookupNotFound t2 j) →
      missingServices h dc t1 idx ds = missingServices h dc t2 idx ds := by
  intro ds
  induction ds with
  | nil => intro idx _; rfl
  | cons svc rest ih =>
    intro idx hj
    have hrest := ih (idx + 1) (fun j hle => hj j (by omega))
    simp only [missingServices, hj idx (le_refl _), hrest]

/-- The check loop makes at most one lookup at each index. -/
theorem checkLoop_get_unique (h : Helpers DC) (k : Client σ DC) (dc : DC) :
    ∀ (ds : List Service) (idx : Nat) (cn : List Service) (c : σ) (j : Nat)
      (n1 n2 : NamespacedName) (r1 r2 : Lookup),
      .get j n1 r1 ∈ (checkLoop h k dc idx ds cn c).trace →
      .get j n2 r2 ∈ (checkLoop h k dc idx ds cn c).trace → n1 = n2 ∧ r1 = r2 := by
  intro ds
  induction ds with
  | nil => intro idx cn c j n1 n2 r1 r2 hm; simp [checkLoop] at hm
  | cons svc rest ih =>
    intro idx cn c j n1 n2 r1 r2 hm1 hm2
    have key : ∀ cn1 c1 (n : NamespacedName) (r : Lookup) (calls : List (Call DC)),
        (∀ call ∈ calls, call = .get idx n r ∨ ∃ o e, call = .update idx o e) →
        .get j n1 r1 ∈ calls ++ (checkLoop h k dc (idx + 1) rest cn1 c1).trace →
        .get j n2 r2 ∈ calls ++ (checkLoop h k dc (idx + 1) rest cn1 c1).trace →
        n1 = n2 ∧ r1 = r2 := by
      intro cn1 c1 n r calls hcalls ha hb
      have inCalls : ∀ (n' : NamespacedName) (r' : Lookup),
          (Call.get j n' r' : Call DC) ∈ calls → j = idx ∧ n' = n ∧ r' = r := by
        intro n' r' hmem
        rcases hcalls _ hmem with heq | ⟨o, e, heq⟩
        · injection heq with h1 h2 h3
          exact ⟨h1, h2, h3⟩
        · exact Call.noConfusion heq
      rcases List.mem_append.1 ha with ha | ha <;> rcases List.mem_append.1 hb with hb | hb
      · obtain ⟨_, rfl, rfl⟩ := inCalls _ _ ha
        obtain ⟨_, rfl, rfl⟩ := inCalls _ _ hb
        exact ⟨rfl, rfl⟩
      · obtain ⟨hj, _, _⟩ := inCalls _ _ ha
        have := checkLoop_get_index h k dc rest (idx + 1) cn1 c1 _ _ _ hb
        omega
      · obtain ⟨hj, _, _⟩ := inCalls _ _ hb
        have := checkLoop_get_index h k dc rest (idx + 1) cn1 c1 _ _ _ ha
        omega
      · exact ih (idx + 1) cn1 c1 j n1 n2 r1 r2 ha hb
    have keyRet : ∀ (n : NamespacedName) (r : Lookup) (calls : List (Call DC)),
        (∀ call ∈ calls, call = .get idx n r ∨ ∃ o e, call = .update idx o e) →
        .get j n1 r1 ∈ calls → .get j n2 r2 ∈ calls → n1 = n2 ∧ r1 = r2 := by
      intro n r calls hcalls ha hb
      rcases hcalls _ ha with heq | ⟨o, e, heq⟩
      · rcases hcalls _ hb with heq2 | ⟨o, e, heq2⟩
        · injection heq with _ h2 h3
          injection heq2 with _ h2' h3'
          exact ⟨h2.trans h2'.symm, h3.trans h3'.symm⟩
        · exact Call.noConfusion heq2
      · exact Call.noConfusion heq
    rcases checkBody_cases h k dc idx svc cn c with
      ⟨e1, _, hb⟩ | ⟨d1, e1, c1, _, _, _, hb⟩ | ⟨d1, e1, c1, _, _, _, hb⟩
        | ⟨d1, cur, c1, _, _, _, hb⟩ | ⟨d1, cur, c1, e1, c2, _, _, _, _, hb⟩
        | ⟨d1, cur, c1, c2, _, _, _, _, hb⟩
    · rw [checkLoop_returned _ _ _ _ _ _ _ _ _ _ _ hb] at hm1
      simp at hm1
    · rw [checkLoop_next _ _ _ _ _ _ _ _ _ _ _ hb] at hm1 hm2
      exact key _ _ _ _ _ (by intro call hc; exact Or.inl (List.mem_singleton.1 hc)) hm1 hm2
    · rw [checkLoop_returned _ _ _ _ _ _ _ _ _ _ _ hb] at hm1 hm2
      exact keyRet _ _ _ (by intro call hc; exact Or.inl (List.mem_singleton.1 hc)) hm1 hm2
    · rw [checkLoop_next _ _ _ _ _ _ _ _ _ _ _ hb] at hm1 hm2
      exact key _ _ _ _ _ (by intro call hc; exact Or.inl (List.mem_singleton.1 hc)) hm1 hm2
    · rw [checkLoop_returned _ _ _ _ _ _ _ _ _ _ _ hb] at hm1 hm2
      refine keyRet (nsNameOf d1) (.found cur) _ ?_ hm1 hm2
      intro call hc
      simp only [List.mem_cons, List.not_mem_nil, or_false] at hc
      rcases hc with rfl | rfl
      · exact Or.inl rfl
      · exact Or.inr ⟨_, _, rfl⟩
    · rw [checkLoop_next _ _ _ _ _ _ _ _ _ _ _ hb] at hm1 hm2
      refine key _ _ (nsNameOf d1) (.found cur) _ ?_ hm1 hm2
      intro call hc
      simp only [List.mem_cons, List.not_mem_nil, or_false] at hc
      rcases hc with rfl | rfl
      · exact Or.inl rfl
      · exact Or.inr ⟨_, _, rfl⟩

/-- The check loop returns an error only when setting an owner reference
failed or a store call failed. -/
theorem checkLoop_err_cause (h : Helpers DC) (k : Client σ DC) (dc : DC) :
    ∀ (ds : List Service) (idx : Nat) (cn : List Service) (c : σ) (e : Err),
      (checkLoop h k dc idx ds cn c).err = some e →
      (∃ d ∈ ds, h.setControllerReference dc d = .error e)
        ∨ ∃ call ∈ (checkLoop h k dc idx ds cn c).trace, call.isFailure = true := by
  intro ds
  induction ds with
  | nil => intro idx cn c e he; simp [checkLoop] at he
  | cons svc rest ih =>
    intro idx cn c e he
    have step : ∀ cn1 c1 (calls : List (Call DC)),
        (checkLoop h k dc (idx + 1) rest cn1 c1).err = some e →
        (∃ d ∈ svc :: rest, h.setControllerReference dc d = .error e)
          ∨ ∃ call ∈ calls ++ (checkLoop h k dc (idx + 1) rest cn1 c1).trace,
              call.isFailure = true := by
      intro cn1 c1 calls he1
      rcases ih (idx + 1) cn1 c1 e he1 with ⟨d, hd, hs⟩ | ⟨call, hm, hf⟩
      · exact Or.inl ⟨d, List.mem_cons_of_mem _ hd, hs⟩
      · exact Or.inr ⟨call, List.mem_append_right _ hm, hf⟩
    rcases checkBody_cases h k dc idx svc cn c with
      ⟨e1, hs1, hb⟩ | ⟨d1, e1, c1, _, _, _, hb⟩ | ⟨d1, e1, c1, _, _, hnf, hb⟩
        | ⟨d1, cur, c1, _, _, _, hb⟩ | ⟨d1, cur, c1, e1, c2, _, _, _, _, hb⟩
        | ⟨d1, cur, c1, c2, _, _, _, _, hb⟩
    · rw [checkLoop_returned _ _ _ _ _ _ _ _ _ _ _ hb] at he
      injection he with he
      subst he
      exact Or.inl ⟨svc, List.mem_cons_self _ _, hs1⟩
    · rw [checkLoop_next _ _ _ _ _ _ _ _ _ _ _ hb] at he ⊢
      exact step _ _ _ he
    · rw [checkLoop_returned _ _ _ _ _ _ _ _ _ _ _ hb]
      exact Or.inr ⟨_, List.mem_singleton.2 rfl, by simp [Call.isFailure, hnf]⟩
    · rw [checkLoop_next _ _ _ _ _ _ _ _ _ _ _ hb] at he ⊢
      exact step _ _ _ he
    · rw [checkLoop_returned _ _ _ _ _ _ _ _ _ _ _ hb]
      exact Or.inr ⟨.update idx (mergedForUpdate cur d1) (some e1), by simp, rfl⟩
    · rw [checkLoop_next _ _ _ _ _ _ _ _ _ _ _ hb] at he ⊢
      exact step _ _ _ he

theorem lookupNotFound_later (h : Helpers DC) (k : Client σ DC) (dc : DC)
    (ds : List Service) (idx : Nat) (cn : List Service) (c : σ) (j : Nat) (hj : j < idx) :
    lookupNotFound (checkLoop h k dc idx ds cn c).trace j = false := by
  rw [← Bool.not_eq_true, lookupNotFound_iff]
  rintro ⟨n, e, hm, _⟩
  have := checkLoop_get_index h k dc ds idx cn c _ _ _ hm
  omega

/-- When the check loop ends without error, `createNeeded` has grown by the
stamped services whose lookup answered not-found, in order. -/
theorem checkLoop_createNeeded (h : Helpers DC) (k : Client σ DC) (dc : DC) :
    ∀ (ds : List Service) (idx : Nat) (cn : List Service) (c : σ),
      (checkLoop h k dc idx ds cn c).err = none →
      (checkLoop h k dc idx ds cn c).createNeeded
        = cn ++ missingServices h dc (checkLoop h k dc idx ds cn c).trace idx ds := by
  intro ds
  induction ds with
  | nil => intro idx cn c _; simp [checkLoop, missingServices]
  | cons svc rest ih =>
    intro idx cn c he
    have tailEq : ∀ cn1 c1 (calls : List (Call DC)),
        (∀ j, idx + 1 ≤ j → lookupNotFound calls j = false) →
        missingServices h dc (calls ++ (checkLoop h k dc (idx + 1) rest cn1 c1).trace)
            (idx + 1) rest
          = missingServices h dc (checkLoop h k dc (idx + 1) rest cn1 c1).trace
              (idx + 1) rest := by
      intro cn1 c1 calls hcalls
      apply missingServices_congr
      intro j hj
      simp only [lookupNotFound, List.any_append] at hcalls ⊢
      rw [hcalls j hj, Bool.false_or]
    have headEq : ∀ cn1 c1 (calls : List (Call DC)),
        lookupNotFound (calls ++ (checkLoop h k dc (idx + 1) rest cn1 c1).trace) idx
          = lookupNotFound calls idx := by
      intro cn1 c1 calls
      have := lookupNotFound_later h k dc rest (idx + 1) cn1 c1 idx (by omega)
      simp only [lookupNotFound, List.any_append] at this ⊢
      rw [this, Bool.or_false]
    rcases checkBody_cases h k dc idx svc cn c with
      ⟨e1, hs1, hb⟩ | ⟨d1, e1, c1, hs1, _, hnf, hb⟩ | ⟨d1, e1, c1, hs1, _, hnf, hb⟩
        | ⟨d1, cur, c1, hs1, _, _, hb⟩ | ⟨d1, cur, c1, e1, c2, hs1, _, _, _, hb⟩
        | ⟨d1, cur, c1, c2, hs1, _, _, _, hb⟩
    · rw [checkLoop_returned _ _ _ _ _ _ _ _ _ _ _ hb] at he
      exact Option.noConfusion he
    · rw [checkLoop_next _ _ _ _ _ _ _ _ _ _ _ hb] at he ⊢
      have hih := ih (idx + 1) (cn ++ [d1]) c1 he
      have hhead : lookupNotFound
          ([.get idx (nsNameOf d1) (.failed e1)] : List (Call DC)) idx = true := by
        simp [lookupNotFound, hnf]
      have htail : ∀ j, idx + 1 ≤ j → lookupNotFound
          ([.get idx (nsNameOf d1) (.failed e1)] : List (Call DC)) j = false := by
        intro j hj
        have : idx ≠ j := by omega
        simp [lookupNotFound, this]
      simp only [missingServices, hs1, headEq, hhead, if_true, tailEq _ _ _ htail]
      rw [hih]; simp
    · rw [checkLoop_returned _ _ _ _ _ _ _ _ _ _ _ hb] at he
      exact Option.noConfusion he
    · rw [checkLoop_next _ _ _ _ _ _ _ _ _ _ _ hb] at he ⊢
      have hih := ih (idx + 1) cn c1 he
      have hhead : lookupNotFound
          ([.get idx (nsNameOf d1) (.found cur)] : List (Call DC)) idx = false := by
        simp [lookupNotFound]
      have htail : ∀ j, idx + 1 ≤ j → lookupNotFound
          ([.get idx (nsNameOf d1) (.found cur)] : List (Call DC)) j = false := by
        intro j hj
        simp [lookupNotFound]
      simp only [missingServices, hs1, headEq, hhead, Bool.false_eq_true, if_false,
        tailEq _ _ _ htail]
      exact hih
    · rw [checkLoop_returned _ _ _ _ _ _ _ _ _ _ _ hb] at he
      exact Option.noConfusion he
    · rw [checkLoop_next _ _ _ _ _ _ _ _ _ _ _ hb] at he ⊢
      have hih := ih (idx + 1) cn c2 he
      have hhead : lookupNotFound
          ([.get idx (nsNameOf d1) (.found cur), .update idx (mergedForUpdate cur d1) none]
            : List (Call DC)) idx = false := by
        simp [lookupNotFound]
      have htail : ∀ j, idx + 1 ≤ j → lookupNotFound
          ([.get idx (nsNameOf d1) (.found cur), .update idx (mergedForUpdate cur d1) none]
            : List (Call DC)) j = false := by
        intro j hj
        simp [lookupNotFound]
      simp only [missingServices, hs1, headEq, hhead, Bool.false_eq_true, if_false,
        tailEq _ _ _ htail]
      exact hih

/-- When no call of the create loop fails, the loop creates every service of
its slice, once and in order. -/
theorem createLoop_created (k : Client σ DC) (dc : DC) :
    ∀ (ss : List Service) (idx : Nat) (c : σ),
      (∀ call ∈ (createLoop k dc idx ss c).2.2, call.isFailure = false) →
      createdObjects (createLoop k dc idx ss c).2.2 = ss := by
  intro ss
  induction ss with
  | nil => intro idx c _; rfl
  | cons s rest ih =>
    intro idx c hok
    rcases createBody_cases k dc idx s c with
      ⟨e, c1, _, hb⟩ | ⟨c1, e, c2, _, _, hb⟩ | ⟨c1, c2, _, _, hb⟩
    · rw [createLoop_returned _ _ _ _ _ _ _ _ _ hb] at hok
      have := hok (.progress (some e)) (by simp)
      exact absurd this (by simp [Call.isFailure])
    · rw [createLoop_returned _ _ _ _ _ _ _ _ _ hb] at hok
      have := hok (.create idx s (some e)) (by simp)
      exact absurd this (by simp [Call.isFailure])
    · rw [createLoop_next _ _ _ _ _ _ _ _ _ hb] at hok ⊢
      have hrest := ih (idx + 1) c2 (fun call hm => hok call (List.mem_append_right _ hm))
      simp only [createdObjects, List.cons_append, List.nil_append, List.filterMap_cons] at hrest ⊢
      rw [hrest]

/-- C10, as stated, fails: no store call fails, the lookup of the
client-facing service answers not-found, yet nothing is created, because the
owner reference of the next service cannot be set and the pass returns
`Error` before the creation batch. -/
theorem C10_counterexample :
    (CheckHeadlessServices (exampleHelpers [unownableName]) memClient
        { Client := emptyStore, Datacenter := exampleDC }).trace
      = [.get 0 { Name := "dc1-service".toList, Namespace := "ns".toList }
          (.failed .NotFound)]
      ∧ ((CheckHeadlessServices (exampleHelpers [unownableName]) memClient
          { Client := emptyStore, Datacenter := exampleDC }).trace.any Call.isFailure) = false
      ∧ lookupNotFound (CheckHeadlessServices (exampleHelpers [unownableName]) memClient
          { Client := emptyStore, Datacenter := exampleDC }).trace 0 = true
      ∧ createdObjects (CheckHeadlessServices (exampleHelpers [unownableName]) memClient
          { Client := emptyStore, Datacenter := exampleDC }).trace = []
      ∧ (CheckHeadlessServices (exampleHelpers [unownableName]) memClient
          { Client := emptyStore, Datacenter := exampleDC }).result
          = .Error (.Other "cannot set owner".toList) := by
  decide

/-- C10, amended: in every pass in which no step fails, neither setting an
owner reference nor a store call, the services created are exactly the desired
services whose lookup answered not-found, each once and in the order of the
desired sequence; from the first create on no lookup and no update is issued;
and no update is issued for a service whose lookup answered not-found. -/
theorem C10_creation_batch (h : Helpers DC) (k : Client σ DC)
    (rc : ReconciliationContext σ DC)
    (hown : ∀ d ∈ desiredServices h rc.Datacenter,
      ∃ dd, h.setControllerReference rc.Datacenter d = .ok dd)
    (hok : ∀ call ∈ (CheckHeadlessServices h k rc).trace, call.isFailure = false) :
    createdObjects (CheckHeadlessServices h k rc).trace
        = missingServices h rc.Datacenter (CheckHeadlessServices h k rc).trace 0
            (desiredServices h rc.Datacenter)
      ∧ (∀ call ∈ fromFirstCreate (CheckHeadlessServices h k rc).trace,
          (!call.isGet && !call.isUpdate) = true)
      ∧ (∀ i, lookupNotFound (CheckHeadlessServices h k rc).trace i = true →
          ∀ obj err, .update i obj err ∉ (CheckHeadlessServices h k rc).trace) := by
  obtain ⟨out, hout, hcases⟩ := CheckHeadlessServices_cases h k rc
  have hnc : ∀ call ∈ out.trace, (!call.isCreate) = true := by
    rw [hout]; exact checkLoop_trace_no_create h k rc.Datacenter _ 0 [] rc.Client
  have hcreatedCheck : createdObjects out.trace = [] := by
    unfold createdObjects
    rw [List.filterMap_eq_nil_iff]
    intro call hm
    have := hnc call hm
    cases call <;> simp_all [Call.isCreate]
  have hlook : ∀ j, lookupNotFound (CheckHeadlessServices h k rc).trace j
      = lookupNotFound out.trace j := by
    intro j
    rw [Bool.eq_iff_iff, lookupNotFound_iff, lookupNotFound_iff, hout]
    simp only [CheckHeadlessServices_get_mem]
  have hmissing : missingServices h rc.Datacenter (CheckHeadlessServices h k rc).trace 0
        (desiredServices h rc.Datacenter)
      = missingServices h rc.Datacenter out.trace 0 (desiredServices h rc.Datacenter) :=
    missingServices_congr h rc.Datacenter _ _ _ 0 (fun j _ => hlook j)
  refine ⟨?_, ?_, ?_⟩
  · rw [hmissing]
    rcases hcases with ⟨e1, herr, _, htr, _⟩ | ⟨herr, hcn, _, htr, _⟩ | ⟨herr, _, _, htr, _⟩
    · exfalso
      rw [hout] at herr
      rcases checkLoop_err_cause h k rc.Datacenter _ 0 [] rc.Client e1 herr with
        ⟨d, hd, hs⟩ | ⟨call, hm, hf⟩
      · obtain ⟨dd, hdd⟩ := hown d hd
        rw [hdd] at hs
        exact Except.noConfusion hs
      · rw [← hout, ← htr] at hm
        rw [hok call hm] at hf
        exact absurd hf (by decide)
    · rw [htr, hcreatedCheck]
      have := checkLoop_createNeeded h k rc.Datacenter _ 0 [] rc.Client (hout ▸ herr)
      rw [← hout, hcn] at this
      simpa using this
    · have hcreate := createLoop_created k rc.Datacenter out.createNeeded 0 out.Client
        (fun call hm => hok call (by rw [htr]; exact List.mem_append_right _ hm))
      have hcn := checkLoop_createNeeded h k rc.Datacenter _ 0 [] rc.Client (hout ▸ herr)
      rw [← hout] at hcn
      rw [htr]
      have happ : createdObjects
          (out.trace ++ (createLoop k rc.Datacenter 0 out.createNeeded out.Client).2.2)
          = createdObjects out.trace
            ++ createdObjects (createLoop k rc.Datacenter 0 out.createNeeded out.Client).2.2 := by
        simp [createdObjects, List.filterMap_append]
      rw [happ, hcreatedCheck, hcreate, hcn]
      simp
  · exact no_check_call_after_create h k rc
  · intro i hnf obj err hupd
    rw [hlook, lookupNotFound_iff] at hnf
    obtain ⟨n, e, hget, he⟩ := hnf
    rw [CheckHeadlessServices_update_mem, ← hout] at hupd
    rw [hout] at hget hupd
    obtain ⟨i1, d, dd, obs, hi, _, _, hg, _, _⟩ :=
      checkLoop_update_origin h k rc.Datacenter _ 0 [] rc.Client i obj err hupd
    obtain ⟨_, hr⟩ := checkLoop_get_unique h k rc.Datacenter _ 0 [] rc.Client i _ _ _ _ hget hg
    exact Lookup.noConfusion hr

/-- Witness for C10 (amended): the pass over the empty store creates the four
desired services in order. -/
theorem C10_creation_batch_witness :
    createdObjects (CheckHeadlessServices (exampleHelpers []) memClient
        { Client := emptyStore, Datacenter := exampleDC }).trace
      = missingServices (exampleHelpers []) exampleDC
          (CheckHeadlessServices (exampleHelpers []) memClient
            { Client := emptyStore, Datacenter := exampleDC }).trace 0
          (desiredServices (exampleHelpers []) exampleDC) :=
  (C10_creation_batch (exampleHelpers []) memClient
      { Client := emptyStore, Datacenter := exampleDC }
      (by
        intro d hd
        simp only [desiredServices, exampleHelpers, exampleDC, Bool.false_eq_true, if_false,
          List.mem_cons, List.not_mem_nil, or_false] at hd
        rcases hd with rfl | rfl | rfl | rfl <;> exact ⟨_, rfl⟩)
      (by decide)).1

end reconciliation

/-! ## Two passes over the in-memory store -/

namespace reconciliation

variable {DC : Type}

theorem mem_stampedUntilError (h : Helpers DC) (dc : DC) :
    ∀ (ds : List Service) (dd : Service), dd ∈ stampedUntilError h dc ds →
      ∃ d ∈ ds, h.setControllerReference dc d = .ok dd := by
  intro ds
  induction ds with
  | nil => intro dd hm; simp [stampedUntilError] at hm
  | cons svc rest ih =>
    intro dd hm
    unfold stampedUntilError at hm
    cases hs : h.setControllerReference dc svc with
    | error e => rw [hs] at hm; simp at hm
    | ok d1 =>
      rw [hs] at hm
      rcases List.mem_cons.1 hm with rfl | hm1
      · exact ⟨svc, List.mem_cons_self _ _, hs⟩
      · obtain ⟨d, hd, hsd⟩ := ih dd hm1
        exact ⟨d, List.mem_cons_of_mem _ hd, hsd⟩

theorem Store.put_self (s : Store) (obj : Service) : s.put obj (nsNameOf obj) = some obj := by
  simp [Store.put]

theorem Store.put_other (s : Store) (obj : Service) (n : NamespacedName)
    (hn : nsNameOf obj ≠ n) : s.put obj n = s n := by
  have : ¬ n = nsNameOf obj := fun e => hn e.symm
  simp [Store.put, this]

theorem nsNameOf_mergedForUpdate (cur d : Service) :
    nsNameOf (mergedForUpdate cur d) = nsNameOf d := rfl

theorem memClient_checkBody_missing (h : Helpers DC) (dc : DC) (idx : Nat) (svc dd : Service)
    (cn : List Service) (s : Store) (hs : h.setControllerReference dc svc = .ok dd)
    (hget : s (nsNameOf dd) = none) :
    checkBody h memClient dc idx svc cn s
      = .next (cn ++ [dd]) s [.get idx (nsNameOf dd) (.failed .NotFound)] := by
  simp [checkBody, hs, memClient, hget, IsNotFound]

theorem memClient_checkBody_same (h : Helpers DC) (dc : DC) (idx : Nat) (svc dd x : Service)
    (cn : List Service) (s : Store) (hs : h.setControllerReference dc svc = .ok dd)
    (hget : s (nsNameOf dd) = some x) (hh : h.ResourcesHaveSameHash x dd = true) :
    checkBody h memClient dc idx svc cn s
      = .next cn s [.get idx (nsNameOf dd) (.found x)] := by
  simp [checkBody, hs, memClient, hget, hh]

theorem memClient_checkBody_differs (h : Helpers DC) (dc : DC) (idx : Nat)
    (svc dd x : Service) (cn : List Service) (s : Store)
    (hs : h.setControllerReference dc svc = .ok dd)
    (hget : s (nsNameOf dd) = some x) (hh : h.ResourcesHaveSameHash x dd = false) :
    checkBody h memClient dc idx svc cn s
      = .next cn (s.put (mergedForUpdate x dd))
          [.get idx (nsNameOf dd) (.found x), .update idx (mergedForUpdate x dd) none] := by
  simp [checkBody, hs, memClient, hget, hh]

theorem memClient_checkBody_unowned (h : Helpers DC) (dc : DC) (idx : Nat) (svc : Service)
    (e : Err) (cn : List Service) (s : Store)
    (hs : h.setControllerReference dc svc = .error e) :
    checkBody h memClient dc idx svc cn s = .returned e s [] := by
  simp [checkBody, hs]

/-- The check loop over the in-memory store: what it leaves in the store and
in `createNeeded`. -/
theorem memClient_checkLoop_first (h : Helpers DC) (dc : DC) :
    ∀ (ds : List Service) (idx : Nat) (cn : List Service) (s : Store),
      ds.Pairwise (DistinctNames h dc) → (∀ d ∈ ds, HashIgnoresAssigned h dc d) →
      ∃ added, (checkLoop h memClient dc idx ds cn s).createNeeded = cn ++ added
        ∧ (checkLoop h memClient dc idx ds cn s).err = stampError h dc ds
        ∧ (∀ dd ∈ added, dd ∈ stampedUntilError h dc ds
            ∧ (checkLoop h memClient dc idx ds cn s).Client (nsNameOf dd) = none)
        ∧ (∀ dd ∈ stampedUntilError h dc ds,
            (∃ x, (checkLoop h memClient dc idx ds cn s).Client (nsNameOf dd) = some x
                ∧ h.ResourcesHaveSameHash x dd = true)
              ∨ ((checkLoop h memClient dc idx ds cn s).Client (nsNameOf dd) = none
                ∧ dd ∈ added))
        ∧ (added.map nsNameOf).Nodup
        ∧ (∀ n, (∀ dd ∈ stampedUntilError h dc ds, nsNameOf dd ≠ n) →
            (checkLoop h memClient dc idx ds cn s).Client n = s n) := by
  intro ds
  induction ds with
  | nil =>
    intro idx cn s _ _
    exact ⟨[], by simp [checkLoop], rfl, by simp, by simp [stampedUntilError], by simp,
      fun n _ => rfl⟩
  | cons svc rest ih =>
    intro idx cn s hpair hhash
    rw [List.pairwise_cons] at hpair
    obtain ⟨hhead, hrestPair⟩ := hpair
    have hhashRest : ∀ d ∈ rest, HashIgnoresAssigned h dc d :=
      fun d hd => hhash d (List.mem_cons_of_mem _ hd)
    cases hs : h.setControllerReference dc svc with
    | error e =>
      rw [checkLoop_returned _ _ _ _ _ _ _ _ _ _ _
        (memClient_checkBody_unowned h dc idx svc e cn s hs)]
      exact ⟨[], by simp, by simp [stampError, hs], by simp, by simp [stampedUntilError, hs],
        by simp, fun n _ => rfl⟩
    | ok dd =>
      have hne : ∀ x ∈ stampedUntilError h dc rest, nsNameOf dd ≠ nsNameOf x := by
        intro x hx
        obtain ⟨b, hb, hsb⟩ := mem_stampedUntilError h dc rest x hx
        exact hhead b hb dd x hs hsb
      have hstamped : stampedUntilError h dc (svc :: rest)
          = dd :: stampedUntilError h dc rest := by
        simp [stampedUntilError, hs]
      have herr : stampError h dc (svc :: rest) = stampError h dc rest := by
        simp [stampError, hs]
      rw [hstamped, herr]
      cases hget : s (nsNameOf dd) with
      | none =>
        rw [checkLoop_next _ _ _ _ _ _ _ _ _ _ _
          (memClient_checkBody_missing h dc idx svc dd cn s hs hget)]
        obtain ⟨added, h1, h2, h3, h4, h5, h6⟩ :=
          ih (idx + 1) (cn ++ [dd]) s hrestPair hhashRest
        have hkeep : (checkLoop h memClient dc (idx + 1) rest (cn ++ [dd]) s).Client
            (nsNameOf dd) = none := by
          rw [h6 _ (fun x hx => (hne x hx).symm)]; exact hget
        refine ⟨dd :: added, by simp [h1], h2, ?_, ?_, ?_, ?_⟩
        · intro x hx
          rcases List.mem_cons.1 hx with rfl | hx1
          · exact ⟨List.mem_cons_self _ _, hkeep⟩
          · exact ⟨List.mem_cons_of_mem _ (h3 x hx1).1, (h3 x hx1).2⟩
        · intro x hx
          rcases List.mem_cons.1 hx with rfl | hx1
          · exact Or.inr ⟨hkeep, List.mem_cons_self _ _⟩
          · rcases h4 x hx1 with hg | ⟨hn, hm⟩
            · exact Or.inl hg
            · exact Or.inr ⟨hn, List.mem_cons_of_mem _ hm⟩
        · rw [List.map_cons, List.nodup_cons]
          refine ⟨?_, h5⟩
          intro hmem
          obtain ⟨x, hx, hxe⟩ := List.mem_map.1 hmem
          exact hne x (h3 x hx).1 hxe.symm
        · intro n hn
          exact h6 n (fun x hx => hn x (List.mem_cons_of_mem _ hx))
      | some x =>
        cases hh : h.ResourcesHaveSameHash x dd with
        | true =>
          rw [checkLoop_next _ _ _ _ _ _ _ _ _ _ _
            (memClient_checkBody_same h dc idx svc dd x cn s hs hget hh)]
          obtain ⟨added, h1, h2, h3, h4, h5, h6⟩ := ih (idx + 1) cn s hrestPair hhashRest
          have hkeep : (checkLoop h memClient dc (idx + 1) rest cn s).Client (nsNameOf dd)
              = some x := by
            rw [h6 _ (fun y hy => (hne y hy).symm)]; exact hget
          refine ⟨added, h1, h2, ?_, ?_, h5, ?_⟩
          · intro y hy
            exact ⟨List.mem_cons_of_mem _ (h3 y hy).1, (h3 y hy).2⟩
          · intro y hy
            rcases List.mem_cons.1 hy with rfl | hy1
            · exact Or.inl ⟨x, hkeep, hh⟩
            · exact h4 y hy1
          · intro n hn
            exact h6 n (fun y hy => hn y (List.mem_cons_of_mem _ hy))
        | false =>
          rw [checkLoop_next _ _ _ _ _ _ _ _ _ _ _
            (memClient_checkBody_differs h dc idx svc dd x cn s hs hget hh)]
          obtain ⟨added, h1, h2, h3, h4, h5, h6⟩ :=
            ih (idx + 1) cn (s.put (mergedForUpdate x dd)) hrestPair hhashRest
          have hkeep : (checkLoop h memClient dc (idx + 1) rest cn
              (s.put (mergedForUpdate x dd))).Client (nsNameOf dd)
              = some (mergedForUpdate x dd) := by
            rw [h6 _ (fun y hy => (hne y hy).symm)]
            exact Store.put_self s (mergedForUpdate x dd)
          refine ⟨added, h1, h2, ?_, ?_, h5, ?_⟩
          · intro y hy
            exact ⟨List.mem_cons_of_mem _ (h3 y hy).1, (h3 y hy).2⟩
          · intro y hy
            rcases List.mem_cons.1 hy with rfl | hy1
            · exact Or.inl ⟨_, hkeep,
                hhash svc (List.mem_cons_self _ _) y hs x.ClusterIP x.ResourceVersion⟩
            · exact h4 y hy1
          · intro n hn
            rw [h6 n (fun y hy => hn y (List.mem_cons_of_mem _ hy))]
            exact Store.put_other s _ n (hn dd (List.mem_cons_self _ _))

/-- The create loop over the in-memory store never fails: every service of
its slice ends up stored as handed in, and no other name is touched. -/
theorem memClient_createLoop (dc : DC) :
    ∀ (ss : List Service) (idx : Nat) (s : Store), (ss.map nsNameOf).Nodup →
      (createLoop (memClient : Client Store DC) dc idx ss s).1 = .Continue
        ∧ (∀ dd ∈ ss, (createLoop (memClient : Client Store DC) dc idx ss s).2.1 (nsNameOf dd)
            = some dd)
        ∧ (∀ n, (∀ dd ∈ ss, nsNameOf dd ≠ n) →
            (createLoop (memClient : Client Store DC) dc idx ss s).2.1 n = s n) := by
  intro ss
  induction ss with
  | nil => intro idx s _; exact ⟨rfl, by simp, fun n _ => rfl⟩
  | cons dd rest ih =>
    intro idx s hnd
    rw [List.map_cons, List.nodup_cons] at hnd
    obtain ⟨hnot, hrest⟩ := hnd
    have hb : createBody (memClient : Client Store DC) dc idx dd s
        = .next () (s.put dd)
            [.progress none, .create idx dd none,
             .event dc "Normal".toList "CreatedResource".toList
               ("Created service ".toList ++ dd.Name)] := by
      simp [createBody, memClient]
    rw [createLoop_next _ _ _ _ _ _ _ _ _ hb]
    obtain ⟨h1, h2, h3⟩ := ih (idx + 1) (s.put dd) hrest
    refine ⟨h1, ?_, ?_⟩
    · intro x hx
      rcases List.mem_cons.1 hx with rfl | hx1
      · show (createLoop memClient dc (idx + 1) rest (s.put x)).2.1 (nsNameOf x) = some x
        rw [h3 _ (fun y hy hye => hnot (List.mem_map.2 ⟨y, hy, hye⟩))]
        exact Store.put_self s x
      · exact h2 x hx1
    · intro n hn
      show (createLoop memClient dc (idx + 1) rest (s.put dd)).2.1 n = s n
      rw [h3 n (fun y hy => hn y (List.mem_cons_of_mem _ hy))]
      exact Store.put_other s dd n (hn dd (List.mem_cons_self _ _))

/-- The check loop over an in-memory store in which every service it gets to
is either stored with an equal hash or absent: it makes lookups only, and it
adds nothing to `createNeeded` when none is absent. -/
theorem memClient_checkLoop_second (h : Helpers DC) (dc : DC) :
    ∀ (ds : List Service) (idx : Nat) (cn : List Service) (s : Store),
      (∀ dd ∈ stampedUntilError h dc ds,
        (∃ x, s (nsNameOf dd) = some x ∧ h.ResourcesHaveSameHash x dd = true)
          ∨ s (nsNameOf dd) = none) →
      (∀ call ∈ (checkLoop h memClient dc idx ds cn s).trace, call.isGet = true)
        ∧ (checkLoop h memClient dc idx ds cn s).err = stampError h dc ds
        ∧ ((∀ dd ∈ stampedUntilError h dc ds,
              ∃ x, s (nsNameOf dd) = some x ∧ h.ResourcesHaveSameHash x dd = true) →
            (checkLoop h memClient dc idx ds cn s).createNeeded = cn) := by
  intro ds
  induction ds with
  | nil => intro idx cn s _; simp [checkLoop, stampError]
  | cons svc rest ih =>
    intro idx cn s hall
    cases hs : h.setControllerReference dc svc with
    | error e =>
      rw [checkLoop_returned _ _ _ _ _ _ _ _ _ _ _
        (memClient_checkBody_unowned h dc idx svc e cn s hs)]
      simp [stampError, hs]
    | ok dd =>
      have hstamped : stampedUntilError h dc (svc :: rest)
          = dd :: stampedUntilError h dc rest := by
        simp [stampedUntilError, hs]
      have herr : stampError h dc (svc :: rest) = stampError h dc rest := by
        simp [stampError, hs]
      rw [hstamped] at hall ⊢
      rw [herr]
      have hallRest : ∀ y ∈ stampedUntilError h dc rest,
          (∃ x, s (nsNameOf y) = some x ∧ h.ResourcesHaveSameHash x y = true)
            ∨ s (nsNameOf y) = none :=
        fun y hy => hall y (List.mem_cons_of_mem _ hy)
      rcases hall dd (List.mem_cons_self _ _) with ⟨x, hget, hh⟩ | hget
      · rw [checkLoop_next _ _ _ _ _ _ _ _ _ _ _
          (memClient_checkBody_same h dc idx svc dd x cn s hs hget hh)]
        obtain ⟨h1, h2, h3⟩ := ih (idx + 1) cn s hallRest
        refine ⟨?_, h2, ?_⟩
        · intro call hc
          simp only [List.singleton_append, List.mem_cons] at hc
          rcases hc with rfl | hc
          · rfl
          · exact h1 call hc
        · intro hgood
          exact h3 (fun y hy => hgood y (List.mem_cons_of_mem _ hy))
      · rw [checkLoop_next _ _ _ _ _ _ _ _ _ _ _
          (memClient_checkBody_missing h dc idx svc dd cn s hs hget)]
        obtain ⟨h1, h2, _⟩ := ih (idx + 1) (cn ++ [dd]) s hallRest
        refine ⟨?_, h2, ?_⟩
        · intro call hc
          simp only [List.singleton_append, List.mem_cons] at hc
          rcases hc with rfl | hc
          · rfl
          · exact h1 call hc
        · intro hgood
          obtain ⟨x, hx, _⟩ := hgood dd (List.mem_cons_self _ _)
          rw [hget] at hx
          exact Option.noConfusion hx

/-- After a pass over the in-memory store, every desired service the check
loop gets to is stored with an equal hash or absent, and none is absent when
every owner reference can be set. -/
theorem memClient_after_first_pass (h : Helpers DC) (rc : ReconciliationContext Store DC)
    (hnames : (desiredServices h rc.Datacenter).Pairwise (DistinctNames h rc.Datacenter))
    (hhash : ∀ d ∈ desiredServices h rc.Datacenter, HashIgnoresAssigned h rc.Datacenter d) :
    (CheckHeadlessServices h memClient rc).rc.Datacenter = rc.Datacenter
      ∧ (∀ dd ∈ stampedUntilError h rc.Datacenter (desiredServices h rc.Datacenter),
          (∃ x, (CheckHeadlessServices h memClient rc).rc.Client (nsNameOf dd) = some x
              ∧ h.ResourcesHaveSameHash x dd = true)
            ∨ (CheckHeadlessServices h memClient rc).rc.Client (nsNameOf dd) = none)
      ∧ (stampError h rc.Datacenter (desiredServices h rc.Datacenter) = none →
          ∀ dd ∈ stampedUntilError h rc.Datacenter (desiredServices h rc.Datacenter),
            ∃ x, (CheckHeadlessServices h memClient rc).rc.Client (nsNameOf dd) = some x
              ∧ h.ResourcesHaveSameHash x dd = true) := by
  obtain ⟨out, hout, hcases⟩ := CheckHeadlessServices_cases h memClient rc
  obtain ⟨added, h1, h2, h3, h4, h5, _⟩ :=
    memClient_checkLoop_first h rc.Datacenter (desiredServices h rc.Datacenter) 0 []
      rc.Client hnames hhash
  rw [← hout] at h1 h2 h3 h4
  rcases hcases with ⟨e, herr, _, _, hrc⟩ | ⟨_, hcn, _, _, hrc⟩ | ⟨_, _, _, _, hrc⟩
  · rw [hrc]
    refine ⟨rfl, ?_, ?_⟩
    · intro dd hdd
      rcases h4 dd hdd with hg | ⟨hn, _⟩
      · exact Or.inl hg
      · exact Or.inr hn
    · intro hnone
      rw [← h2, herr] at hnone
      exact Option.noConfusion hnone
  · rw [hrc]
    have hadded : added = [] := by
      rw [hcn] at h1
      simpa using h1.symm
    subst hadded
    have hgood : ∀ dd ∈ stampedUntilError h rc.Datacenter (desiredServices h rc.Datacenter),
        ∃ x, out.Client (nsNameOf dd) = some x ∧ h.ResourcesHaveSameHash x dd = true := by
      intro dd hdd
      rcases h4 dd hdd with hg | ⟨_, hm⟩
      · exact hg
      · simp at hm
    exact ⟨rfl, fun dd hdd => Or.inl (hgood dd hdd), fun _ => hgood⟩
  · rw [hrc]
    have hcn : out.createNeeded = added := by simpa using h1
    rw [hcn]
    obtain ⟨_, c2, c3⟩ :=
      memClient_createLoop rc.Datacenter added 0 out.Client h5
    have hgood : ∀ dd ∈ stampedUntilError h rc.Datacenter (desiredServices h rc.Datacenter),
        ∃ x, (createLoop (memClient : Client Store DC) rc.Datacenter 0 added out.Client).2.1
            (nsNameOf dd) = some x ∧ h.ResourcesHaveSameHash x dd = true := by
      intro dd hdd
      rcases h4 dd hdd with ⟨x, hx, hh⟩ | ⟨_, hm⟩
      · refine ⟨x, ?_, hh⟩
        rw [c3 _ ?_]
        · exact hx
        · intro y hy hye
          have := (h3 y hy).2
          rw [hye, hx] at this
          exact Option.noConfusion this
      · refine ⟨dd, c2 dd hm, ?_⟩
        obtain ⟨d, hd, hs⟩ := mem_stampedUntilError h rc.Datacenter _ dd hdd
        have := hhash d hd dd hs dd.ClusterIP dd.ResourceVersion
        exact this
    exact ⟨rfl, fun dd hdd => Or.inl (hgood dd hdd), fun _ => hgood⟩

/-- C9, as stated, fails: over the in-memory store, which returns what was
last written and never fails, and for desired services that are a function of
the unchanged datacenter, the second of two consecutive passes issues an
update when the hash covers the `ClusterIP` and the resource version (the
client-facing service, index 0, is updated again), and when two desired
services are stored under one name (the client-facing and the seed service,
indices 0 and 1, overwrite each other). -/
theorem C9_counterexample :
    ((CheckHeadlessServices wholeObjectHelpers memClient
        (CheckHeadlessServices wholeObjectHelpers memClient
          { Client := staleStore, Datacenter := exampleDC }).rc).trace.filter
        Call.isUpdate).map Call.checkIndex = [some 0]
      ∧ ((CheckHeadlessServices sameNameHelpers memClient
          (CheckHeadlessServices sameNameHelpers memClient
            { Client := emptyStore, Datacenter := exampleDC }).rc).trace.filter
          Call.isUpdate).map Call.checkIndex = [some 0, some 1]
      ∧ ((CheckHeadlessServices wholeObjectHelpers memClient
          { Client := staleStore, Datacenter := exampleDC }).trace.any Call.isFailure) = false
      ∧ ((CheckHeadlessServices sameNameHelpers memClient
          { Client := emptyStore, Datacenter := exampleDC }).trace.any Call.isFailure) = false := by
  decide

/-- C9, amended: over the in-memory store, which returns exactly what was last
created or updated and never fails, and for desired services that are a
function of the unchanged datacenter, that are stored under pairwise different
names (`DistinctNames`) and whose hash ignores the `ClusterIP` and the
resource version (`HashIgnoresAssigned`): for every initial store state, the
second of two consecutive passes issues no create and no update; every call it
makes is a lookup. -/
theorem C9_second_pass_writes_nothing (h : Helpers DC)
    (rc : ReconciliationContext Store DC)
    (hnames : (desiredServices h rc.Datacenter).Pairwise (DistinctNames h rc.Datacenter))
    (hhash : ∀ d ∈ desiredServices h rc.Datacenter, HashIgnoresAssigned h rc.Datacenter d) :
    ∀ call ∈ (CheckHeadlessServices h memClient
        (CheckHeadlessServices h memClient rc).rc).trace,
      call.isCreate = false ∧ call.isUpdate = false ∧ call.isGet = true := by
  obtain ⟨hdc, hstore, hgood⟩ := memClient_after_first_pass h rc hnames hhash
  obtain ⟨out, hout, hcases⟩ :=
    CheckHeadlessServices_cases h memClient (CheckHeadlessServices h memClient rc).rc
  rw [hdc] at hout
  obtain ⟨hgets, herr, hcn⟩ :=
    memClient_checkLoop_second h rc.Datacenter (desiredServices h rc.Datacenter) 0 []
      (CheckHeadlessServices h memClient rc).rc.Client hstore
  rw [← hout] at hgets herr hcn
  have hall : ∀ call ∈ out.trace,
      call.isCreate = false ∧ call.isUpdate = false ∧ call.isGet = true := by
    intro call hc
    have := hgets call hc
    cases call <;> simp_all [Call.isGet, Call.isCreate, Call.isUpdate]
  rcases hcases with ⟨e, _, _, htr, _⟩ | ⟨_, _, _, htr, _⟩ | ⟨herr2, hne, _, _, _⟩
  · rw [htr]; exact hall
  · rw [htr]; exact hall
  · exfalso
    rw [herr] at herr2
    exact hne (hcn (hgood herr2))

end reconciliation

namespace reconciliation

theorem exampleHelpers_stamp (role hash : Str) (dd : Service)
    (hs : (exampleHelpers []).setControllerReference exampleDC
      (exampleService exampleDC role hash) = .ok dd) :
    dd = exampleStamped role hash := by
  simp only [exampleHelpers, List.not_mem_nil, if_false] at hs
  injection hs with hs
  exact hs.symm

theorem exampleHelpers_distinct (r1 h1 r2 h2 : Str) (hne : r1 ≠ r2) :
    DistinctNames (exampleHelpers []) exampleDC (exampleService exampleDC r1 h1)
      (exampleService exampleDC r2 h2) := by
  intro da db hsa hsb
  rw [exampleHelpers_stamp r1 h1 da hsa, exampleHelpers_stamp r2 h2 db hsb]
  intro heq
  have hname : exampleDC.Name ++ r1 = exampleDC.Name ++ r2 := congrArg NamespacedName.Name heq
  exact hne (List.append_cancel_left hname)

theorem exampleHelpers_hash (role hash : Str) :
    HashIgnoresAssigned (exampleHelpers []) exampleDC (exampleService exampleDC role hash) := by
  intro dd hs clusterIP resourceVersion
  rw [exampleHelpers_stamp role hash dd hs]
  simp [exampleHelpers, exampleStamped, exampleService, List.lookup]

/-- Witness for C9 (amended): two passes from the store that holds the stale
client-facing service of `dc1`; every call of the second pass is a lookup. -/
theorem C9_second_pass_writes_nothing_witness :
    ((CheckHeadlessServices (exampleHelpers []) memClient
        (CheckHeadlessServices (exampleHelpers []) memClient
          { Client := staleStore, Datacenter := exampleDC }).rc).trace.all
      fun call => !call.isCreate && !call.isUpdate && call.isGet) = true :=
  List.all_eq_true.2 fun call hc => by
    obtain ⟨h1, h2, h3⟩ := C9_second_pass_writes_nothing (exampleHelpers [])
      { Client := staleStore, Datacenter := exampleDC }
      (by
        simp only [desiredServices, exampleHelpers, exampleDC, Bool.false_eq_true, if_false,
          List.pairwise_cons, List.mem_cons, List.not_mem_nil, or_false, forall_eq_or_imp,
          forall_eq, IsEmpty.forall_iff, implies_true, List.Pairwise.nil, and_true]
        refine ⟨⟨?_, ?_, ?_⟩, ⟨?_, ?_⟩, ?_⟩ <;>
          exact exampleHelpers_distinct _ _ _ _ (by decide))
      (by
        intro d hd
        simp only [desiredServices, exampleHelpers, exampleDC, Bool.false_eq_true, if_false,
          List.mem_cons, List.not_mem_nil, or_false] at hd
        rcases hd with rfl | rfl | rfl | rfl <;> exact exampleHelpers_hash _ _)
      call hc
    simp [h1, h2, h3]

end reconciliation

/-! ## The remaining claims about image resolution -/

namespace images
open Strings Regexp RegularExpression

theorem DseShape_supported (v : Str) (hv : DseShape v) : IsDseVersionSupported v = true :=
  (IsDseVersionSupported_iff v).2 ⟨[], v, [], by simp, hv⟩

theorem OssShape_supported (v : Str) (hv : OssShape v) : IsOssVersionSupported v = true :=
  (IsOssVersionSupported_iff v).2 ⟨[], v, [], by simp, hv⟩

/-- C12: for every configuration, with or without overrides, every version
string that is exactly of the shape 6.8.N or 7.N.N resolves for `dse`, and
every version string exactly of the shape 3.11.N, 4.N.N or 5.N.N resolves for
`cassandra`; `6.8.5` and `4.1.0` are such strings, and with no override
configured for it the dse version `6.9.0` is rejected with an error and an
empty image. -/
theorem C12_exact_shapes_resolve (cfg : ImageConfig) (v : Str) :
    (DseShape v → (GetCassandraImage cfg "dse".toList v).2 = none)
      ∧ (OssShape v → (GetCassandraImage cfg "cassandra".toList v).2 = none)
      ∧ (GetCassandraImage cfg "dse".toList "6.8.5".toList).2 = none
      ∧ (GetCassandraImage cfg "cassandra".toList "4.1.0".toList).2 = none
      ∧ ((∀ imgs, cfg.Images = some imgs → imgs.DSEVersions "6.9.0".toList = none) →
          GetCassandraImage cfg "dse".toList "6.9.0".toList =
            ([], some ("server 'dse' and version '".toList ++ "6.9.0".toList
                        ++ "' do not work together".toList))) := by
  have hne : ("cassandra".toList = "dse".toList) = False := by
    simp [String.toList]
  have hdse : ∀ w, IsDseVersionSupported w = true →
      (GetCassandraImage cfg "dse".toList w).2 = none := by
    intro w hw
    unfold GetCassandraImage
    rcases getCassandraContainerImageOverride cfg "dse".toList w with ⟨b, img⟩
    cases b <;> simp [hw]
  have hoss : ∀ w, IsOssVersionSupported w = true →
      (GetCassandraImage cfg "cassandra".toList w).2 = none := by
    intro w hw
    unfold GetCassandraImage
    rcases getCassandraContainerImageOverride cfg "cassandra".toList w with ⟨b, img⟩
    cases b <;> simp [hw, hne]
  refine ⟨fun hv => hdse v (DseShape_supported v hv), fun hv => hoss v (OssShape_supported v hv),
    hdse _ (by decide), hoss _ (by decide), ?_⟩
  intro hno
  have hrej : IsDseVersionSupported "6.9.0".toList = false := by decide
  unfold GetCassandraImage
  rw [override_none_dse cfg _ hno]
  simp only [hrej, if_true, Bool.not_false]

/-- Witness for C12: the dse version `7.0.12` under a configuration that
overrides another version. -/
theorem C12_exact_shapes_resolve_witness :
    (GetCassandraImage
        { Images := some { DSEVersions := fun v =>
            if v = "6.8.0".toList then some "my/dse:custom".toList else none } }
        "dse".toList "7.0.12".toList).2 = none :=
  (C12_exact_shapes_resolve
      { Images := some { DSEVersions := fun v =>
          if v = "6.8.0".toList then some "my/dse:custom".toList else none } }
      "7.0.12".toList).1
    (Or.inr ⟨"0".toList, "12".toList, ⟨by decide, by decide⟩, ⟨by decide, by decide⟩, by decide⟩)

/-- C14, on the code: with an images section both functions return
`ApplyRegistry` of the configured reference; with no images section
(`Images` is nil) both dereference the nil pointer and fail, while
`getCassandraContainerImageOverride`, which reads the same field, tests it for
nil and returns. -/
theorem C14_auxiliary_images (cfg : ImageConfig) :
    (∀ imgs, cfg.Images = some imgs →
        GetConfigBuilderImage cfg = some (ApplyRegistry cfg imgs.ConfigBuilder)
          ∧ GetSystemLoggerImage cfg = some (ApplyRegistry cfg imgs.SystemLogger))
      ∧ (cfg.Images = none →
        GetConfigBuilderImage cfg = none ∧ GetSystemLoggerImage cfg = none
          ∧ ∀ serverType version,
              getCassandraContainerImageOverride cfg serverType version = (false, [])) := by
  refine ⟨?_, ?_⟩
  · intro imgs h
    simp [GetConfigBuilderImage, GetSystemLoggerImage, h]
  · intro h
    simp [GetConfigBuilderImage, GetSystemLoggerImage, getCassandraContainerImageOverride, h]

/-- Witness for C14: the configuration with no images section. -/
theorem C14_auxiliary_images_witness :
    GetConfigBuilderImage {} = none ∧ GetSystemLoggerImage {} = none
      ∧ ∀ serverType version,
          getCassandraContainerImageOverride {} serverType version = (false, []) :=
  (C14_auxiliary_images {}).2 rfl

/-- C15: with a non-empty configured pull-secret name the function returns
true and appends exactly one reference to that name at the end of the
pull-secret list, keeping every previous entry in order, so that two
invocations append it twice; with an empty name it returns false and leaves
the list unchanged; no other field of the pod spec changes. -/
theorem C15_pull_secret_appended (cfg : ImageConfig) (podSpec : PodSpec) :
    (cfg.ImagePullSecret ≠ [] →
        (AddDefaultRegistryImagePullSecrets cfg podSpec).1 = true
          ∧ (AddDefaultRegistryImagePullSecrets cfg podSpec).2.ImagePullSecrets
              = podSpec.ImagePullSecrets ++ [{ Name := cfg.ImagePullSecret }]
          ∧ (AddDefaultRegistryImagePullSecrets cfg
                (AddDefaultRegistryImagePullSecrets cfg podSpec).2).2.ImagePullSecrets
              = podSpec.ImagePullSecrets
                  ++ [{ Name := cfg.ImagePullSecret }, { Name := cfg.ImagePullSecret }])
      ∧ (cfg.ImagePullSecret = [] →
        AddDefaultRegistryImagePullSecrets cfg podSpec = (false, podSpec))
      ∧ { (AddDefaultRegistryImagePullSecrets cfg podSpec).2 with
            ImagePullSecrets := podSpec.ImagePullSecrets } = podSpec := by
  refine ⟨?_, ?_, ?_⟩
  · intro h
    simp [AddDefaultRegistryImagePullSecrets, h]
  · intro h
    simp [AddDefaultRegistryImagePullSecrets, h]
  · by_cases h : cfg.ImagePullSecret = [] <;> simp [AddDefaultRegistryImagePullSecrets, h]

/-- Witness for C15: the secret `regcred` added to a pod spec that already
names it. -/
theorem C15_pull_secret_appended_witness :
    (AddDefaultRegistryImagePullSecrets { ImagePullSecret := "regcred".toList }
        { ImagePullSecrets := [{ Name := "regcred".toList }] }).1 = true
      ∧ (AddDefaultRegistryImagePullSecrets { ImagePullSecret := "regcred".toList }
          { ImagePullSecrets := [{ Name := "regcred".toList }] }).2.ImagePullSecrets
          = [{ Name := "regcred".toList }] ++ [{ Name := "regcred".toList }]
      ∧ (AddDefaultRegistryImagePullSecrets { ImagePullSecret := "regcred".toList }
            (AddDefaultRegistryImagePullSecrets { ImagePullSecret := "regcred".toList }
              { ImagePullSecrets := [{ Name := "regcred".toList }] }).2).2.ImagePullSecrets
          = [{ Name := "regcred".toList }]
              ++ [{ Name := "regcred".toList }, { Name := "regcred".toList }] :=
  (C15_pull_secret_appended { ImagePullSecret := "regcred".toList }
      { ImagePullSecrets := [{ Name := "regcred".toList }] }).1 (by decide)

/-- C17: for a server type other than `dse` and `cassandra`, no per-version
override is used, the version is checked against the cassandra pattern, an
accepted version gives `ApplyRegistry (":" ++ v)` with no error, whatever
overrides and default components are configured, and a version that is not
accepted gives the cassandra error. -/
theorem C17_other_server_type (cfg : ImageConfig) (s v : Str)
    (hdse : s ≠ "dse".toList) (hcass : s ≠ "cassandra".toList) :
    getCassandraContainerImageOverride cfg s v = (false, [])
      ∧ getImageComponents cfg s = ([], [])
      ∧ (IsOssVersionSupported v = true →
          GetCassandraImage cfg s v = (ApplyRegistry cfg (":".toList ++ v), none))
      ∧ (IsOssVersionSupported v = false →
          GetCassandraImage cfg s v =
            ([], some ("server 'cassandra' and version '".toList ++ v
                        ++ "' do not work together".toList))) := by
  have hover : getCassandraContainerImageOverride cfg s v = (false, []) := by
    unfold getCassandraContainerImageOverride
    cases cfg.Images with
    | none => rfl
    | some imgs => simp only [hdse, hcass, if_false]
  have hcomp : getImageComponents cfg s = ([], []) := by
    unfold getImageComponents
    cases cfg.DefaultImages with
    | none => simp only [hdse, hcass, if_false]
    | some d => simp only [hdse, hcass, if_false, ne_eq, not_true_eq_false]
  refine ⟨hover, hcomp, ?_, ?_⟩
  · intro hv
    unfold GetCassandraImage
    rw [hover]
    simp only [hdse, if_false, hv, Bool.not_true, Bool.false_eq_true, hcomp, List.nil_append,
      List.append_nil]
  · intro hv
    unfold GetCassandraImage
    rw [hover]
    simp only [hdse, if_false, hv, Bool.not_false, if_true]

/-- Witness for C17: the server type `hcd` under a configuration with a
cassandra override and cassandra default components. -/
theorem C17_other_server_type_witness :
    GetCassandraImage
        { Images := some { CassandraVersions := fun _ => some "my/cass:custom".toList },
          DefaultImages := some { CassandraImageComponent :=
            { Repository := "my/cass".toList, Suffix := "-ubi".toList } } }
        "hcd".toList "4.1.0".toList
      = (ApplyRegistry
          { Images := some { CassandraVersions := fun _ => some "my/cass:custom".toList },
            DefaultImages := some { CassandraImageComponent :=
              { Repository := "my/cass".toList, Suffix := "-ubi".toList } } }
          (":".toList ++ "4.1.0".toList), none) :=
  (C17_other_server_type
      { Images := some { CassandraVersions := fun _ => some "my/cass:custom".toList },
        DefaultImages := some { CassandraImageComponent :=
          { Repository := "my/cass".toList, Suffix := "-ubi".toList } } }
      "hcd".toList "4.1.0".toList (by decide) (by decide)).2.2.1 (by decide)

/-- C18: when the configured registry without its trailing slash is non-empty,
contains no slash and contains `.` or `:`, applying the registry twice gives
the same reference as applying it once, for every image; when it is empty,
`ApplyRegistry` is the identity and so idempotent as well. -/
theorem C18_ApplyRegistry_idempotent (cfg : ImageConfig) (image : Str) :
    (TrimSuffix cfg.ImageRegistry "/".toList ≠ [] →
        '/' ∉ TrimSuffix cfg.ImageRegistry "/".toList →
        ('.' ∈ TrimSuffix cfg.ImageRegistry "/".toList
          ∨ ':' ∈ TrimSuffix cfg.ImageRegistry "/".toList) →
        ApplyRegistry cfg (ApplyRegistry cfg image) = ApplyRegistry cfg image)
      ∧ (TrimSuffix cfg.ImageRegistry "/".toList = [] →
        ApplyRegistry cfg image = image
          ∧ ApplyRegistry cfg (ApplyRegistry cfg image) = ApplyRegistry cfg image) := by
  refine ⟨?_, ?_⟩
  · intro hne hsep hhost
    have happly : ∀ img, ApplyRegistry cfg img
        = TrimSuffix cfg.ImageRegistry "/".toList ++ '/' :: stripRegistry img := by
      intro img
      simp only [ApplyRegistry, applyDefaultRegistryOverride, hne, if_false]
      simp [String.toList]
    rw [happly (ApplyRegistry cfg image), happly image,
      stripRegistry_of_host _ _ hsep hhost]
  · intro hempty
    have hid : ∀ img, ApplyRegistry cfg img = img := by
      intro img
      simp only [ApplyRegistry, applyDefaultRegistryOverride, hempty, if_true]
    exact ⟨hid image, by rw [hid image, hid image]⟩

/-- Witness for C18: registry `my.registry.io/` and the image
`quay.io/foo:bar`. -/
theorem C18_ApplyRegistry_idempotent_witness :
    ApplyRegistry { ImageRegistry := "my.registry.io/".toList }
        (ApplyRegistry { ImageRegistry := "my.registry.io/".toList } "quay.io/foo:bar".toList)
      = ApplyRegistry { ImageRegistry := "my.registry.io/".toList } "quay.io/foo:bar".toList :=
  (C18_ApplyRegistry_idempotent { ImageRegistry := "my.registry.io/".toList }
      "quay.io/foo:bar".toList).1 (by decide) (by decide) (Or.inl (by decide))

/-- C20: when decoding fails, `LoadImageConfig` returns an error and no
configuration and `GetImageConfig` returns afterwards what it returned before;
when decoding succeeds, `GetImageConfig` returns afterwards exactly the parsed
value, which is also the value `LoadImageConfig` returns, with no error. -/
theorem C20_LoadImageConfig_swaps_whole_value (decode : List Nat → Except Str ImageConfig)
    (content : List Nat) (imageConfig : Option ImageConfig) :
    (∀ err, decode content = .error err →
        (LoadImageConfig decode content imageConfig).1.1 = none
          ∧ (LoadImageConfig decode content imageConfig).1.2
              = some ("could not decode file into runtime.Object: ".toList ++ err)
          ∧ GetImageConfig (LoadImageConfig decode content imageConfig).2
              = GetImageConfig imageConfig)
      ∧ (∀ parsed, decode content = .ok parsed →
        (LoadImageConfig decode content imageConfig).1.1 = some parsed
          ∧ (LoadImageConfig decode content imageConfig).1.2 = none
          ∧ GetImageConfig (LoadImageConfig decode content imageConfig).2 = some parsed) := by
  refine ⟨?_, ?_⟩
  · intro err h
    simp [LoadImageConfig, h, GetImageConfig]
  · intro parsed h
    simp [LoadImageConfig, h, GetImageConfig]

/-- Witness for C20: a failed load after a successful one keeps the loaded
configuration. -/
theorem C20_LoadImageConfig_swaps_whole_value_witness :
    (LoadImageConfig exampleDecode []
        (LoadImageConfig exampleDecode [123, 125] none).2).1.1 = none
      ∧ (LoadImageConfig exampleDecode []
          (LoadImageConfig exampleDecode [123, 125] none).2).1.2
          = some ("could not decode file into runtime.Object: ".toList
              ++ "empty document".toList)
      ∧ GetImageConfig (LoadImageConfig exampleDecode []
          (LoadImageConfig exampleDecode [123, 125] none).2).2
          = GetImageConfig (LoadImageConfig exampleDecode [123, 125] none).2 :=
  (C20_LoadImageConfig_swaps_whole_value exampleDecode []
      (LoadImageConfig exampleDecode [123, 125] none).2).1 "empty document".toList rfl

end images

/-! ## Failures, events and the order of the lookups -/

namespace reconciliation

variable {σ DC : Type}

/-- How the create loop ends: with `Continue` and no failed call, or with the
error of a failed call, which is then its last call and its only failure. -/
theorem createLoop_outcome (k : Client σ DC) (dc : DC) :
    ∀ (ss : List Service) (idx : Nat) (c : σ),
      ((createLoop k dc idx ss c).1 = .Continue
          ∧ ∀ call ∈ (createLoop k dc idx ss c).2.2, call.failure = none)
        ∨ ∃ e pre call, (createLoop k dc idx ss c).1 = .Error e
            ∧ (createLoop k dc idx ss c).2.2 = pre ++ [call]
            ∧ call.failure = some e ∧ ∀ c1 ∈ pre, c1.failure = none := by
  intro ss
  induction ss with
  | nil => intro idx c; exact Or.inl ⟨rfl, by simp [createLoop]⟩
  | cons s rest ih =>
    intro idx c
    rcases createBody_cases k dc idx s c with
      ⟨e, c1, _, hb⟩ | ⟨c1, e, c2, _, _, hb⟩ | ⟨c1, c2, _, _, hb⟩
    · rw [createLoop_returned _ _ _ _ _ _ _ _ _ hb]
      exact Or.inr ⟨e, [], .progress (some e), rfl, rfl, rfl, by simp⟩
    · rw [createLoop_returned _ _ _ _ _ _ _ _ _ hb]
      refine Or.inr ⟨e, [.progress none], .create idx s (some e), rfl, rfl, rfl, ?_⟩
      intro c1 hc1
      rw [List.mem_singleton.1 hc1]; rfl
    · rw [createLoop_next _ _ _ _ _ _ _ _ _ hb]
      have hhead : ∀ c1 ∈ ([.progress none, .create idx s none,
          .event dc "Normal".toList "CreatedResource".toList
            ("Created service ".toList ++ s.Name)] : List (Call DC)), c1.failure = none := by
        intro c1 hc1
        simp only [List.mem_cons, List.not_mem_nil, or_false] at hc1
        rcases hc1 with rfl | rfl | rfl <;> rfl
      rcases ih (idx + 1) c2 with ⟨hres, hnone⟩ | ⟨e, pre, call, hres, htr, hf, hpre⟩
      · refine Or.inl ⟨hres, ?_⟩
        intro call hm
        rcases List.mem_append.1 hm with hm | hm
        · exact hhead call hm
        · exact hnone call hm
      · refine Or.inr ⟨e,
          ([.progress none, .create idx s none,
            .event dc "Normal".toList "CreatedResource".toList
              ("Created service ".toList ++ s.Name)] : List (Call DC)) ++ pre,
          call, hres, ?_, hf, ?_⟩
        · show _ ++ (createLoop k dc (idx + 1) rest c2).2.2 = _
          rw [htr, List.append_assoc]
        · intro c1 hm
          rcases List.mem_append.1 hm with hm | hm
          · exact hhead c1 hm
          · exact hpre c1 hm

/-- How the check loop ends: without error; or on the first owner reference
that cannot be set, having made calls for the services before it only; or on
the error of a failed call, which is then its last call and its only
failure. -/
theorem checkLoop_outcome (h : Helpers DC) (k : Client σ DC) (dc : DC) :
    ∀ (ds : List Service) (idx : Nat) (cn : List Service) (c : σ),
      ((checkLoop h k dc idx ds cn c).err = none ∧ stampError h dc ds = none
          ∧ ∀ call ∈ (checkLoop h k dc idx ds cn c).trace, call.failure = none)
        ∨ (∃ e, (checkLoop h k dc idx ds cn c).err = some e ∧ stampError h dc ds = some e
            ∧ (∀ call ∈ (checkLoop h k dc idx ds cn c).trace, call.failure = none)
            ∧ ∀ call ∈ (checkLoop h k dc idx ds cn c).trace,
                ∃ j, call.checkIndex = some j
                  ∧ j < idx + (stampedUntilError h dc ds).length)
        ∨ ∃ e pre call, (checkLoop h k dc idx ds cn c).err = some e
            ∧ (checkLoop h k dc idx ds cn c).trace = pre ++ [call]
            ∧ call.failure = some e ∧ ∀ c1 ∈ pre, c1.failure = none := by
  intro ds
  induction ds with
  | nil => intro idx cn c; exact Or.inl ⟨rfl, rfl, by simp [checkLoop]⟩
  | cons svc rest ih =>
    intro idx cn c
    have step : ∀ (d : Service) cn1 c1 (calls : List (Call DC)),
        h.setControllerReference dc svc = .ok d →
        (∀ call ∈ calls, call.failure = none ∧ call.checkIndex = some idx) →
        (((checkLoop h k dc (idx + 1) rest cn1 c1).err = none
            ∧ stampError h dc (svc :: rest) = none
            ∧ ∀ call ∈ calls ++ (checkLoop h k dc (idx + 1) rest cn1 c1).trace,
                call.failure = none)
          ∨ (∃ e, (checkLoop h k dc (idx + 1) rest cn1 c1).err = some e
              ∧ stampError h dc (svc :: rest) = some e
              ∧ (∀ call ∈ calls ++ (checkLoop h k dc (idx + 1) rest cn1 c1).trace,
                  call.failure = none)
              ∧ ∀ call ∈ calls ++ (checkLoop h k dc (idx + 1) rest cn1 c1).trace,
                  ∃ j, call.checkIndex = some j
                    ∧ j < idx + (stampedUntilError h dc (svc :: rest)).length)
          ∨ ∃ e pre call, (checkLoop h k dc (idx + 1) rest cn1 c1).err = some e
              ∧ calls ++ (checkLoop h k dc (idx + 1) rest cn1 c1).trace = pre ++ [call]
              ∧ call.failure = some e ∧ ∀ c2 ∈ pre, c2.failure = none) := by
      intro d cn1 c1 calls hs hcalls
      have herr : stampError h dc (svc :: rest) = stampError h dc rest := by
        simp [stampError, hs]
      have hlen : (stampedUntilError h dc (svc :: rest)).length
          = (stampedUntilError h dc rest).length + 1 := by
        simp [stampedUntilError, hs]
      rw [herr, hlen]
      rcases ih (idx + 1) cn1 c1 with ⟨h1, h2, h3⟩ | ⟨e, h1, h2, h3, h4⟩
        | ⟨e, pre, call, h1, h2, h3, h4⟩
      · refine Or.inl ⟨h1, h2, ?_⟩
        intro call hm
        rcases List.mem_append.1 hm with hm | hm
        · exact (hcalls call hm).1
        · exact h3 call hm
      · refine Or.inr (Or.inl ⟨e, h1, h2, ?_, ?_⟩)
        · intro call hm
          rcases List.mem_append.1 hm with hm | hm
          · exact (hcalls call hm).1
          · exact h3 call hm
        · intro call hm
          rcases List.mem_append.1 hm with hm | hm
          · exact ⟨idx, (hcalls call hm).2, by omega⟩
          · obtain ⟨j, hj, hlt⟩ := h4 call hm
            exact ⟨j, hj, by omega⟩
      · refine Or.inr (Or.inr ⟨e, calls ++ pre, call, h1, ?_, h3, ?_⟩)
        · rw [h2, List.append_assoc]
        · intro c2 hm
          rcases List.mem_append.1 hm with hm | hm
          · exact (hcalls c2 hm).1
          · exact h4 c2 hm
    rcases checkBody_cases h k dc idx svc cn c with
      ⟨e1, hs1, hb⟩ | ⟨d1, e1, c1, hs1, _, hnf, hb⟩ | ⟨d1, e1, c1, hs1, _, hnf, hb⟩
        | ⟨d1, cur, c1, hs1, _, _, hb⟩ | ⟨d1, cur, c1, e1, c2, hs1, _, _, _, hb⟩
        | ⟨d1, cur, c1, c2, hs1, _, _, _, hb⟩
    · rw [checkLoop_returned _ _ _ _ _ _ _ _ _ _ _ hb]
      exact Or.inr (Or.inl ⟨e1, rfl, by simp [stampError, hs1], by simp, by simp⟩)
    · rw [checkLoop_next _ _ _ _ _ _ _ _ _ _ _ hb]
      refine step d1 _ _ _ hs1 ?_
      intro call hm
      rw [List.mem_singleton.1 hm]
      exact ⟨by simp [Call.failure, hnf], rfl⟩
    · rw [checkLoop_returned _ _ _ _ _ _ _ _ _ _ _ hb]
      exact Or.inr (Or.inr ⟨e1, [], _, rfl, rfl, by simp [Call.failure, hnf], by simp⟩)
    · rw [checkLoop_next _ _ _ _ _ _ _ _ _ _ _ hb]
      refine step d1 _ _ _ hs1 ?_
      intro call hm
      rw [List.mem_singleton.1 hm]
      exact ⟨rfl, rfl⟩
    · rw [checkLoop_returned _ _ _ _ _ _ _ _ _ _ _ hb]
      refine Or.inr (Or.inr ⟨e1, [.get idx (nsNameOf d1) (.found cur)], _, rfl, rfl, rfl, ?_⟩)
      intro c3 hm
      rw [List.mem_singleton.1 hm]; rfl
    · rw [checkLoop_next _ _ _ _ _ _ _ _ _ _ _ hb]
      refine step d1 _ _ _ hs1 ?_
      intro call hm
      simp only [List.mem_cons, List.not_mem_nil, or_false] at hm
      rcases hm with rfl | rfl <;> exact ⟨rfl, rfl⟩

/-- How a pass ends: with `Continue` and no failure; or with the error of the
first owner reference that cannot be set, having made no failed call and calls
for the services before it only; or with the error of a failed call, which is
then its last call and its only failure. -/
theorem CheckHeadlessServices_outcome (h : Helpers DC) (k : Client σ DC)
    (rc : ReconciliationContext σ DC) :
    ((CheckHeadlessServices h k rc).result = .Continue
        ∧ stampError h rc.Datacenter (desiredServices h rc.Datacenter) = none
        ∧ ∀ call ∈ (CheckHeadlessServices h k rc).trace, call.failure = none)
      ∨ (∃ e, (CheckHeadlessServices h k rc).result = .Error e
          ∧ stampError h rc.Datacenter (desiredServices h rc.Datacenter) = some e
          ∧ (∀ call ∈ (CheckHeadlessServices h k rc).trace, call.failure = none)
          ∧ ∀ call ∈ (CheckHeadlessServices h k rc).trace,
              ∃ j, call.checkIndex = some j
                ∧ j < (stampedUntilError h rc.Datacenter
                    (desiredServices h rc.Datacenter)).length)
      ∨ ∃ e pre call, (CheckHeadlessServices h k rc).result = .Error e
          ∧ (CheckHeadlessServices h k rc).trace = pre ++ [call]
          ∧ call.failure = some e ∧ ∀ c1 ∈ pre, c1.failure = none := by
  obtain ⟨out, hout, hcases⟩ := CheckHeadlessServices_cases h k rc
  have hcheck := checkLoop_outcome h k rc.Datacenter (desiredServices h rc.Datacenter) 0 []
    rc.Client
  rw [← hout] at hcheck
  rcases hcases with ⟨e, herr, hres, htr, _⟩ | ⟨herr, _, hres, htr, _⟩
    | ⟨herr, _, hres, htr, _⟩
  · rw [hres, htr]
    rcases hcheck with ⟨h1, _, _⟩ | ⟨e1, h1, h2, h3, h4⟩ | ⟨e1, pre, call, h1, h2, h3, h4⟩
    · rw [herr] at h1
      exact Option.noConfusion h1
    · rw [herr] at h1
      injection h1 with h1
      subst h1
      refine Or.inr (Or.inl ⟨e, rfl, h2, h3, ?_⟩)
      intro call hm
      obtain ⟨j, hj, hlt⟩ := h4 call hm
      exact ⟨j, hj, by omega⟩
    · rw [herr] at h1
      injection h1 with h1
      subst h1
      exact Or.inr (Or.inr ⟨e, pre, call, rfl, h2, h3, h4⟩)
  · rw [hres, htr]
    rcases hcheck with ⟨_, h2, h3⟩ | ⟨e1, h1, _⟩ | ⟨e1, pre, call, h1, _⟩
    · exact Or.inl ⟨rfl, h2, h3⟩
    · rw [herr] at h1
      exact Option.noConfusion h1
    · rw [herr] at h1
      exact Option.noConfusion h1
  · rw [hres, htr]
    rcases hcheck with ⟨_, h2, h3⟩ | ⟨e1, h1, _⟩ | ⟨e1, pre, call, h1, _⟩
    · rcases createLoop_outcome k rc.Datacenter out.createNeeded 0 out.Client with
        ⟨hc, hnone⟩ | ⟨e, pre, call, hc, hctr, hf, hpre⟩
      · refine Or.inl ⟨hc, h2, ?_⟩
        intro call hm
        rcases List.mem_append.1 hm with hm | hm
        · exact h3 call hm
        · exact hnone call hm
      · refine Or.inr (Or.inr ⟨e, out.trace ++ pre, call, hc, ?_, hf, ?_⟩)
        · rw [hctr, List.append_assoc]
        · intro c1 hm
          rcases List.mem_append.1 hm with hm | hm
          · exact h3 c1 hm
          · exact hpre c1 hm
    · rw [herr] at h1
      exact Option.noConfusion h1
    · rw [herr] at h1
      exact Option.noConfusion h1

/-- C11: a pass returns `Error e` exactly when a step failed with `e`, that
is, when a store call of the pass (a lookup with an error other than
not-found, an update, the progress-status write or a create) failed with `e`,
or no store call failed and `e` is the error of the first owner reference that
cannot be set; a failed store call is the last call of the pass and its only
failure, and after a failed owner reference the pass has made calls for the
services before it only; in every other case the pass returns `Continue`, and
it never returns `Done`. -/
theorem C11_error_iff_step_fails (h : Helpers DC) (k : Client σ DC)
    (rc : ReconciliationContext σ DC) :
    (CheckHeadlessServices h k rc).result ≠ .Done
      ∧ (∀ e, (CheckHeadlessServices h k rc).result = .Error e ↔
          (∃ call ∈ (CheckHeadlessServices h k rc).trace, call.failure = some e)
            ∨ ((∀ call ∈ (CheckHeadlessServices h k rc).trace, call.failure = none)
              ∧ stampError h rc.Datacenter (desiredServices h rc.Datacenter) = some e))
      ∧ ((CheckHeadlessServices h k rc).result = .Continue ↔
          (∀ call ∈ (CheckHeadlessServices h k rc).trace, call.failure = none)
            ∧ stampError h rc.Datacenter (desiredServices h rc.Datacenter) = none)
      ∧ (∀ call ∈ (CheckHeadlessServices h k rc).trace, call.failure ≠ none →
          ∃ pre, (CheckHeadlessServices h k rc).trace = pre ++ [call]
            ∧ ∀ c1 ∈ pre, c1.failure = none)
      ∧ ((∀ call ∈ (CheckHeadlessServices h k rc).trace, call.failure = none) →
          stampError h rc.Datacenter (desiredServices h rc.Datacenter) ≠ none →
          ∀ call ∈ (CheckHeadlessServices h k rc).trace,
            ∃ j, call.checkIndex = some j
              ∧ j < (stampedUntilError h rc.Datacenter
                  (desiredServices h rc.Datacenter)).length) := by
  rcases CheckHeadlessServices_outcome h k rc with
    ⟨hres, hstamp, hnone⟩ | ⟨e0, hres, hstamp, hnone, hidx⟩ | ⟨e0, pre, call0, hres, htr, hf, hpre⟩
  · refine ⟨by rw [hres]; exact fun hd => ReconcileResult.noConfusion hd, ?_, ?_, ?_, ?_⟩
    · intro e
      constructor
      · intro he
        rw [hres] at he
        exact ReconcileResult.noConfusion he
      · rintro (⟨call, hm, hc⟩ | ⟨_, hs⟩)
        · rw [hnone call hm] at hc
          exact Option.noConfusion hc
        · rw [hstamp] at hs
          exact Option.noConfusion hs
    · exact ⟨fun _ => ⟨hnone, hstamp⟩, fun _ => hres⟩
    · intro call hm hc
      exact absurd (hnone call hm) hc
    · intro _ hs
      exact absurd hstamp hs
  · refine ⟨by rw [hres]; exact fun hd => ReconcileResult.noConfusion hd, ?_, ?_, ?_, ?_⟩
    · intro e
      constructor
      · intro he
        rw [hres] at he
        injection he with he
        subst he
        exact Or.inr ⟨hnone, hstamp⟩
      · rintro (⟨call, hm, hc⟩ | ⟨_, hs⟩)
        · rw [hnone call hm] at hc
          exact Option.noConfusion hc
        · rw [hstamp] at hs
          injection hs with hs
          subst hs
          exact hres
    · constructor
      · intro hc
        rw [hres] at hc
        exact ReconcileResult.noConfusion hc
      · rintro ⟨_, hs⟩
        rw [hstamp] at hs
        exact Option.noConfusion hs
    · intro call hm hc
      exact absurd (hnone call hm) hc
    · intro _ _
      exact hidx
  · have hlast : call0 ∈ (CheckHeadlessServices h k rc).trace := by
      rw [htr]; simp
    have honly : ∀ call ∈ (CheckHeadlessServices h k rc).trace, call.failure ≠ none →
        call = call0 := by
      intro call hm hc
      rw [htr] at hm
      rcases List.mem_append.1 hm with hm | hm
      · exact absurd (hpre call hm) hc
      · exact List.mem_singleton.1 hm
    have hsome : call0.failure ≠ none := by
      rw [hf]; exact fun hn => Option.noConfusion hn
    refine ⟨by rw [hres]; exact fun hd => ReconcileResult.noConfusion hd, ?_, ?_, ?_, ?_⟩
    · intro e
      constructor
      · intro he
        rw [hres] at he
        injection he with he
        subst he
        exact Or.inl ⟨call0, hlast, hf⟩
      · rintro (⟨call, hm, hc⟩ | ⟨hn, _⟩)
        · have := honly call hm (by rw [hc]; exact fun hn => Option.noConfusion hn)
          subst this
          rw [hf] at hc
          injection hc with hc
          subst hc
          exact hres
        · exact absurd (hn call0 hlast) hsome
    · constructor
      · intro hc
        rw [hres] at hc
        exact ReconcileResult.noConfusion hc
      · rintro ⟨hn, _⟩
        exact absurd (hn call0 hlast) hsome
    · intro call hm hc
      have := honly call hm hc
      subst this
      exact ⟨pre, htr, hpre⟩
    · intro hn _
      exact absurd (hn call0 hlast) hsome

/-- Witness for C11: the forbidden lookup of the seed service of `dc1`. -/
theorem C11_error_iff_step_fails_witness :
    (CheckHeadlessServices (exampleHelpers []) (deniedClient [seedServiceName])
        { Client := staleStore, Datacenter := exampleDC }).result = .Error .Forbidden :=
  ((C11_error_iff_step_fails (exampleHelpers []) (deniedClient [seedServiceName])
      { Client := staleStore, Datacenter := exampleDC }).2.1 .Forbidden).2
    (Or.inl ⟨.get 1 seedServiceName (.failed .Forbidden), by decide, by decide⟩)

/-- The check loop records no event and makes no create. -/
theorem checkLoop_no_event (h : Helpers DC) (k : Client σ DC) (dc : DC)
    (ds : List Service) (idx : Nat) (cn : List Service) (c : σ) :
    recordedEvents (checkLoop h k dc idx ds cn c).trace = []
      ∧ successfulCreates (checkLoop h k dc idx ds cn c).trace = [] := by
  unfold recordedEvents successfulCreates
  rw [List.filterMap_eq_nil_iff, List.filterMap_eq_nil_iff]
  refine ⟨?_, ?_⟩ <;>
  · intro call hm
    rcases checkLoop_trace_kinds h k dc ds idx cn c call hm with
      ⟨j, n, r, rfl, _, _⟩ | ⟨j, o, e, rfl, _, _⟩ <;> rfl

/-- The create loop records one event for each create that succeeded, in
order, and no other event. -/
theorem createLoop_events (k : Client σ DC) (dc : DC) :
    ∀ (ss : List Service) (idx : Nat) (c : σ),
      recordedEvents (createLoop k dc idx ss c).2.2
        = (successfulCreates (createLoop k dc idx ss c).2.2).map fun obj =>
            (dc, "Normal".toList, "CreatedResource".toList,
              "Created service ".toList ++ obj.Name) := by
  intro ss
  induction ss with
  | nil => intro idx c; rfl
  | cons s rest ih =>
    intro idx c
    rcases createBody_cases k dc idx s c with
      ⟨e, c1, _, hb⟩ | ⟨c1, e, c2, _, _, hb⟩ | ⟨c1, c2, _, _, hb⟩
    · rw [createLoop_returned _ _ _ _ _ _ _ _ _ hb]; rfl
    · rw [createLoop_returned _ _ _ _ _ _ _ _ _ hb]; rfl
    · rw [createLoop_next _ _ _ _ _ _ _ _ _ hb]
      have hrest := ih (idx + 1) c2
      simp only [recordedEvents, successfulCreates, List.cons_append, List.nil_append,
        List.filterMap_cons, List.map_cons] at hrest ⊢
      rw [hrest]

/-- C16: in every pass, the events recorded are, in order, one event for each
service whose create succeeded, in creation order: attached to the datacenter
of the pass, of type `Normal`, with reason `CreatedResource` and the message
`Created service` followed by the name of the service.  No other event is
recorded: none for a lookup, an update or a no-op, none for a create that
failed; in particular a pass without a successful create records no event. -/
theorem C16_one_event_per_created_service (h : Helpers DC) (k : Client σ DC)
    (rc : ReconciliationContext σ DC) :
    recordedEvents (CheckHeadlessServices h k rc).trace
        = (successfulCreates (CheckHeadlessServices h k rc).trace).map (fun obj =>
            (rc.Datacenter, "Normal".toList, "CreatedResource".toList,
              "Created service ".toList ++ obj.Name))
      ∧ ((∀ call ∈ (CheckHeadlessServices h k rc).trace,
            ∀ idx obj, call ≠ .create idx obj none) →
          recordedEvents (CheckHeadlessServices h k rc).trace = []) := by
  obtain ⟨out, hout, hcases⟩ := CheckHeadlessServices_cases h k rc
  obtain ⟨hev, hcr⟩ := checkLoop_no_event h k rc.Datacenter
    (desiredServices h rc.Datacenter) 0 [] rc.Client
  rw [← hout] at hev hcr
  have hsplit : ∀ (t1 t2 : List (Call DC)),
      recordedEvents (t1 ++ t2) = recordedEvents t1 ++ recordedEvents t2
        ∧ successfulCreates (t1 ++ t2) = successfulCreates t1 ++ successfulCreates t2 := by
    intro t1 t2
    simp [recordedEvents, successfulCreates, List.filterMap_append]
  have hmain : recordedEvents (CheckHeadlessServices h k rc).trace
      = (successfulCreates (CheckHeadlessServices h k rc).trace).map (fun obj =>
          (rc.Datacenter, "Normal".toList, "CreatedResource".toList,
            "Created service ".toList ++ obj.Name)) := by
    rcases hcases with ⟨e, _, _, htr, _⟩ | ⟨_, _, _, htr, _⟩ | ⟨_, _, _, htr, _⟩
    · rw [htr, hev, hcr]; rfl
    · rw [htr, hev, hcr]; rfl
    · rw [htr, (hsplit _ _).1, (hsplit _ _).2, hev, hcr, List.nil_append, List.nil_append]
      exact createLoop_events k rc.Datacenter out.createNeeded 0 out.Client
  refine ⟨hmain, ?_⟩
  intro hno
  have hnone : successfulCreates (CheckHeadlessServices h k rc).trace = [] := by
    unfold successfulCreates
    rw [List.filterMap_eq_nil_iff]
    intro call hm
    have := hno call hm
    cases call with
    | create idx obj err =>
      cases err with
      | none => exact absurd rfl (this idx obj)
      | some e => rfl
    | get _ _ _ => rfl
    | update _ _ _ => rfl
    | progress _ => rfl
    | event _ _ _ _ => rfl
  rw [hmain, hnone]; rfl

/-- Witness for C16: over the store that holds only the stale client-facing
service of `dc1`, the pass updates that service and creates the three others;
it records three events, none of them for the update. -/
theorem C16_one_event_per_created_service_witness :
    recordedEvents (CheckHeadlessServices (exampleHelpers []) memClient
        { Client := staleStore, Datacenter := exampleDC }).trace
      = [(exampleDC, "Normal".toList, "CreatedResource".toList,
            "Created service dc1-seed-service".toList),
         (exampleDC, "Normal".toList, "CreatedResource".toList,
            "Created service dc1-all-pods-service".toList),
         (exampleDC, "Normal".toList, "CreatedResource".toList,
            "Created service dc1-additional-seed-service".toList)] :=
  (C16_one_event_per_created_service (exampleHelpers []) memClient
      { Client := staleStore, Datacenter := exampleDC }).1.trans (by decide)

/-- The check loop looks the services up in the order of its slice, under the
names of the stamped services: the names looked up are an initial part of the
names of the stamped services, and all of them when the loop ends without
error. -/
theorem checkLoop_lookedUp (h : Helpers DC) (k : Client σ DC) (dc : DC) :
    ∀ (ds : List Service) (idx : Nat) (cn : List Service) (c : σ),
      (∃ later, lookedUp (checkLoop h k dc idx ds cn c).trace ++ later
          = (stampedUntilError h dc ds).map nsNameOf)
        ∧ ((checkLoop h k dc idx ds cn c).err = none →
          lookedUp (checkLoop h k dc idx ds cn c).trace
              = (stampedUntilError h dc ds).map nsNameOf
            ∧ (stampedUntilError h dc ds).length = ds.length) := by
  intro ds
  induction ds with
  | nil => intro idx cn c; exact ⟨⟨[], rfl⟩, fun _ => ⟨rfl, rfl⟩⟩
  | cons svc rest ih =>
    intro idx cn c
    have step : ∀ (d : Service) cn1 c1 (calls : List (Call DC)),
        h.setControllerReference dc svc = .ok d → lookedUp calls = [nsNameOf d] →
        (∃ later, lookedUp (calls ++ (checkLoop h k dc (idx + 1) rest cn1 c1).trace) ++ later
            = (stampedUntilError h dc (svc :: rest)).map nsNameOf)
          ∧ ((checkLoop h k dc (idx + 1) rest cn1 c1).err = none →
            lookedUp (calls ++ (checkLoop h k dc (idx + 1) rest cn1 c1).trace)
                = (stampedUntilError h dc (svc :: rest)).map nsNameOf
              ∧ (stampedUntilError h dc (svc :: rest)).length = (svc :: rest).length) := by
      intro d cn1 c1 calls hs hcalls
      have hst : stampedUntilError h dc (svc :: rest) = d :: stampedUntilError h dc rest := by
        simp [stampedUntilError, hs]
      have happ : lookedUp (calls ++ (checkLoop h k dc (idx + 1) rest cn1 c1).trace)
          = nsNameOf d :: lookedUp (checkLoop h k dc (idx + 1) rest cn1 c1).trace := by
        unfold lookedUp at hcalls ⊢
        rw [List.filterMap_append, hcalls]; rfl
      obtain ⟨⟨later, hl⟩, hfull⟩ := ih (idx + 1) cn1 c1
      rw [hst, happ]
      refine ⟨⟨later, by simp [hl]⟩, ?_⟩
      intro he
      obtain ⟨h1, h2⟩ := hfull he
      exact ⟨by simp [h1], by simp [h2]⟩
    have stop : ∀ (d : Service) (calls : List (Call DC)),
        h.setControllerReference dc svc = .ok d → lookedUp calls = [nsNameOf d] →
        ∃ later, lookedUp calls ++ later
          = (stampedUntilError h dc (svc :: rest)).map nsNameOf := by
      intro d calls hs hcalls
      refine ⟨(stampedUntilError h dc rest).map nsNameOf, ?_⟩
      simp [stampedUntilError, hs, hcalls]
    rcases checkBody_cases h k dc idx svc cn c with
      ⟨e1, hs1, hb⟩ | ⟨d1, e1, c1, hs1, _, _, hb⟩ | ⟨d1, e1, c1, hs1, _, _, hb⟩
        | ⟨d1, cur, c1, hs1, _, _, hb⟩ | ⟨d1, cur, c1, e1, c2, hs1, _, _, _, hb⟩
        | ⟨d1, cur, c1, c2, hs1, _, _, _, hb⟩
    · rw [checkLoop_returned _ _ _ _ _ _ _ _ _ _ _ hb]
      exact ⟨⟨[], by simp [stampedUntilError, hs1, lookedUp]⟩,
        fun he => Option.noConfusion he⟩
    · rw [checkLoop_next _ _ _ _ _ _ _ _ _ _ _ hb]
      exact step d1 _ _ _ hs1 rfl
    · rw [checkLoop_returned _ _ _ _ _ _ _ _ _ _ _ hb]
      exact ⟨stop d1 _ hs1 rfl, fun he => Option.noConfusion he⟩
    · rw [checkLoop_next _ _ _ _ _ _ _ _ _ _ _ hb]
      exact step d1 _ _ _ hs1 rfl
    · rw [checkLoop_returned _ _ _ _ _ _ _ _ _ _ _ hb]
      exact ⟨stop d1 _ hs1 rfl, fun he => Option.noConfusion he⟩
    · rw [checkLoop_next _ _ _ _ _ _ _ _ _ _ _ hb]
      exact step d1 _ _ _ hs1 rfl

/-- The create loop makes no lookup. -/
theorem createLoop_lookedUp (k : Client σ DC) (dc : DC) (ss : List Service) (idx : Nat)
    (c : σ) : lookedUp (createLoop k dc idx ss c).2.2 = [] := by
  unfold lookedUp
  rw [List.filterMap_eq_nil_iff]
  intro call hm
  have := createLoop_trace_kinds k dc ss idx c call hm
  cases call <;> simp_all [Call.isGet]

/-- C13: the desired sequence is the client-facing service, the seed service,
the all-pods service and the additional-seed service, in this order, followed
by the node-port service exactly when `IsNodePortEnabled` holds, so that it
has 5 elements then and 4 otherwise; and a pass looks the services up in this
order, under the names of the stamped services: the names looked up are an
initial part of the sequence of these names, and the whole of it when the pass
returns `Continue`. -/
theorem C13_desired_sequence (h : Helpers DC) (k : Client σ DC)
    (rc : ReconciliationContext σ DC) :
    desiredServices h rc.Datacenter
        = [h.newServiceForCassandraDatacenter rc.Datacenter,
           h.newSeedServiceForCassandraDatacenter rc.Datacenter,
           h.newAllPodsServiceForCassandraDatacenter rc.Datacenter,
           h.newAdditionalSeedServiceForCassandraDatacenter rc.Datacenter]
          ++ (if h.IsNodePortEnabled rc.Datacenter = true then
                [h.newNodePortServiceForCassandraDatacenter rc.Datacenter]
              else [])
      ∧ (h.IsNodePortEnabled rc.Datacenter = true →
          (desiredServices h rc.Datacenter).length = 5
            ∧ (desiredServices h rc.Datacenter).getLast?
                = some (h.newNodePortServiceForCassandraDatacenter rc.Datacenter))
      ∧ (h.IsNodePortEnabled rc.Datacenter = false →
          (desiredServices h rc.Datacenter).length = 4)
      ∧ (∃ later, lookedUp (CheckHeadlessServices h k rc).trace ++ later
          = (stampedUntilError h rc.Datacenter (desiredServices h rc.Datacenter)).map
              nsNameOf)
      ∧ ((CheckHeadlessServices h k rc).result = .Continue →
          lookedUp (CheckHeadlessServices h k rc).trace
              = (stampedUntilError h rc.Datacenter (desiredServices h rc.Datacenter)).map
                  nsNameOf
            ∧ (stampedUntilError h rc.Datacenter (desiredServices h rc.Datacenter)).length
                = (desiredServices h rc.Datacenter).length) := by
  refine ⟨?_, ?_, ?_, ?_, ?_⟩
  · unfold desiredServices
    cases h.IsNodePortEnabled rc.Datacenter <;> simp
  · intro hnp
    simp [desiredServices, hnp]
  · intro hnp
    simp [desiredServices, hnp]
  · obtain ⟨out, hout, hcases⟩ := CheckHeadlessServices_cases h k rc
    obtain ⟨hpre, _⟩ := checkLoop_lookedUp h k rc.Datacenter
      (desiredServices h rc.Datacenter) 0 [] rc.Client
    rw [← hout] at hpre
    rcases hcases with ⟨e, _, _, htr, _⟩ | ⟨_, _, _, htr, _⟩ | ⟨_, _, _, htr, _⟩
    · rw [htr]; exact hpre
    · rw [htr]; exact hpre
    · rw [htr]
      have : lookedUp (out.trace
          ++ (createLoop k rc.Datacenter 0 out.createNeeded out.Client).2.2)
          = lookedUp out.trace := by
        have hc := createLoop_lookedUp k rc.Datacenter out.createNeeded 0 out.Client
        unfold lookedUp at hc ⊢
        rw [List.filterMap_append, hc, List.append_nil]
      rw [this]; exact hpre
  · intro hres
    obtain ⟨out, hout, hcases⟩ := CheckHeadlessServices_cases h k rc
    obtain ⟨_, hfull⟩ := checkLoop_lookedUp h k rc.Datacenter
      (desiredServices h rc.Datacenter) 0 [] rc.Client
    rw [← hout] at hfull
    rcases hcases with ⟨e, _, hr, htr, _⟩ | ⟨herr, _, _, htr, _⟩ | ⟨herr, _, _, htr, _⟩
    · rw [hr] at hres
      exact ReconcileResult.noConfusion hres
    · rw [htr]; exact hfull herr
    · rw [htr]
      have : lookedUp (out.trace
          ++ (createLoop k rc.Datacenter 0 out.createNeeded out.Client).2.2)
          = lookedUp out.trace := by
        have hc := createLoop_lookedUp k rc.Datacenter out.createNeeded 0 out.Client
        unfold lookedUp at hc ⊢
        rw [List.filterMap_append, hc, List.append_nil]
      rw [this]; exact hfull herr

/-- Witness for C13: the datacenter `dc1` with node-port exposure enabled. -/
theorem C13_desired_sequence_witness :
    (desiredServices (exampleHelpers []) { exampleDC with NodePort := true }).length = 5
      ∧ (desiredServices (exampleHelpers []) { exampleDC with NodePort := true }).getLast?
          = some ((exampleHelpers []).newNodePortServiceForCassandraDatacenter
              { exampleDC with NodePort := true }) :=
  (C13_desired_sequence (exampleHelpers []) memClient
      { Client := emptyStore, Datacenter := { exampleDC with NodePort := true } }).2.1 rfl

/-- C19: the `ClusterIP` of every update request is the `ClusterIP` of the
observed object, whatever the desired service sets: for a desired
client-facing service built with the address `10.9.9.9` and observed with the
address `10.0.0.5`, the update request carries `10.0.0.5`. -/
theorem C19_observed_ClusterIP_wins (h : Helpers DC) (k : Client σ DC)
    (rc : ReconciliationContext σ DC) (i : Nat) (obj : Service) (err : Option Err)
    (hmem : .update i obj err ∈ (CheckHeadlessServices h k rc).trace) :
    (∃ d dd obs, (desiredServices h rc.Datacenter)[i]? = some d
        ∧ h.setControllerReference rc.Datacenter d = .ok dd
        ∧ .get i (nsNameOf dd) (.found obs) ∈ (CheckHeadlessServices h k rc).trace
        ∧ h.ResourcesHaveSameHash obs dd = false
        ∧ obj.ClusterIP = obs.ClusterIP)
      ∧ (addressedHelpers.newServiceForCassandraDatacenter exampleDC).ClusterIP
          = "10.9.9.9".toList
      ∧ staleService.ClusterIP = "10.0.0.5".toList
      ∧ ((CheckHeadlessServices addressedHelpers memClient
            { Client := staleStore, Datacenter := exampleDC }).trace.filterMap
          (fun call =>
            match call with
            | .update _ o _ => some o.ClusterIP
            | _ => none)) = ["10.0.0.5".toList] := by
  refine ⟨?_, by decide, by decide, by decide⟩
  rw [CheckHeadlessServices_update_mem] at hmem
  obtain ⟨i1, d, dd, obs, hi, hd, hs, hg, hh, ho⟩ :=
    checkLoop_update_origin h k rc.Datacenter _ 0 [] rc.Client i obj err hmem
  have hi' : i1 = i := by omega
  subst hi'
  exact ⟨d, dd, obs, hd, hs, (CheckHeadlessServices_get_mem h k rc _ _ _).2 hg, hh,
    by rw [ho]; rfl⟩

/-- Witness for C19: the update of the client-facing service of `dc1`, desired
with the address `10.9.9.9` and observed with `10.0.0.5`. -/
theorem C19_observed_ClusterIP_wins_witness :
    ∃ d dd obs, (desiredServices addressedHelpers exampleDC)[0]? = some d
      ∧ addressedHelpers.setControllerReference exampleDC d = .ok dd
      ∧ .get 0 (nsNameOf dd) (.found obs)
          ∈ (CheckHeadlessServices addressedHelpers memClient
              { Client := staleStore, Datacenter := exampleDC }).trace
      ∧ addressedHelpers.ResourcesHaveSameHash obs dd = false
      ∧ (mergedForUpdate staleService
          { exampleStamped "-service".toList "h1".toList with
            ClusterIP := "10.9.9.9".toList }).ClusterIP = obs.ClusterIP :=
  (C19_observed_ClusterIP_wins addressedHelpers memClient
      { Client := staleStore, Datacenter := exampleDC } 0
      (mergedForUpdate staleService
        { exampleStamped "-service".toList "h1".toList with ClusterIP := "10.9.9.9".toList })
      none (by decide)).1

end reconciliation
